import Mathlib

/-!
# Urho2D `AnimatedSprite2D`: a shallow embedding of `AnimatedSprite2D.cpp`

The component state is a record, every member function is a function on that
record.  Conventions of the embedding:

* `float` values are exact rationals (`ℚ`).  A float operation whose IEEE result
  is an infinity or a NaN (a division or an `fmodf` by zero) has no rational
  value; the embedding stops there with `Fault.nonFinite`.
* The code itself does not stop there.  The definitions with the suffix `IEEE`
  embed `UpdateAnimation` and `SetAnimation` a second time and go on as the code
  does: the sampling time may be NaN (`none`), a comparison with NaN is false,
  and a parameter, `NonFinite`, supplies what is stored in place of a result
  that is not finite.  Where the first embedding returns, the second returns
  the same state (`UpdateAnimationIEEE_finite`, `SetAnimationIEEE_finite`).
* `int` values are integers; the one `int` addition of the file wraps at 32 bits
  (`wrapInt32`), and an `int` used as an `unsigned` index is reduced modulo
  `2 ^ 32` (`toUnsigned`).
* `Vector<T>` is `List T`; an index past the end, `Back()` of an empty vector and
  a call through a null pointer are faults, so member functions return
  `Except Fault _`.
* A `Node*` is an index into `children_`, the child entities this component has
  created under its owner node, in creation order.  `Remove()` marks the entity
  as detached.
* An `Animation2D*` is an address together with the (immutable) object it points
  to; pointer comparison compares addresses.
* Code of the engine that `AnimatedSprite2D.cpp` calls but that lives in other
  files is either a parameter, `Engine` (`Transform2D::operator*`,
  `Transform2D::Lerp`, the default `TransformInfo`, the state of a newly created
  child entity), or a definition whose comment says what it is modelled from
  (`Clamp`, `Lerp`, `Vector::Resize`, `MainlineKey2D::GetReference`,
  `AnimationSet2D::GetAnimation`).
* The recursion of `UpateTimelineWorldTransform` carries a bound on its depth;
  exceeding it is `Fault.stackOverflow`.  The statements about the resolver are
  phrased with `resolveInOrder` (calls for a list of indices), `visited` and
  `ancestors` (the slots a call enters, the parent chain of a slot), and
  `worldTransformOf` and `Resolves` (the world transform composed along the
  parent chain, as the specification describes it).
-/

namespace Urho3D

/-- Ways in which an execution leaves the embedding. -/
inductive Fault where
  /-- A `Vector` index that is not below `Size()`, or `Back()` of an empty `Vector`. -/
  | outOfRange
  /-- A member call through a null `Node*`. -/
  | nullDeref
  /-- A `Node*` that does not point to an entity created by this component. -/
  | danglingPointer
  /-- A float operation whose IEEE result is an infinity or a NaN. -/
  | nonFinite
  /-- Recursion that does not return. -/
  | stackOverflow
  deriving DecidableEq

/-- Two-component float vector (`Vector2`). -/
structure Vector2 where
  x_ : ℚ
  y_ : ℚ
  deriving DecidableEq

/-- Float colour (`Color`). -/
structure Color where
  r_ : ℚ
  g_ : ℚ
  b_ : ℚ
  a_ : ℚ
  deriving DecidableEq

/-- The three fields of `Transform2D` that `UpdateAnimation` reads (lines 346-348). -/
structure Transform2D where
  position_ : Vector2
  angle_ : ℚ
  scale_ : Vector2
  deriving DecidableEq

/-- Blend modes (`BlendMode`); the file names `BLEND_ALPHA` only. -/
inductive BlendMode where
  | BLEND_REPLACE
  | BLEND_ADD
  | BLEND_MULTIPLY
  | BLEND_ALPHA
  | BLEND_ADDALPHA
  | BLEND_PREMULALPHA
  | BLEND_INVDESTALPHA
  deriving DecidableEq

/-- Timeline kinds (`ObjectType2D`); the file names `OT_SPRITE` only. -/
inductive ObjectType2D where
  | OT_BONE
  | OT_SPRITE
  deriving DecidableEq

/-- Dense key of a timeline (`TimelineKey2D`), with the fields read at lines 280-296.
`sprite_` is a `Sprite2D` pointer: `none` is null. -/
structure TimelineKey2D where
  time_ : ℚ
  transform_ : Transform2D
  spin_ : Int
  sprite_ : Option Nat
  hotSpot_ : Vector2
  alpha_ : ℚ
  deriving DecidableEq

/-- Timeline definition (`Timeline2D`), with the fields read at lines 233-245 and 277. -/
structure Timeline2D where
  name_ : String
  type_ : ObjectType2D
  parent_ : Int
  timelineKeys_ : List TimelineKey2D
  deriving DecidableEq

/-- Mainline reference (`Reference2D`): the timeline it is for and its draw-order offset. -/
structure Reference2D where
  timeline_ : Int
  zIndex_ : Int
  deriving DecidableEq

/-- Mainline key (`MainlineKey2D`): a time and the references of the timelines active at it. -/
structure MainlineKey2D where
  time_ : ℚ
  references_ : List Reference2D
  deriving DecidableEq

/-- Modelled from the spec: `MainlineKey2D::GetReference` is defined in `Animation2D.cpp`,
which is not part of the sources at hand.  The key holds a sparse mapping from timeline
index to a reference, and an absent entry (a null result) means the timeline is inactive. -/
def MainlineKey2D.GetReference (key : MainlineKey2D) (timeline : Int) : Option Reference2D :=
  key.references_.find? (fun r => decide (r.timeline_ = timeline))

/-- Animation definition (`Animation2D`), with what its getters `GetLength`, `IsLooped`,
`GetNumTimelines`, `GetTimeline` and `GetMainlineKeys` return. -/
structure Animation2D where
  name_ : String
  length_ : ℚ
  looped_ : Bool
  timelines_ : List Timeline2D
  mainlineKeys_ : List MainlineKey2D
  deriving DecidableEq

/-- A non-null `Animation2D*`: the address and the object at it. -/
structure Animation2DPtr where
  addr : Nat
  obj : Animation2D
  deriving DecidableEq

/-- Pointer comparison `animation == animation_` (line 201); null is `none`. -/
def samePtr (a b : Option Animation2DPtr) : Bool :=
  a.map (fun p => p.addr) == b.map (fun p => p.addr)

/-- Animation set resource (`AnimationSet2D`): the animations it holds. -/
structure AnimationSet2D where
  animations_ : List Animation2DPtr
  deriving DecidableEq

/-- Modelled from the spec: `AnimationSet2D::GetAnimation` is defined in
`AnimationSet2D.cpp`, which is not part of the sources at hand.  It resolves a name
within the set; an unresolvable name gives null. -/
def AnimationSet2D.GetAnimation (set : AnimationSet2D) (name : String) :
    Option Animation2DPtr :=
  set.animations_.find? (fun p => decide (p.obj.name_ = name))

/-- A non-null `AnimationSet2D*`. -/
structure AnimationSet2DPtr where
  addr : Nat
  obj : AnimationSet2D
  deriving DecidableEq

/-- The part of a `StaticSprite2D` component that `AnimatedSprite2D` writes. -/
structure StaticSprite2D where
  layer_ : Int
  orderInLayer_ : Int
  blendMode_ : BlendMode
  useHotSpot_ : Bool
  sprite_ : Option Nat
  hotSpot_ : Vector2
  color_ : Color
  deriving DecidableEq

/-- A child entity (`Node`) with its `StaticSprite2D` component: the part of its state
that `AnimatedSprite2D` reads or writes.  `removed_` records that `Remove()` was called. -/
structure Node where
  name_ : String
  enabled_ : Bool
  position_ : Vector2
  rotation_ : ℚ
  scale_ : Vector2
  removed_ : Bool
  staticSprite : StaticSprite2D
  deriving DecidableEq

/-- Runtime slot of a timeline (`AnimatedSprite2D::TransformInfo`). -/
structure TransformInfo where
  parent_ : Int
  worldTransformUpdated_ : Bool
  localTransform_ : Transform2D
  worldTransform_ : Transform2D
  deriving DecidableEq

/-- Engine code that `AnimatedSprite2D.cpp` calls and that is defined in other files. -/
structure Engine where
  /-- `Transform2D::operator*`. -/
  mul : Transform2D → Transform2D → Transform2D
  /-- `Transform2D::Lerp (other, t, spin)`. -/
  lerp : Transform2D → Transform2D → ℚ → Int → Transform2D
  /-- The default-constructed `TransformInfo` that `Vector::Resize` appends. -/
  newInfo : TransformInfo
  /-- The entity returned by `CreateChild (name)` after `CreateComponent<StaticSprite2D>()`. -/
  newChild : String → Node

/-- The component (`AnimatedSprite2D`): its member variables, and `children_`, the entities
it has created under its owner node. -/
structure AnimatedSprite2D where
  layer_ : Int
  orderInLayer_ : Int
  blendMode_ : BlendMode
  speed_ : ℚ
  currentTime_ : ℚ
  animationSet_ : Option AnimationSet2DPtr
  animationName_ : String
  animation_ : Option Animation2DPtr
  timelineNodes_ : List (Option Nat)
  timelineTransformInfos_ : List TransformInfo
  children_ : List Node
  deriving DecidableEq

/-- Run `body 0`, ..., `body (n - 1)` in this order: `for (unsigned i = 0; i < n; ++i)`. -/
def forLoop {σ : Type} (body : Nat → σ → Except Fault σ) : Nat → σ → Except Fault σ
  | 0, s => .ok s
  | n + 1, s => forLoop body n s >>= body n

/-- Conversion of an `int` to `unsigned`. -/
def toUnsigned (x : Int) : Nat := (x % 2 ^ 32).toNat

/-- Result of an `int` operation on a 32-bit two's complement machine. -/
def wrapInt32 (x : Int) : Int := (x + 2 ^ 31) % 2 ^ 32 - 2 ^ 31

/-- Rounding toward zero. -/
def truncQ (q : ℚ) : Int := if 0 ≤ q then ⌊q⌋ else ⌈q⌉

/-- The C library `fmodf`: `x - n * y` with `n` the quotient `x / y` rounded toward zero;
NaN when `y` is zero, where this definition stops and `fmodfIEEE` goes on. -/
def fmodf (x y : ℚ) : Except Fault ℚ :=
  if y = 0 then .error .nonFinite else .ok (x - (truncQ (x / y) : ℚ) * y)

/-- Modelled from the spec: `Clamp` is defined in `MathDefs.h`, which is not part of the
sources at hand.  It clamps `value` to the range `[min, max]`. -/
def Clamp (value min max : ℚ) : ℚ :=
  if value < min then min else if value > max then max else value

/-- Modelled from the spec: `Lerp` is defined in `MathDefs.h`, which is not part of the
sources at hand.  Linear interpolation. -/
def Lerp (lhs rhs t : ℚ) : ℚ := lhs * (1 - t) + rhs * t

/-- Modelled from the spec: `Vector2::Lerp` is defined in `Vector2.h`, which is not part of
the sources at hand.  Linear interpolation of both components. -/
def Vector2.Lerp (lhs rhs : Vector2) (t : ℚ) : Vector2 :=
  ⟨Urho3D.Lerp lhs.x_ rhs.x_ t, Urho3D.Lerp lhs.y_ rhs.y_ t⟩

/-- Modelled from the spec: `Vector::Resize` is defined in `Vector.h`, which is not part of
the sources at hand.  It keeps the leading elements and appends default-constructed ones. -/
def resize {α : Type} (v : List α) (n : Nat) (dflt : α) : List α :=
  v.take n ++ List.replicate (n - v.length) dflt

/-- Apply `f` to the entity a non-null `Node*` points to. -/
def modifyNode (children : List Node) (id : Nat) (f : Node → Node) :
    Except Fault (List Node) :=
  match children[id]? with
  | none => .error .danglingPointer
  | some node => .ok (children.set id (f node))

namespace AnimatedSprite2D

/-- The constructor (lines 42-50); the smart pointers start null, the vectors empty. -/
def init : AnimatedSprite2D where
  layer_ := 0
  orderInLayer_ := 0
  blendMode_ := .BLEND_ALPHA
  speed_ := 1
  currentTime_ := 0
  animationSet_ := none
  animationName_ := ""
  animation_ := none
  timelineNodes_ := []
  timelineTransformInfos_ := []
  children_ := []

/-- Body of the loop of `SetLayer` (lines 91-92). -/
def setLayerBody (layer : Int) (timelineNodes : List (Option Nat)) (i : Nat)
    (children : List Node) : Except Fault (List Node) :=
  match timelineNodes[i]? with
  | none => .error .outOfRange
  | some none => .error .nullDeref
  | some (some id) =>
    modifyNode children id
      (fun node => { node with staticSprite := { node.staticSprite with layer_ := layer } })

/-- `AnimatedSprite2D::SetLayer` (lines 82-94). -/
def SetLayer (layer : Int) (s : AnimatedSprite2D) : Except Fault AnimatedSprite2D :=
  if layer = s.layer_ then .ok s
  else do
    let children ← forLoop (setLayerBody layer s.timelineNodes_) s.timelineNodes_.length
      s.children_
    pure { s with layer_ := layer, children_ := children }

/-- `AnimatedSprite2D::SetOrderInLayer` (lines 96-99). -/
def SetOrderInLayer (orderInLayer : Int) (s : AnimatedSprite2D) : AnimatedSprite2D :=
  { s with orderInLayer_ := orderInLayer }

/-- Body of the loop of `SetBlendMode` (lines 110-111). -/
def setBlendModeBody (blendMode : BlendMode) (timelineNodes : List (Option Nat)) (i : Nat)
    (children : List Node) : Except Fault (List Node) :=
  match timelineNodes[i]? with
  | none => .error .outOfRange
  | some none => .error .nullDeref
  | some (some id) =>
    modifyNode children id
      (fun node =>
        { node with staticSprite := { node.staticSprite with blendMode_ := blendMode } })

/-- `AnimatedSprite2D::SetBlendMode` (lines 101-113). -/
def SetBlendMode (blendMode : BlendMode) (s : AnimatedSprite2D) :
    Except Fault AnimatedSprite2D :=
  if blendMode = s.blendMode_ then .ok s
  else do
    let children ← forLoop (setBlendModeBody blendMode s.timelineNodes_)
      s.timelineNodes_.length s.children_
    pure { s with blendMode_ := blendMode, children_ := children }

/-- `AnimatedSprite2D::SetSpeed` (lines 115-119). -/
def SetSpeed (speed : ℚ) (s : AnimatedSprite2D) : AnimatedSprite2D :=
  { s with speed_ := speed }

/-- The time `UpdateAnimation` samples at (lines 260-270), from the elapsed time. -/
def sampleTime (animation : Animation2D) (currentTime : ℚ) : Except Fault ℚ :=
  if animation.looped_ then do
    let time ← fmodf currentTime animation.length_
    if time < 0 then pure (time + animation.length_) else pure time
  else pure (Clamp currentTime 0 animation.length_)

/-- The scan of lines 278-302 from index `j`, over the keys from `objectKeys[j]` on: the
first `j` with `time <= objectKeys[j + 1].time_`, together with `currKey` and `nextKey`. -/
def scanTimelineKeys (time : ℚ) :
    Nat → List TimelineKey2D → Option (Nat × TimelineKey2D × TimelineKey2D)
  | j, currKey :: nextKey :: rest =>
    if time ≤ nextKey.time_ then some (j, currKey, nextKey)
    else scanTimelineKeys time (j + 1) (nextKey :: rest)
  | _, _ => none

/-- Body of the first loop of `UpdateAnimation` (lines 275-302), on the pair of
`timelineTransformInfos_` and the child entities. -/
def updateLocalTransform (E : Engine) (animation : Animation2D) (time : ℚ)
    (timelineNodes : List (Option Nat)) (i : Nat) (st : List TransformInfo × List Node) :
    Except Fault (List TransformInfo × List Node) :=
  match animation.timelines_[i]? with
  | none => .error .outOfRange
  | some timeline =>
    -- `objectKeys.Size() - 1` wraps for an empty vector and `objectKeys[1]` is read
    if timeline.timelineKeys_.length = 0 then .error .outOfRange
    else
      match scanTimelineKeys time 0 timeline.timelineKeys_ with
      | none => .ok st
      | some (_, currKey, nextKey) =>
        if nextKey.time_ - currKey.time_ = 0 then .error .nonFinite
        else
          let t := (time - currKey.time_) / (nextKey.time_ - currKey.time_)
          match st.1[i]? with
          | none => .error .outOfRange
          | some info =>
            let infos := st.1.set i
              { info with
                localTransform_ := E.lerp currKey.transform_ nextKey.transform_ t currKey.spin_
                worldTransformUpdated_ := false }
            match timelineNodes[i]? with
            | none => .error .outOfRange
            | some none => .ok (infos, st.2)
            | some (some id) => do
              let children ← modifyNode st.2 id
                (fun node =>
                  { node with
                    staticSprite :=
                      { node.staticSprite with
                        sprite_ := currKey.sprite_
                        hotSpot_ := currKey.hotSpot_.Lerp nextKey.hotSpot_ t
                        color_ := ⟨1, 1, 1, Lerp currKey.alpha_ nextKey.alpha_ t⟩ } })
              pure (infos, children)

/-- `AnimatedSprite2D::UpateTimelineWorldTransform` (lines 359-377) on
`timelineTransformInfos_`.  The first argument bounds the depth of the recursion. -/
def UpateTimelineWorldTransform (E : Engine) :
    Nat → Nat → List TransformInfo → Except Fault (List TransformInfo)
  | 0, _, _ => .error .stackOverflow
  | fuel + 1, index, infos =>
    match infos[index]? with
    | none => .error .outOfRange
    | some info =>
      if info.worldTransformUpdated_ then .ok infos
      else if info.parent_ = -1 then
        .ok (infos.set index
          { info with worldTransform_ := info.localTransform_, worldTransformUpdated_ := true })
      else do
        let infos1 ← UpateTimelineWorldTransform E fuel (toUnsigned info.parent_) infos
        -- `info` is a reference into the vector: its fields are read after the call
        match infos1[index]?, infos1[toUnsigned info.parent_]? with
        | some info1, some parentInfo =>
          pure (infos1.set index
            { info1 with
              worldTransform_ := E.mul parentInfo.worldTransform_ info1.localTransform_
              worldTransformUpdated_ := true })
        | _, _ => .error .outOfRange

/-- The second loop of `UpdateAnimation` (lines 306-307).  A recursion deeper than the
number of slots has met a slot twice and does not return. -/
def updateWorldTransforms (E : Engine) (infos : List TransformInfo) :
    Except Fault (List TransformInfo) :=
  forLoop (fun i v => UpateTimelineWorldTransform E v.length i v) infos.length infos

/-- The scan of lines 312-319 from index `i`, over the keys from `mainlineKeys[i - 1]` on:
`i - 1` for the first `i` with `time < mainlineKeys[i].time_`. -/
def scanMainlineKeys (time : ℚ) : Nat → List MainlineKey2D → Option Nat
  | i, _ :: key :: rest =>
    if time < key.time_ then some (i - 1) else scanMainlineKeys time (i + 1) (key :: rest)
  | _, _ => none

/-- Index of the mainline key lines 310-322 select. -/
def mainlineKeyIndex (time : ℚ) (mainlineKeys : List MainlineKey2D) : Except Fault Nat :=
  match scanMainlineKeys time 1 mainlineKeys with
  | some i => .ok i
  | none => if mainlineKeys.length = 0 then .error .outOfRange else .ok (mainlineKeys.length - 1)

/-- The mainline key lines 310-322 select. -/
def getMainlineKey (time : ℚ) (mainlineKeys : List MainlineKey2D) :
    Except Fault MainlineKey2D := do
  let i ← mainlineKeyIndex time mainlineKeys
  match mainlineKeys[i]? with
  | none => .error .outOfRange
  | some key => pure key

/-- Body of the last loop of `UpdateAnimation` (lines 327-353), on the child entities. -/
def updateNode (orderInLayer : Int) (mainlineKey : MainlineKey2D)
    (timelineNodes : List (Option Nat)) (infos : List TransformInfo) (i : Nat)
    (children : List Node) : Except Fault (List Node) :=
  match timelineNodes[i]? with
  | none => .error .outOfRange
  | some none => .ok children
  | some (some id) =>
    match mainlineKey.GetReference (i : Int) with
    | none => modifyNode children id (fun node => { node with enabled_ := false })
    | some ref =>
      match infos[i]? with
      | none => .error .outOfRange
      | some info =>
        modifyNode children id
          (fun node =>
            { node with
              enabled_ := true
              scale_ := info.worldTransform_.scale_
              rotation_ := info.worldTransform_.angle_
              position_ := info.worldTransform_.position_
              staticSprite :=
                { node.staticSprite with
                  orderInLayer_ := wrapInt32 (orderInLayer + ref.zIndex_) } })

/-- Lines 272-354 of `UpdateAnimation`: the pose at the sampling time `time`. -/
def evaluate (E : Engine) (animation : Animation2D) (time : ℚ) (orderInLayer : Int)
    (timelineNodes : List (Option Nat)) (st : List TransformInfo × List Node) :
    Except Fault (List TransformInfo × List Node) := do
  let st1 ← forLoop (updateLocalTransform E animation time timelineNodes) st.1.length st
  let infos ← updateWorldTransforms E st1.1
  let mainlineKey ← getMainlineKey time animation.mainlineKeys_
  let children ← forLoop (updateNode orderInLayer mainlineKey timelineNodes infos)
    timelineNodes.length st1.2
  pure (infos, children)

/-- `AnimatedSprite2D::UpdateAnimation` (lines 253-357). -/
def UpdateAnimation (E : Engine) (timeStep : ℚ) (s : AnimatedSprite2D) :
    Except Fault AnimatedSprite2D :=
  match s.animation_ with
  | none => .ok s
  | some animation => do
    let currentTime := s.currentTime_ + timeStep * s.speed_
    let time ← sampleTime animation.obj currentTime
    let st ← evaluate E animation.obj time s.orderInLayer_ s.timelineNodes_
      (s.timelineTransformInfos_, s.children_)
    pure { s with currentTime_ := currentTime, timelineTransformInfos_ := st.1, children_ := st.2 }

/-- Body of the loop of lines 210-214: `Remove()` on the entity of slot `i`, if any. -/
def removeNode (timelineNodes : List (Option Nat)) (i : Nat) (children : List Node) :
    Except Fault (List Node) :=
  match timelineNodes[i]? with
  | none => .error .outOfRange
  | some none => .ok children
  | some (some id) => modifyNode children id (fun node => { node with removed_ := true })

/-- The entity of lines 235-240: a new child with a `StaticSprite2D` that has the layer and
blend mode of the component and uses the hot spot. -/
def createSprite (E : Engine) (layer : Int) (blendMode : BlendMode) (name : String) : Node :=
  let timelineNode := E.newChild name
  { timelineNode with
    staticSprite :=
      { timelineNode.staticSprite with
        layer_ := layer, blendMode_ := blendMode, useHotSpot_ := true } }

/-- Body of the loop of lines 229-246, on `timelineNodes_`, `timelineTransformInfos_` and
the child entities. -/
def createNode (E : Engine) (layer : Int) (blendMode : BlendMode) (animation : Animation2D)
    (i : Nat) (st : List (Option Nat) × List TransformInfo × List Node) :
    Except Fault (List (Option Nat) × List TransformInfo × List Node) :=
  match animation.timelines_[i]? with
  | none => .error .outOfRange
  | some timeline =>
    (if timeline.type_ = .OT_SPRITE then
        if i < st.1.length then
          .ok (st.1.set i (some st.2.2.length),
            st.2.2 ++ [createSprite E layer blendMode timeline.name_])
        else .error .outOfRange
      else .ok (st.1, st.2.2)) >>= fun created =>
    match st.2.1[i]? with
    | none => .error .outOfRange
    | some info =>
      .ok (created.1, st.2.1.set i { info with parent_ := timeline.parent_ }, created.2)

/-- Lines 208-217 of `SetAnimation`: with an animation bound, `Remove()` on every entity
and `timelineNodes_.Clear()`. -/
def removeTimelineNodes (s : AnimatedSprite2D) : Except Fault AnimatedSprite2D :=
  if s.animation_.isSome then
    forLoop (removeNode s.timelineNodes_) s.timelineNodes_.length s.children_ >>=
      fun children => .ok { s with timelineNodes_ := [], children_ := children }
  else .ok s

/-- `AnimatedSprite2D::SetAnimation (Animation2D*)` (lines 199-251). -/
def SetAnimation (E : Engine) (animation : Option Animation2DPtr) (s : AnimatedSprite2D) :
    Except Fault AnimatedSprite2D :=
  if samePtr animation s.animation_ then .ok { s with currentTime_ := 0 }
  else
    removeTimelineNodes s >>= fun s1 =>
    match animation with
    | none => .ok { s1 with animation_ := none }
    | some a =>
      forLoop (createNode E s1.layer_ s1.blendMode_ a.obj) a.obj.timelines_.length
        (resize s1.timelineNodes_ a.obj.timelines_.length none,
          resize s1.timelineTransformInfos_ a.obj.timelines_.length E.newInfo,
          s1.children_) >>= fun st =>
      UpdateAnimation E 0
        { s1 with
          animation_ := some a
          currentTime_ := 0
          timelineNodes_ := st.1
          timelineTransformInfos_ := st.2.1
          children_ := st.2.2 }

/-- `AnimatedSprite2D::SetAnimation (AnimationSet2D*, const String&)` (lines 121-130). -/
def SetAnimationInSet (E : Engine) (animationSet : Option AnimationSet2DPtr) (name : String)
    (s : AnimatedSprite2D) : Except Fault AnimatedSprite2D :=
  let s1 := { s with animationSet_ := animationSet, animationName_ := name }
  match animationSet with
  | some set => SetAnimation E (set.obj.GetAnimation name) s1
  | none => SetAnimation E none s1

/-- `AnimatedSprite2D::SetAnimationSet` (lines 132-144). -/
def SetAnimationSet (E : Engine) (animationSet : Option AnimationSet2DPtr)
    (s : AnimatedSprite2D) : Except Fault AnimatedSprite2D :=
  if animationSet.map (fun p => p.addr) = s.animationSet_.map (fun p => p.addr) then .ok s
  else
    let s1 := { s with animationSet_ := animationSet }
    match animationSet with
    | some set => SetAnimation E (set.obj.GetAnimation s1.animationName_) s1
    | none => SetAnimation E none s1

/-- `AnimatedSprite2D::SetAnimation (const String&)` (lines 145-151). -/
def SetAnimationName (E : Engine) (name : String) (s : AnimatedSprite2D) :
    Except Fault AnimatedSprite2D :=
  let s1 := { s with animationName_ := name }
  match s1.animationSet_ with
  | some set => SetAnimation E (set.obj.GetAnimation s1.animationName_) s1
  | none => .ok s1

/-- `AnimatedSprite2D::HandleScenePostUpdate` (lines 379-384) with the time step of the
event. -/
def HandleScenePostUpdate (E : Engine) (timeStep : ℚ) (s : AnimatedSprite2D) :
    Except Fault AnimatedSprite2D :=
  UpdateAnimation E timeStep s

end AnimatedSprite2D

/-- The entity without the sprite, hot spot and colour of its `StaticSprite2D`: the part
of an entity that the first loop of `UpdateAnimation` does not write. -/
def Node.body (node : Node) : Node :=
  { node with
    staticSprite :=
      { node.staticSprite with sprite_ := none, hotSpot_ := ⟨0, 0⟩, color_ := ⟨0, 0, 0, 0⟩ } }

/-- The component with the elapsed time forgotten: all of the state but `currentTime_`. -/
def forgetTime (s : AnimatedSprite2D) : AnimatedSprite2D := { s with currentTime_ := 0 }

/-- `chainEnds parents d p`: following the parent indices from `p` arrives at `-1` after at
most `d` slots, each index met on the way being a valid slot. -/
def chainEnds (parents : List Int) : Nat → Int → Bool
  | 0, p => decide (p = -1)
  | d + 1, p =>
    decide (p = -1) ||
      (decide (0 ≤ p) &&
        match parents[p.toNat]? with
        | some q => chainEnds parents d q
        | none => false)

/-- Parent indices of the timelines of an animation. -/
def Animation2D.parents (a : Animation2D) : List Int := a.timelines_.map (fun t => t.parent_)

/-- Well-formed animation data: the timeline count fits `unsigned`, every timeline has a
key, the mainline has a key, and from every timeline the parent chain ends at `-1`, every
index on it being `-1` or the index of a timeline (such a chain meets no timeline twice). -/
structure Animation2D.Valid (a : Animation2D) : Prop where
  count : a.timelines_.length < 2 ^ 32
  keys : ∀ timeline ∈ a.timelines_, timeline.timelineKeys_ ≠ []
  mainline : a.mainlineKeys_ ≠ []
  chains : ∀ i, i < a.timelines_.length → ∃ d, chainEnds a.parents d (i : Int) = true

/-- Adjacent keys differ in time. -/
def distinctTimes : List TimelineKey2D → Bool
  | currKey :: nextKey :: rest =>
    decide (nextKey.time_ - currKey.time_ ≠ 0) && distinctTimes (nextKey :: rest)
  | _ => true

/-- Animation data on which no float operation of `UpdateAnimation` divides by zero: a
looping animation has a non-zero length and adjacent timeline keys differ in time. -/
structure Animation2D.Regular (a : Animation2D) : Prop where
  length : a.looped_ = true → a.length_ ≠ 0
  keyTimes : ∀ timeline ∈ a.timelines_, distinctTimes timeline.timelineKeys_ = true

/-- Invariant of the component: the entity table is empty while nothing is bound and has
one slot per timeline otherwise, the `TransformInfo` table then carries the parent indices
of the timelines, and the entity pointers are live and pairwise different. -/
structure Inv (s : AnimatedSprite2D) : Prop where
  unbound : s.animation_ = none → s.timelineNodes_ = []
  nodesLen : ∀ a, s.animation_ = some a → s.timelineNodes_.length = a.obj.timelines_.length
  parents : ∀ a, s.animation_ = some a →
    s.timelineTransformInfos_.map (fun info => info.parent_) = a.obj.parents
  live : ∀ i id : Nat, s.timelineNodes_[i]? = some (some id) → id < s.children_.length
  distinct : ∀ i j id : Nat, s.timelineNodes_[i]? = some (some id) →
    s.timelineNodes_[j]? = some (some id) → i = j

/-- Invariant of the loop of lines 229-246 of `SetAnimation` before iteration `k`, with
`children0` the entities at the start of the loop. -/
structure CreateInv (a : Animation2D) (children0 : List Node) (k : Nat)
    (st : List (Option Nat) × List TransformInfo × List Node) : Prop where
  nodesLen : st.1.length = a.timelines_.length
  infosLen : st.2.1.length = a.timelines_.length
  grow : children0.length ≤ st.2.2.length
  old : ∀ j : Nat, j < children0.length → st.2.2[j]? = children0[j]?
  rest : ∀ i : Nat, k ≤ i → i < a.timelines_.length → st.1[i]? = some none
  live : ∀ i id : Nat, st.1[i]? = some (some id) → children0.length ≤ id ∧ id < st.2.2.length
  distinct : ∀ i j id : Nat, st.1[i]? = some (some id) → st.1[j]? = some (some id) → i = j
  parents : ∀ i : Nat, i < k →
    (st.2.1[i]?).map (fun info => info.parent_) = (a.timelines_[i]?).map (fun t => t.parent_)

/-- States the component reaches from its constructor through its member functions. -/
inductive Reachable (E : Engine) : AnimatedSprite2D → Prop where
  | init : Reachable E AnimatedSprite2D.init
  | setLayer {s s' : AnimatedSprite2D} (layer : Int) :
      Reachable E s → AnimatedSprite2D.SetLayer layer s = .ok s' → Reachable E s'
  | setOrderInLayer {s : AnimatedSprite2D} (orderInLayer : Int) :
      Reachable E s → Reachable E (AnimatedSprite2D.SetOrderInLayer orderInLayer s)
  | setBlendMode {s s' : AnimatedSprite2D} (blendMode : BlendMode) :
      Reachable E s → AnimatedSprite2D.SetBlendMode blendMode s = .ok s' → Reachable E s'
  | setSpeed {s : AnimatedSprite2D} (speed : ℚ) :
      Reachable E s → Reachable E (AnimatedSprite2D.SetSpeed speed s)
  | setAnimation {s s' : AnimatedSprite2D} (animation : Option Animation2DPtr) :
      Reachable E s → AnimatedSprite2D.SetAnimation E animation s = .ok s' → Reachable E s'
  | setAnimationInSet {s s' : AnimatedSprite2D} (animationSet : Option AnimationSet2DPtr)
      (name : String) :
      Reachable E s → AnimatedSprite2D.SetAnimationInSet E animationSet name s = .ok s' →
      Reachable E s'
  | setAnimationSet {s s' : AnimatedSprite2D} (animationSet : Option AnimationSet2DPtr) :
      Reachable E s → AnimatedSprite2D.SetAnimationSet E animationSet s = .ok s' →
      Reachable E s'
  | setAnimationName {s s' : AnimatedSprite2D} (name : String) :
      Reachable E s → AnimatedSprite2D.SetAnimationName E name s = .ok s' → Reachable E s'
  | updateAnimation {s s' : AnimatedSprite2D} (timeStep : ℚ) :
      Reachable E s → AnimatedSprite2D.UpdateAnimation E timeStep s = .ok s' → Reachable E s'

/-- Second invariant of the loop of lines 229-246 of `SetAnimation` before iteration `k`,
with `children0` the entities at the start of the loop: the slots of the timelines visited
hold an entity exactly for the timelines of sprite kind, every entity in the table is the
one `createSprite` made for its timeline, and every entity made by the loop is in the
table. -/
structure CreateKinds (E : Engine) (layer : Int) (blendMode : BlendMode) (a : Animation2D)
    (children0 : List Node) (k : Nat)
    (st : List (Option Nat) × List TransformInfo × List Node) : Prop where
  owned : ∀ id : Nat, children0.length ≤ id → id < st.2.2.length →
    ∃ i : Nat, st.1[i]? = some (some id)
  kind : ∀ (i : Nat) (timeline : Timeline2D), i < k → a.timelines_[i]? = some timeline →
    ((∃ id : Nat, st.1[i]? = some (some id)) ↔ timeline.type_ = .OT_SPRITE)
  fresh : ∀ i id : Nat, st.1[i]? = some (some id) →
    ∃ timeline, a.timelines_[i]? = some timeline ∧
      st.2.2[id]? = some (AnimatedSprite2D.createSprite E layer blendMode timeline.name_)

/-- The entities of the component that are not removed are those of the entity table. -/
def Owned (s : AnimatedSprite2D) : Prop :=
  ∀ id : Nat, (s.children_[id]?).map (fun node => node.removed_) = some false →
    ∃ i : Nat, s.timelineNodes_[i]? = some (some id)

/-- Calls of `UpateTimelineWorldTransform`, one for each index of `order`, in that order.
The loop of lines 305-307 is the order `0, 1, ..., Size () - 1`. -/
def resolveInOrder (E : Engine) :
    List Nat → List TransformInfo → Except Fault (List TransformInfo)
  | [], infos => .ok infos
  | index :: rest, infos =>
    AnimatedSprite2D.UpateTimelineWorldTransform E infos.length index infos >>=
      resolveInOrder E rest

/-- The slots a call `UpateTimelineWorldTransform (index)` enters, at recursion depth at
most `fuel`: `index`, and, when the slot is stale and has a parent, the slots the call for
the parent enters. -/
def visited (infos : List TransformInfo) : Nat → Nat → List Nat
  | 0, _ => []
  | fuel + 1, index =>
    match infos[index]? with
    | none => []
    | some info =>
      if info.worldTransformUpdated_ then [index]
      else if info.parent_ = -1 then [index]
      else index :: visited infos fuel (toUnsigned info.parent_)

/-- The ancestor chain of slot `index`, up to length `fuel`: the slot, its parent, the
parent of its parent, and so on to a root. -/
def ancestors (infos : List TransformInfo) : Nat → Nat → List Nat
  | 0, _ => []
  | fuel + 1, index =>
    match infos[index]? with
    | none => []
    | some info =>
      if info.parent_ = -1 then [index]
      else index :: ancestors infos fuel (toUnsigned info.parent_)

/-- The world transform of slot `index` as section 4.3 of the specification describes it,
from the local transforms and parent indices alone: the local transform of a slot without
parent, and the world transform of the parent times the local transform otherwise;
`fuel` bounds the length of the parent chain. -/
def worldTransformOf (E : Engine) (infos : List TransformInfo) :
    Nat → Nat → Option Transform2D
  | 0, _ => none
  | fuel + 1, index =>
    match infos[index]? with
    | none => none
    | some info =>
      if info.parent_ = -1 then some info.localTransform_
      else (worldTransformOf E infos fuel (toUnsigned info.parent_)).map
        (fun world => E.mul world info.localTransform_)

/-- A table agrees with the table `infos0` it was resolved from: same parent indices and
local transforms, and the world transform of every fresh slot is the one composed along
the parent chain. -/
def Resolves (E : Engine) (infos0 infos : List TransformInfo) : Prop :=
  infos.length = infos0.length ∧
  ∀ (k : Nat) (info : TransformInfo), infos[k]? = some info →
    ∃ info0, infos0[k]? = some info0 ∧ info.parent_ = info0.parent_ ∧
      info.localTransform_ = info0.localTransform_ ∧
      (info.worldTransformUpdated_ = true →
        ∃ d, worldTransformOf E infos0 d k = some info.worldTransform_)

/-! ### `UpdateAnimation` with the non-finite floats of IEEE arithmetic

The definitions above stop at a division or an `fmodf` by zero.  The code does not: `fmodf`
returns NaN, every comparison with NaN is false, and the quotient of line 284 is an
infinity or a NaN that lines 286, 295 and 296 store.  The definitions below follow the
code through these cases.  A `float` local that may be NaN is an `Option ℚ`, `none` being
NaN; rounding is not part of the embedding. -/

/-- What the embedding stores in place of a float result that is an infinity or a NaN, for
which the rationals have no value: the results of lines 286, 295 and 296 when the quotient
of line 284 is not finite, as functions of the two keys and the sampling time.
`AnimatedSprite2D.cpp` stores these results and passes them on; it compares none of them
and uses none of them as an index. -/
structure NonFinite where
  /-- `currKey.transform_.Lerp (nextKey.transform_, t, currKey.spin_)` (line 286). -/
  localTransform : TimelineKey2D → TimelineKey2D → Option ℚ → Transform2D
  /-- `currKey.hotSpot_.Lerp (nextKey.hotSpot_, t)` (line 295). -/
  hotSpot : TimelineKey2D → TimelineKey2D → Option ℚ → Vector2
  /-- `Lerp (currKey.alpha_, nextKey.alpha_, t)` (line 296). -/
  alpha : TimelineKey2D → TimelineKey2D → Option ℚ → ℚ

/-- The C library `fmodf` with its IEEE result for a zero divisor, NaN. -/
def fmodfIEEE (x y : ℚ) : Option ℚ :=
  if y = 0 then none else some (x - (truncQ (x / y) : ℚ) * y)

/-- The comparison `a <= b` of a float `a` that may be NaN: false for NaN. -/
def leIEEE (a : Option ℚ) (b : ℚ) : Bool :=
  match a with
  | some x => decide (x ≤ b)
  | none => false

/-- The comparison `a < b` of a float `a` that may be NaN: false for NaN. -/
def ltIEEE (a : Option ℚ) (b : ℚ) : Bool :=
  match a with
  | some x => decide (x < b)
  | none => false

namespace AnimatedSprite2D

/-- The time `UpdateAnimation` samples at (lines 260-270), from the elapsed time: NaN for a
looping animation of length zero. -/
def sampleTimeIEEE (animation : Animation2D) (currentTime : ℚ) : Option ℚ :=
  if animation.looped_ then
    let time := fmodfIEEE currentTime animation.length_
    if ltIEEE time 0 then time.map (fun x => x + animation.length_) else time
  else some (Clamp currentTime 0 animation.length_)

/-- The scan of lines 278-302 from index `j`, as `scanTimelineKeys`, for a sampling time
that may be NaN. -/
def scanTimelineKeysIEEE (time : Option ℚ) :
    Nat → List TimelineKey2D → Option (Nat × TimelineKey2D × TimelineKey2D)
  | j, currKey :: nextKey :: rest =>
    if leIEEE time nextKey.time_ then some (j, currKey, nextKey)
    else scanTimelineKeysIEEE time (j + 1) (nextKey :: rest)
  | _, _ => none

/-- Lines 284, 286, 295 and 296: the local transform, hot spot and alpha interpolated
between `currKey` and `nextKey` at `t = (time - currKey.time_) / (nextKey.time_ -
currKey.time_)`.  The quotient is finite when the time is and the key times differ. -/
def interpolateIEEE (E : Engine) (N : NonFinite) (time : Option ℚ)
    (currKey nextKey : TimelineKey2D) : Transform2D × Vector2 × ℚ :=
  match time with
  | some x =>
    if nextKey.time_ - currKey.time_ = 0 then
      (N.localTransform currKey nextKey time, N.hotSpot currKey nextKey time,
        N.alpha currKey nextKey time)
    else
      let t := (x - currKey.time_) / (nextKey.time_ - currKey.time_)
      (E.lerp currKey.transform_ nextKey.transform_ t currKey.spin_,
        currKey.hotSpot_.Lerp nextKey.hotSpot_ t, Lerp currKey.alpha_ nextKey.alpha_ t)
  | none =>
    (N.localTransform currKey nextKey time, N.hotSpot currKey nextKey time,
      N.alpha currKey nextKey time)

/-- Body of the first loop of `UpdateAnimation` (lines 275-302), as
`updateLocalTransform`, going on after a quotient that is not finite. -/
def updateLocalTransformIEEE (E : Engine) (N : NonFinite) (animation : Animation2D)
    (time : Option ℚ) (timelineNodes : List (Option Nat)) (i : Nat)
    (st : List TransformInfo × List Node) : Except Fault (List TransformInfo × List Node) :=
  match animation.timelines_[i]? with
  | none => .error .outOfRange
  | some timeline =>
    -- `objectKeys.Size() - 1` wraps for an empty vector and `objectKeys[1]` is read
    if timeline.timelineKeys_.length = 0 then .error .outOfRange
    else
      match scanTimelineKeysIEEE time 0 timeline.timelineKeys_ with
      | none => .ok st
      | some (_, currKey, nextKey) =>
        match st.1[i]? with
        | none => .error .outOfRange
        | some info =>
          match timelineNodes[i]? with
          | none => .error .outOfRange
          | some none =>
            .ok (st.1.set i
              { info with
                localTransform_ := (interpolateIEEE E N time currKey nextKey).1
                worldTransformUpdated_ := false }, st.2)
          | some (some id) =>
            modifyNode st.2 id
              (fun node =>
                { node with
                  staticSprite :=
                    { node.staticSprite with
                      sprite_ := currKey.sprite_
                      hotSpot_ := (interpolateIEEE E N time currKey nextKey).2.1
                      color_ := ⟨1, 1, 1, (interpolateIEEE E N time currKey nextKey).2.2⟩ } })
              >>= fun children =>
            .ok (st.1.set i
              { info with
                localTransform_ := (interpolateIEEE E N time currKey nextKey).1
                worldTransformUpdated_ := false }, children)

/-- The scan of lines 312-319 from index `i`, as `scanMainlineKeys`, for a sampling time
that may be NaN. -/
def scanMainlineKeysIEEE (time : Option ℚ) : Nat → List MainlineKey2D → Option Nat
  | i, _ :: key :: rest =>
    if ltIEEE time key.time_ then some (i - 1)
    else scanMainlineKeysIEEE time (i + 1) (key :: rest)
  | _, _ => none

/-- Index of the mainline key lines 310-322 select, for a sampling time that may be
NaN. -/
def mainlineKeyIndexIEEE (time : Option ℚ) (mainlineKeys : List MainlineKey2D) :
    Except Fault Nat :=
  match scanMainlineKeysIEEE time 1 mainlineKeys with
  | some i => .ok i
  | none => if mainlineKeys.length = 0 then .error .outOfRange else .ok (mainlineKeys.length - 1)

/-- The mainline key lines 310-322 select, for a sampling time that may be NaN. -/
def getMainlineKeyIEEE (time : Option ℚ) (mainlineKeys : List MainlineKey2D) :
    Except Fault MainlineKey2D :=
  mainlineKeyIndexIEEE time mainlineKeys >>= fun i =>
  match mainlineKeys[i]? with
  | none => .error .outOfRange
  | some key => .ok key

/-- Lines 272-354 of `UpdateAnimation`, as `evaluate`, for a sampling time that may be
NaN. -/
def evaluateIEEE (E : Engine) (N : NonFinite) (animation : Animation2D) (time : Option ℚ)
    (orderInLayer : Int) (timelineNodes : List (Option Nat))
    (st : List TransformInfo × List Node) : Except Fault (List TransformInfo × List Node) :=
  forLoop (updateLocalTransformIEEE E N animation time timelineNodes) st.1.length st >>=
    fun st1 =>
  updateWorldTransforms E st1.1 >>= fun infos =>
  getMainlineKeyIEEE time animation.mainlineKeys_ >>= fun mainlineKey =>
  forLoop (updateNode orderInLayer mainlineKey timelineNodes infos) timelineNodes.length st1.2
    >>= fun children =>
  .ok (infos, children)

/-- `AnimatedSprite2D::UpdateAnimation` (lines 253-357), going on after a float result
that is not finite. -/
def UpdateAnimationIEEE (E : Engine) (N : NonFinite) (timeStep : ℚ) (s : AnimatedSprite2D) :
    Except Fault AnimatedSprite2D :=
  match s.animation_ with
  | none => .ok s
  | some animation =>
    evaluateIEEE E N animation.obj
      (sampleTimeIEEE animation.obj (s.currentTime_ + timeStep * s.speed_))
      s.orderInLayer_ s.timelineNodes_ (s.timelineTransformInfos_, s.children_) >>= fun st =>
    .ok { s with
          currentTime_ := s.currentTime_ + timeStep * s.speed_
          timelineTransformInfos_ := st.1
          children_ := st.2 }

/-- `AnimatedSprite2D::SetAnimation (Animation2D*)` (lines 199-251), as `SetAnimation`,
with `UpdateAnimationIEEE` for the call of line 248. -/
def SetAnimationIEEE (E : Engine) (N : NonFinite) (animation : Option Animation2DPtr)
    (s : AnimatedSprite2D) : Except Fault AnimatedSprite2D :=
  if samePtr animation s.animation_ then .ok { s with currentTime_ := 0 }
  else
    removeTimelineNodes s >>= fun s1 =>
    match animation with
    | none => .ok { s1 with animation_ := none }
    | some a =>
      forLoop (createNode E s1.layer_ s1.blendMode_ a.obj) a.obj.timelines_.length
        (resize s1.timelineNodes_ a.obj.timelines_.length none,
          resize s1.timelineTransformInfos_ a.obj.timelines_.length E.newInfo,
          s1.children_) >>= fun st =>
      UpdateAnimationIEEE E N 0
        { s1 with
          animation_ := some a
          currentTime_ := 0
          timelineNodes_ := st.1
          timelineTransformInfos_ := st.2.1
          children_ := st.2.2 }

end AnimatedSprite2D

/-- States the component reaches from its constructor through `SetAnimation`,
`UpdateAnimation` and the setters of layer, draw order, blend mode and speed, going on
after float results that are not finite. -/
inductive ReachableIEEE (E : Engine) (N : NonFinite) : AnimatedSprite2D → Prop where
  | init : ReachableIEEE E N AnimatedSprite2D.init
  | setLayer {s s' : AnimatedSprite2D} (layer : Int) :
      ReachableIEEE E N s → AnimatedSprite2D.SetLayer layer s = .ok s' → ReachableIEEE E N s'
  | setOrderInLayer {s : AnimatedSprite2D} (orderInLayer : Int) :
      ReachableIEEE E N s → ReachableIEEE E N (AnimatedSprite2D.SetOrderInLayer orderInLayer s)
  | setBlendMode {s s' : AnimatedSprite2D} (blendMode : BlendMode) :
      ReachableIEEE E N s → AnimatedSprite2D.SetBlendMode blendMode s = .ok s' →
      ReachableIEEE E N s'
  | setSpeed {s : AnimatedSprite2D} (speed : ℚ) :
      ReachableIEEE E N s → ReachableIEEE E N (AnimatedSprite2D.SetSpeed speed s)
  | setAnimation {s s' : AnimatedSprite2D} (animation : Option Animation2DPtr) :
      ReachableIEEE E N s → AnimatedSprite2D.SetAnimationIEEE E N animation s = .ok s' →
      ReachableIEEE E N s'
  | updateAnimation {s s' : AnimatedSprite2D} (timeStep : ℚ) :
      ReachableIEEE E N s → AnimatedSprite2D.UpdateAnimationIEEE E N timeStep s = .ok s' →
      ReachableIEEE E N s'

/-- The state a run ends in, `init` standing for a run that faults. -/
def stateOf (r : Except Fault AnimatedSprite2D) : AnimatedSprite2D :=
  match r with
  | .ok s => s
  | .error _ => AnimatedSprite2D.init

namespace Sample

/-- An unrotated, unscaled transform at `(x, 0)`. -/
def at_ (x : ℚ) : Transform2D := ⟨⟨x, 0⟩, 0, ⟨1, 1⟩⟩

/-- A sample engine.  `mul` is the composition of transforms as `Transform2D::operator*`
computes it when the left transform is not rotated; `lerp` interpolates every field
linearly. -/
def engine : Engine where
  mul a b :=
    ⟨⟨a.position_.x_ + a.scale_.x_ * b.position_.x_, a.position_.y_ + a.scale_.y_ * b.position_.y_⟩,
      a.angle_ + b.angle_, ⟨a.scale_.x_ * b.scale_.x_, a.scale_.y_ * b.scale_.y_⟩⟩
  lerp a b t _ :=
    ⟨a.position_.Lerp b.position_ t, Lerp a.angle_ b.angle_ t, a.scale_.Lerp b.scale_ t⟩
  newInfo := ⟨-1, false, at_ 0, at_ 0⟩
  newChild name :=
    ⟨name, true, ⟨0, 0⟩, 0, ⟨1, 1⟩, false, ⟨0, 0, .BLEND_ALPHA, false, none, ⟨1 / 2, 1 / 2⟩, ⟨1, 1, 1, 1⟩⟩⟩

/-- A timeline key at `time` that places the timeline at `(x, 0)`. -/
def key (time x : ℚ) : TimelineKey2D := ⟨time, at_ x, 1, none, ⟨0, 1⟩, 1⟩

/-- Mainline keys at times 0, 1 and 2; timeline 0 is referenced by the keys at 0 and 2
only, timeline 1 by all three with draw-order offset 3. -/
def mainline : List MainlineKey2D :=
  [⟨0, [⟨0, 0⟩, ⟨1, 3⟩]⟩, ⟨1, [⟨1, 3⟩]⟩, ⟨2, [⟨0, 0⟩, ⟨1, 3⟩]⟩]

/-- A non-looping animation of length 3: a root timeline with keys at 0 and 3 that moves
from `x = 0` to `x = 6`, and a child of it with keys at 0 and 1 that moves from `x = 10` to
`x = 20`. -/
def walk : Animation2D where
  name_ := "walk"
  length_ := 3
  looped_ := false
  timelines_ :=
    [⟨"root", .OT_SPRITE, -1, [key 0 0, key 3 6]⟩, ⟨"child", .OT_SPRITE, 0, [key 0 10, key 1 20]⟩]
  mainlineKeys_ := mainline

/-- The animation `walk`, at address 1. -/
def walkPtr : Animation2DPtr := ⟨1, walk⟩

/-- The animation `walk` with the loop flag set, at address 2. -/
def cyclePtr : Animation2DPtr := ⟨2, { walk with name_ := "cycle", looped_ := true }⟩

/-- The component after `SetAnimation (walk)`. -/
def started : AnimatedSprite2D :=
  stateOf (AnimatedSprite2D.SetAnimation engine (some walkPtr) AnimatedSprite2D.init)

/-- The component `started` after `UpdateAnimation (3 / 2)`. -/
def stepped : AnimatedSprite2D := stateOf (AnimatedSprite2D.UpdateAnimation engine (3 / 2) started)

/-- The component after `SetAnimation (cycle)`. -/
def cycling : AnimatedSprite2D :=
  stateOf (AnimatedSprite2D.SetAnimation engine (some cyclePtr) AnimatedSprite2D.init)

/-- The component after `SetOrderInLayer (5)` and `SetAnimation (walk)`. -/
def bound : AnimatedSprite2D :=
  stateOf (AnimatedSprite2D.SetAnimation engine (some walkPtr)
    (AnimatedSprite2D.SetOrderInLayer 5 AnimatedSprite2D.init))

/-- The component `bound` after `UpdateAnimation (3 / 2)`. -/
def advanced : AnimatedSprite2D := stateOf (AnimatedSprite2D.UpdateAnimation engine (3 / 2) bound)

/-- An animation of length 2: a bone timeline with keys at 0 and 2, and a sprite timeline
attached to it with keys at 0 and 2; one mainline key at 0 that references both. -/
def skeleton : Animation2D where
  name_ := "skeleton"
  length_ := 2
  looped_ := false
  timelines_ :=
    [⟨"bone", .OT_BONE, -1, [key 0 0, key 2 4]⟩, ⟨"hand", .OT_SPRITE, 0, [key 0 1, key 2 3]⟩]
  mainlineKeys_ := [⟨0, [⟨0, 0⟩, ⟨1, 1⟩]⟩]

/-- The animation `skeleton`, at address 3. -/
def skeletonPtr : Animation2DPtr := ⟨3, skeleton⟩

/-- The component after `SetAnimation (skeleton)`. -/
def posed : AnimatedSprite2D :=
  stateOf (AnimatedSprite2D.SetAnimation engine (some skeletonPtr) AnimatedSprite2D.init)

/-- A non-looping animation of length 1 with one sprite timeline that has a single key, at
time 0 and `x = 5`, and one mainline key. -/
def still : Animation2D where
  name_ := "still"
  length_ := 1
  looped_ := false
  timelines_ := [⟨"body", .OT_SPRITE, -1, [key 0 5]⟩]
  mainlineKeys_ := [⟨0, [⟨0, 0⟩]⟩]

/-- The animation `still`, at address 4. -/
def stillPtr : Animation2DPtr := ⟨4, still⟩

/-- The component after `SetAnimation (still)`. -/
def rested : AnimatedSprite2D :=
  stateOf (AnimatedSprite2D.SetAnimation engine (some stillPtr) AnimatedSprite2D.init)

/-- The component `started` after `UpdateAnimation (1 / 2)`. -/
def paced : AnimatedSprite2D := stateOf (AnimatedSprite2D.UpdateAnimation engine (1 / 2) started)

/-- The component `paced` after `UpdateAnimation (1)`. -/
def lagged : AnimatedSprite2D := stateOf (AnimatedSprite2D.UpdateAnimation engine 1 paced)

/-- A non-looping animation of length 1 with one sprite timeline whose first two keys are
both at time 0, at `x = 1` and `x = 2`, followed by a key at time 1. -/
def flat : Animation2D where
  name_ := "flat"
  length_ := 1
  looped_ := false
  timelines_ := [⟨"body", .OT_SPRITE, -1, [key 0 1, key 0 2, key 1 3]⟩]
  mainlineKeys_ := [⟨0, [⟨0, 0⟩]⟩]

/-- The animation `flat`, at address 5. -/
def flatPtr : Animation2DPtr := ⟨5, flat⟩

/-- A table of three stale slots: slot 1 is a root at `x = 10`, slot 0 is its child at
`x = 1`, and slot 2 is a child of slot 0 at `x = 100`. -/
def table : List TransformInfo :=
  [⟨1, false, at_ 1, at_ 0⟩, ⟨-1, false, at_ 10, at_ 0⟩, ⟨0, false, at_ 100, at_ 0⟩]

/-- A table of four slots: slot 1 is a fresh root, slot 0 is its child, slot 2 is a child
of slot 0, and slot 3 is a root on its own; all but slot 1 are stale. -/
def family : List TransformInfo :=
  [⟨1, false, at_ 1, at_ 0⟩, ⟨-1, true, at_ 10, at_ 10⟩, ⟨0, false, at_ 100, at_ 0⟩,
    ⟨-1, false, at_ 7, at_ 0⟩]

/-- A looping animation of length 0: a bone timeline with one key and a sprite timeline
attached to it whose two keys are both at time 0; one mainline key. -/
def frozen : Animation2D where
  name_ := "frozen"
  length_ := 0
  looped_ := true
  timelines_ :=
    [⟨"bone", .OT_BONE, -1, [key 0 0]⟩, ⟨"hand", .OT_SPRITE, 0, [key 0 1, key 0 2]⟩]
  mainlineKeys_ := [⟨0, [⟨1, 0⟩]⟩]

/-- The animation `frozen`, at address 6. -/
def frozenPtr : Animation2DPtr := ⟨6, frozen⟩

/-- Sample values stored in place of float results that are not finite. -/
def nonFinite : NonFinite where
  localTransform _ _ _ := at_ (-1)
  hotSpot _ _ _ := ⟨-1, -1⟩
  alpha _ _ _ := -1

/-- The component after `SetAnimation (flat)`, going on after the division by zero. -/
def flattened : AnimatedSprite2D :=
  stateOf (AnimatedSprite2D.SetAnimationIEEE engine nonFinite (some flatPtr)
    AnimatedSprite2D.init)

/-- The component after `SetAnimation (frozen)`, going on after `fmodf` by zero. -/
def halted : AnimatedSprite2D :=
  stateOf (AnimatedSprite2D.SetAnimationIEEE engine nonFinite (some frozenPtr)
    AnimatedSprite2D.init)

end Sample

end Urho3D

namespace Urho3D
open AnimatedSprite2D

/-! ## Loops and entity updates -/

@[simp] theorem bind_ok {α β : Type} (a : α) (f : α → Except Fault β) :
    (Except.ok a >>= f) = f a := rfl

@[simp] theorem bind_error {α β : Type} (e : Fault) (f : α → Except Fault β) :
    ((Except.error e : Except Fault α) >>= f) = Except.error e := rfl

theorem bind_eq_ok {α β : Type} {r : Except Fault α} {f : α → Except Fault β} {b : β}
    (h : (r >>= f) = .ok b) : ∃ a, r = .ok a ∧ f a = .ok b := by
  cases r with
  | error e => simp at h
  | ok a => exact ⟨a, rfl, h⟩

theorem forLoop_succ {σ : Type} (body : Nat → σ → Except Fault σ) (n : Nat) (s : σ) :
    forLoop body (n + 1) s = (forLoop body n s >>= body n) := rfl

/-- Partial correctness of a loop from an invariant. -/
theorem forLoop_inv {σ : Type} (body : Nat → σ → Except Fault σ) (P : Nat → σ → Prop)
    (n : Nat) (s : σ) (h0 : P 0 s)
    (hstep : ∀ i t t', i < n → P i t → body i t = .ok t' → P (i + 1) t') :
    ∀ s', forLoop body n s = .ok s' → P n s' := by
  induction n with
  | zero =>
    intro s' h
    simp [forLoop] at h
    subst h
    exact h0
  | succ n ih =>
    intro s' h
    rw [forLoop_succ] at h
    obtain ⟨t, ht, hb⟩ := bind_eq_ok h
    exact hstep n t s' (Nat.lt_succ_self n)
      (ih (fun i u u' hi => hstep i u u' (Nat.lt_succ_of_lt hi)) t ht) hb

/-- Total correctness of a loop from an invariant. -/
theorem forLoop_total {σ : Type} (body : Nat → σ → Except Fault σ) (P : Nat → σ → Prop)
    (n : Nat) (s : σ) (h0 : P 0 s)
    (hstep : ∀ i t, i < n → P i t → ∃ t', body i t = .ok t' ∧ P (i + 1) t') :
    ∃ s', forLoop body n s = .ok s' ∧ P n s' := by
  induction n with
  | zero => exact ⟨s, rfl, h0⟩
  | succ n ih =>
    obtain ⟨t, ht, hP⟩ := ih (fun i u hi => hstep i u (Nat.lt_succ_of_lt hi))
    obtain ⟨t', ht', hP'⟩ := hstep n t (Nat.lt_succ_self n) hP
    exact ⟨t', by rw [forLoop_succ, ht]; exact ht', hP'⟩

theorem modifyNode_ok {children children' : List Node} {id : Nat} {f : Node → Node}
    (h : modifyNode children id f = .ok children') :
    ∃ node, children[id]? = some node ∧ children' = children.set id (f node) := by
  unfold modifyNode at h
  cases hc : children[id]? with
  | none => simp [hc] at h
  | some node =>
    simp only [hc] at h
    exact ⟨node, rfl, (Except.ok.inj h).symm⟩

theorem modifyNode_total {children : List Node} {id : Nat} (f : Node → Node)
    (h : id < children.length) :
    ∃ node, children[id]? = some node ∧
      modifyNode children id f = .ok (children.set id (f node)) := by
  refine ⟨children[id], List.getElem?_eq_getElem h, ?_⟩
  simp [modifyNode, List.getElem?_eq_getElem h]

theorem getElem?_set_some {children : List Node} {id : Nat} {node : Node}
    (h : children[id]? = some node) (x : Node) (j : Nat) :
    (children.set id x)[j]? = if j = id then some x else children[j]? := by
  have hlt : id < children.length := (List.getElem?_eq_some.mp h).1
  rw [List.getElem?_set]
  by_cases hj : id = j
  · subst hj; simp [hlt]
  · have : ¬ j = id := fun e => hj e.symm
    simp [hj, this]

/-- An entity update that keeps `φ` keeps `φ` of every entity. -/
theorem modifyNode_frame {β : Type} (φ : Node → β) {children children' : List Node} {id : Nat}
    {f : Node → Node} (hφ : ∀ node, φ (f node) = φ node)
    (h : modifyNode children id f = .ok children') :
    children'.length = children.length ∧
      ∀ j : Nat, (children'[j]?).map φ = (children[j]?).map φ := by
  obtain ⟨node, hn, rfl⟩ := modifyNode_ok h
  refine ⟨by simp, fun j => ?_⟩
  rw [getElem?_set_some hn]
  by_cases hj : j = id
  · subst hj; simp [hn, hφ]
  · simp [hj]

/-! ## The first loop of `UpdateAnimation` -/

theorem map_parent_set {infos : List TransformInfo} {i : Nat} {info : TransformInfo}
    (x : TransformInfo) (hinfo : infos[i]? = some info) (hx : x.parent_ = info.parent_) :
    (infos.set i x).map (fun info => info.parent_) = infos.map (fun info => info.parent_) := by
  obtain ⟨hlt, hget⟩ := List.getElem?_eq_some.mp hinfo
  apply List.ext_getElem?
  intro n
  rw [List.map_set, List.getElem?_set]
  by_cases hn : i = n
  · subst hn
    simp [hlt, hget, hx]
  · simp [hn]

/-- What one iteration of the first loop leaves alone: the parent indices, the number of
entities, and every part `φ` of an entity that the sprite, hot spot and colour do not
enter. -/
theorem updateLocalTransform_frame {β : Type} (φ : Node → β)
    (hφ : ∀ (node : Node) sp hs col,
      φ { node with
          staticSprite := { node.staticSprite with sprite_ := sp, hotSpot_ := hs, color_ := col } }
        = φ node)
    {E : Engine} {a : Animation2D} {time : ℚ} {timelineNodes : List (Option Nat)} {i : Nat}
    {st st' : List TransformInfo × List Node}
    (h : updateLocalTransform E a time timelineNodes i st = .ok st') :
    st'.1.map (fun info => info.parent_) = st.1.map (fun info => info.parent_) ∧
      st'.2.length = st.2.length ∧
      ∀ j : Nat, (st'.2[j]?).map φ = (st.2[j]?).map φ := by
  unfold updateLocalTransform at h
  split at h
  · simp at h
  · split at h
    · simp at h
    · split at h
      · cases h
        simp
      · split at h
        · simp at h
        · split at h
          · simp at h
          · rename_i info hinfo
            have hpar : ∀ x : TransformInfo, x.parent_ = info.parent_ →
                (st.1.set i x).map (fun info => info.parent_) =
                  st.1.map (fun info => info.parent_) :=
              fun x hx => map_parent_set x hinfo hx
            split at h
            · simp at h
            · cases h
              exact ⟨hpar _ rfl, rfl, fun j => rfl⟩
            · obtain ⟨children, hc, hr⟩ := bind_eq_ok h
              cases hr
              obtain ⟨hlen, hfr⟩ := modifyNode_frame φ (fun node => hφ node _ _ _) hc
              exact ⟨hpar _ rfl, hlen, hfr⟩

/-- What the first loop leaves alone. -/
theorem localLoop_frame {β : Type} (φ : Node → β)
    (hφ : ∀ (node : Node) sp hs col,
      φ { node with
          staticSprite := { node.staticSprite with sprite_ := sp, hotSpot_ := hs, color_ := col } }
        = φ node)
    (E : Engine) (a : Animation2D) (time : ℚ) (timelineNodes : List (Option Nat)) (n : Nat)
    (st st' : List TransformInfo × List Node)
    (h : forLoop (updateLocalTransform E a time timelineNodes) n st = .ok st') :
    st'.1.map (fun info => info.parent_) = st.1.map (fun info => info.parent_) ∧
      st'.2.length = st.2.length ∧
      ∀ j : Nat, (st'.2[j]?).map φ = (st.2[j]?).map φ := by
  refine forLoop_inv (updateLocalTransform E a time timelineNodes)
    (fun _ t => t.1.map (fun info => info.parent_) = st.1.map (fun info => info.parent_) ∧
      t.2.length = st.2.length ∧ ∀ j : Nat, (t.2[j]?).map φ = (st.2[j]?).map φ)
    n st ⟨rfl, rfl, fun _ => rfl⟩ ?_ st' h
  intro i t t' _ hP hb
  obtain ⟨h1, h2, h3⟩ := updateLocalTransform_frame φ hφ hb
  exact ⟨h1.trans hP.1, h2.trans hP.2.1, fun j => (h3 j).trans (hP.2.2 j)⟩

theorem length_eq_of_map_parent {v w : List TransformInfo}
    (h : v.map (fun info => info.parent_) = w.map (fun info => info.parent_)) :
    v.length = w.length := by
  have := congrArg List.length h
  simpa using this

theorem toUnsigned_eq {q : Int} (h0 : 0 ≤ q) (h1 : q.toNat < 2 ^ 32) : toUnsigned q = q.toNat := by
  unfold toUnsigned
  have hq : q < 2 ^ 32 := by
    have := Int.toNat_of_nonneg h0
    omega
  rw [Int.emod_eq_of_lt h0 hq]

/-- The resolver does not change a parent index. -/
theorem UpateTimelineWorldTransform_parents (E : Engine) :
    ∀ (fuel index : Nat) (infos infos' : List TransformInfo),
      UpateTimelineWorldTransform E fuel index infos = .ok infos' →
      infos'.map (fun info => info.parent_) = infos.map (fun info => info.parent_)
  | 0, _, _, _, h => by simp [UpateTimelineWorldTransform] at h
  | fuel + 1, index, infos, infos', h => by
    unfold UpateTimelineWorldTransform at h
    split at h
    · simp at h
    · rename_i info hinfo
      split at h
      · cases h; rfl
      · split at h
        · cases h
          exact map_parent_set _ hinfo rfl
        · obtain ⟨infos1, h1, h2⟩ := bind_eq_ok h
          have ih := UpateTimelineWorldTransform_parents E fuel _ infos infos1 h1
          split at h2
          · rename_i info1 parentInfo hinfo1 hparent
            cases h2
            rw [← ih]
            exact map_parent_set _ hinfo1 rfl
          · simp at h2

theorem chainEnds_node {parents : List Int} {d : Nat} {q : Int}
    (h : chainEnds parents d q = true) (hq : q ≠ -1) :
    0 ≤ q ∧ q.toNat < parents.length ∧
      ∃ d' r, d = d' + 1 ∧ parents[q.toNat]? = some r ∧ chainEnds parents d' r = true := by
  cases d with
  | zero => simp [chainEnds, hq] at h
  | succ d' =>
    simp only [chainEnds, hq, decide_False, Bool.false_or, Bool.and_eq_true,
      decide_eq_true_eq] at h
    obtain ⟨h0, h1⟩ := h
    cases hp : parents[q.toNat]? with
    | none => simp [hp] at h1
    | some r =>
      simp only [hp] at h1
      exact ⟨h0, (List.getElem?_eq_some.mp hp).1, d', r, rfl, rfl, h1⟩

/-- The resolver returns when the parent chain from the slot ends within the fuel. -/
theorem UpateTimelineWorldTransform_total (E : Engine) :
    ∀ (fuel : Nat) (p : Int) (infos : List TransformInfo),
      infos.length < 2 ^ 32 → p ≠ -1 →
      chainEnds (infos.map (fun info => info.parent_)) fuel p = true →
      ∃ infos', UpateTimelineWorldTransform E fuel p.toNat infos = .ok infos'
  | fuel, p, infos, hlen, hp, hc => by
    obtain ⟨h0, hlt, fuel', q, rfl, hq, hcq⟩ := chainEnds_node hc hp
    rw [List.length_map] at hlt
    rw [List.getElem?_map] at hq
    have hinfo : infos[p.toNat]? = some infos[p.toNat] := List.getElem?_eq_getElem hlt
    rw [hinfo] at hq
    simp only [Option.map_some', Option.some.injEq] at hq
    unfold UpateTimelineWorldTransform
    simp only [hinfo]
    by_cases hup : infos[p.toNat].worldTransformUpdated_ = true
    · simp only [hup, if_true]
      exact ⟨_, rfl⟩
    · simp only [hup, if_false]
      by_cases hroot : infos[p.toNat].parent_ = -1
      · simp only [hroot, if_true]
        exact ⟨_, rfl⟩
      · simp only [hroot, if_false]
        have hq1 : q ≠ -1 := hq ▸ hroot
        obtain ⟨hq0, hqlt, -⟩ := chainEnds_node hcq hq1
        rw [List.length_map] at hqlt
        have hun : toUnsigned infos[p.toNat].parent_ = q.toNat := by
          rw [hq]
          exact toUnsigned_eq hq0 (lt_trans hqlt hlen)
        obtain ⟨infos1, h1⟩ := UpateTimelineWorldTransform_total E fuel' q infos hlen hq1 hcq
        have hlen1 : infos1.length = infos.length :=
          length_eq_of_map_parent (UpateTimelineWorldTransform_parents E _ _ _ _ h1)
        rw [hun, h1]
        simp only [bind_ok]
        rw [List.getElem?_eq_getElem (by omega : p.toNat < infos1.length),
          List.getElem?_eq_getElem (by omega : q.toNat < infos1.length)]
        exact ⟨_, rfl⟩

/-- The second loop does not change a parent index. -/
theorem updateWorldTransforms_parents (E : Engine) (infos infos' : List TransformInfo)
    (h : updateWorldTransforms E infos = .ok infos') :
    infos'.map (fun info => info.parent_) = infos.map (fun info => info.parent_) := by
  refine forLoop_inv (fun i v => UpateTimelineWorldTransform E v.length i v)
    (fun _ v => v.map (fun info => info.parent_) = infos.map (fun info => info.parent_))
    infos.length infos rfl ?_ infos' h
  intro i t t' _ hP hb
  exact (UpateTimelineWorldTransform_parents E _ _ _ _ hb).trans hP

/-- The second loop returns when every parent chain ends. -/
theorem updateWorldTransforms_total (E : Engine) (infos : List TransformInfo)
    (hlen : infos.length < 2 ^ 32)
    (hc : ∀ i, i < infos.length →
      chainEnds (infos.map (fun info => info.parent_)) infos.length (i : Int) = true) :
    ∃ infos', updateWorldTransforms E infos = .ok infos' := by
  obtain ⟨infos', h, -⟩ := forLoop_total (fun i v => UpateTimelineWorldTransform E v.length i v)
    (fun _ v => v.map (fun info => info.parent_) = infos.map (fun info => info.parent_))
    infos.length infos rfl (by
      intro i t hi hP
      have hl : t.length = infos.length := length_eq_of_map_parent hP
      have hne : (i : Int) ≠ -1 := by omega
      obtain ⟨t', ht'⟩ := UpateTimelineWorldTransform_total E t.length (i : Int) t
        (by omega) hne (by rw [hP, hl]; exact hc i hi)
      rw [Int.toNat_ofNat] at ht'
      exact ⟨t', ht', (UpateTimelineWorldTransform_parents E _ _ _ _ ht').trans hP⟩)
  exact ⟨infos', h⟩

/-! ## The mainline key -/

theorem scanMainlineKeys_some (time : ℚ) :
    ∀ (keys : List MainlineKey2D) (i c : Nat),
      scanMainlineKeys time (i + 1) keys = some c →
      ∃ m, c = i + m ∧ m + 1 < keys.length ∧
        (∃ k, keys[m + 1]? = some k ∧ time < k.time_) ∧
        ∀ (j : Nat) (k : MainlineKey2D), 1 ≤ j → j ≤ m → keys[j]? = some k → ¬ time < k.time_
  | [], _, _, h => by simp [scanMainlineKeys] at h
  | [_], _, _, h => by simp [scanMainlineKeys] at h
  | a :: b :: rest, i, c, h => by
    simp only [scanMainlineKeys] at h
    split at h
    · rename_i hlt
      simp only [Nat.add_sub_cancel, Option.some.injEq] at h
      refine ⟨0, by omega, by simp, ⟨b, by simp, hlt⟩, ?_⟩
      intro j k h1 h2
      omega
    · rename_i hnlt
      obtain ⟨m, hc, hm, ⟨k, hk, hkt⟩, hall⟩ := scanMainlineKeys_some time (b :: rest) (i + 1) c h
      refine ⟨m + 1, by omega, by simpa using hm, ⟨k, by simpa using hk, hkt⟩, ?_⟩
      intro j k' h1 h2 hj
      obtain ⟨j', rfl⟩ : ∃ j', j = j' + 1 := ⟨j - 1, by omega⟩
      rw [List.getElem?_cons_succ] at hj
      cases j' with
      | zero =>
        simp only [List.getElem?_cons_zero, Option.some.injEq] at hj
        subst hj
        exact hnlt
      | succ j'' => exact hall (j'' + 1) k' (by omega) (by omega) hj

theorem scanMainlineKeys_none (time : ℚ) :
    ∀ (keys : List MainlineKey2D) (i : Nat),
      scanMainlineKeys time i keys = none →
      ∀ (j : Nat) (k : MainlineKey2D), 1 ≤ j → keys[j]? = some k → ¬ time < k.time_
  | [], _, _, j, k, _, hj => by simp at hj
  | [_], _, _, j, k, h1, hj => by
    obtain ⟨j', rfl⟩ : ∃ j', j = j' + 1 := ⟨j - 1, by omega⟩
    simp at hj
  | a :: b :: rest, i, h, j, k, h1, hj => by
    simp only [scanMainlineKeys] at h
    split at h
    · simp at h
    · rename_i hnlt
      obtain ⟨j', rfl⟩ : ∃ j', j = j' + 1 := ⟨j - 1, by omega⟩
      rw [List.getElem?_cons_succ] at hj
      cases j' with
      | zero =>
        simp only [List.getElem?_cons_zero, Option.some.injEq] at hj
        subst hj
        exact hnlt
      | succ j'' => exact scanMainlineKeys_none time (b :: rest) (i + 1) h (j'' + 1) k (by omega) hj

/-- Lines 310-322 select a key whenever the mainline has one. -/
theorem getMainlineKey_total (time : ℚ) (keys : List MainlineKey2D) (hne : keys ≠ []) :
    ∃ c key, mainlineKeyIndex time keys = .ok c ∧ keys[c]? = some key ∧
      getMainlineKey time keys = .ok key := by
  have hpos : 0 < keys.length := List.length_pos.mpr hne
  have hfin : ∀ c, mainlineKeyIndex time keys = .ok c → c < keys.length →
      ∃ c key, mainlineKeyIndex time keys = .ok c ∧ keys[c]? = some key ∧
        getMainlineKey time keys = .ok key := by
    intro c hc hlt
    refine ⟨c, keys[c], hc, List.getElem?_eq_getElem hlt, ?_⟩
    unfold getMainlineKey
    rw [hc]
    simp [List.getElem?_eq_getElem hlt, pure, Except.pure]
  cases hs : scanMainlineKeys time 1 keys with
  | some c =>
    obtain ⟨m, hm, hlt, -⟩ := scanMainlineKeys_some time keys 0 c hs
    exact hfin c (by simp [mainlineKeyIndex, hs]) (by omega)
  | none =>
    have h0 : ¬ keys.length = 0 := by omega
    exact hfin (keys.length - 1) (by simp [mainlineKeyIndex, hs, h0]) (by omega)

/-! ## Parent chains -/

theorem chainEnds_root (parents : List Int) (d : Nat) : chainEnds parents d (-1) = true := by
  cases d <;> simp [chainEnds]

theorem chainEnds_succ {parents : List Int} {d : Nat} {p q : Int} (h0 : 0 ≤ p)
    (hq : parents[p.toNat]? = some q) (h : chainEnds parents d q = true) :
    chainEnds parents (d + 1) p = true := by
  simp [chainEnds, h0, hq, h]

theorem chainEnds_mono {parents : List Int} :
    ∀ {d d' : Nat} {p : Int}, chainEnds parents d p = true → d ≤ d' →
      chainEnds parents d' p = true
  | d, d', p, h, hle => by
    by_cases hp : p = -1
    · rw [hp]
      exact chainEnds_root parents d'
    · obtain ⟨h0, -, d1, q, rfl, hq, hc⟩ := chainEnds_node h hp
      obtain ⟨d2, rfl⟩ : ∃ d2, d' = d2 + 1 := ⟨d' - 1, by omega⟩
      exact chainEnds_succ h0 hq (chainEnds_mono hc (by omega))

/-- From a slot whose chain ends after exactly `r` slots, every number of slots from 1 to
`r` is the exact length of the chain from some slot. -/
theorem exists_slot_of_depth {parents : List Int} :
    ∀ (r : Nat) (p : Int), p ≠ -1 → chainEnds parents r p = true →
      (∀ r', r' < r → chainEnds parents r' p = false) →
      ∀ r', 1 ≤ r' → r' ≤ r →
        ∃ v : Nat, v < parents.length ∧ chainEnds parents r' (v : Int) = true ∧
          ∀ r'', r'' < r' → chainEnds parents r'' (v : Int) = false
  | r, p, hp, h, hmin, r', h1, hle => by
    obtain ⟨h0, hlt, r1, q, rfl, hq, hc⟩ := chainEnds_node h hp
    have hpv : ((p.toNat : Nat) : Int) = p := Int.toNat_of_nonneg h0
    by_cases hr' : r' = r1 + 1
    · subst hr'
      exact ⟨p.toNat, hlt, by rw [hpv]; exact h, fun r'' hr'' => by rw [hpv]; exact hmin r'' hr''⟩
    · have hq1 : q ≠ -1 := by
        rintro rfl
        have h1p : chainEnds parents 1 p = true := chainEnds_succ h0 hq (chainEnds_root _ 0)
        have := hmin 1 (by omega)
        rw [h1p] at this
        cases this
      have hminq : ∀ r'', r'' < r1 → chainEnds parents r'' q = false := by
        intro r'' hr''
        cases hcq : chainEnds parents r'' q with
        | false => rfl
        | true =>
          have h1p : chainEnds parents (r'' + 1) p = true := chainEnds_succ h0 hq hcq
          have := hmin (r'' + 1) (by omega)
          rw [h1p] at this
          cases this
      exact exists_slot_of_depth r1 q hq1 hc hminq r' h1 (by omega)

/-- A parent chain that ends at `-1` meets no more slots than there are: it cannot meet a
slot twice. -/
theorem chainEnds_length {parents : List Int} {d : Nat} {p : Int}
    (h : chainEnds parents d p = true) : chainEnds parents parents.length p = true := by
  by_cases hp : p = -1
  · rw [hp]
    exact chainEnds_root parents _
  · classical
    have hex : ∃ r, chainEnds parents r p = true := ⟨d, h⟩
    have hr : chainEnds parents (Nat.find hex) p = true := Nat.find_spec hex
    have hmin : ∀ r', r' < Nat.find hex → chainEnds parents r' p = false := by
      intro r' hr'
      have := Nat.find_min hex hr'
      simpa using this
    have hslots := exists_slot_of_depth (Nat.find hex) p hp hr hmin
    have hle : Nat.find hex ≤ parents.length := by
      let g : Fin (Nat.find hex) → Fin parents.length := fun k =>
        ⟨Classical.choose (hslots (k.val + 1) (by omega) (by omega)),
          (Classical.choose_spec (hslots (k.val + 1) (by omega) (by omega))).1⟩
      have hg : Function.Injective g := by
        intro k1 k2 hk
        have hv : Classical.choose (hslots (k1.val + 1) (by omega) (by omega)) =
            Classical.choose (hslots (k2.val + 1) (by omega) (by omega)) :=
          congrArg Fin.val hk
        have s1 := (Classical.choose_spec (hslots (k1.val + 1) (by omega) (by omega))).2
        have s2 := (Classical.choose_spec (hslots (k2.val + 1) (by omega) (by omega))).2
        rw [hv] at s1
        apply Fin.ext
        rcases Nat.lt_trichotomy k1.val k2.val with hlt | heq | hgt
        · have := s2.2 (k1.val + 1) (by omega)
          rw [s1.1] at this
          cases this
        · exact heq
        · have := s1.2 (k2.val + 1) (by omega)
          rw [s2.1] at this
          cases this
      have := Fintype.card_le_of_injective g hg
      simpa using this
    exact chainEnds_mono hr hle

/-! ## The last loop of `UpdateAnimation` -/

/-- What one iteration of the last loop leaves alone: the number of entities, and every
part `φ` of an entity that the enabled flag, the scale, rotation and position and the
draw order do not enter. -/
theorem updateNode_frame {β : Type} (φ : Node → β)
    (hφ : ∀ (node : Node) en sc rot pos ord,
      φ { node with
          enabled_ := en, scale_ := sc, rotation_ := rot, position_ := pos
          staticSprite := { node.staticSprite with orderInLayer_ := ord } } = φ node)
    {orderInLayer : Int} {key : MainlineKey2D} {timelineNodes : List (Option Nat)}
    {infos : List TransformInfo} {i : Nat} {children children' : List Node}
    (h : updateNode orderInLayer key timelineNodes infos i children = .ok children') :
    children'.length = children.length ∧
      ∀ j : Nat, (children'[j]?).map φ = (children[j]?).map φ := by
  unfold updateNode at h
  split at h
  · simp at h
  · cases h
    exact ⟨rfl, fun _ => rfl⟩
  · split at h
    · exact modifyNode_frame φ
        (fun node => hφ node false node.scale_ node.rotation_ node.position_
          node.staticSprite.orderInLayer_) h
    · split at h
      · simp at h
      · exact modifyNode_frame φ (fun node => hφ node _ _ _ _ _) h

/-- The last loop: it returns, and the entity of every slot is the entity of before with
the fields of lines 336-352 written. -/
theorem nodeLoop_spec (orderInLayer : Int) (key : MainlineKey2D)
    (timelineNodes : List (Option Nat)) (infos : List TransformInfo) (children : List Node)
    (hlive : ∀ i id : Nat, timelineNodes[i]? = some (some id) → id < children.length)
    (hdist : ∀ i j id : Nat, timelineNodes[i]? = some (some id) →
      timelineNodes[j]? = some (some id) → i = j)
    (hinfos : timelineNodes.length ≤ infos.length) :
    ∃ children', forLoop (updateNode orderInLayer key timelineNodes infos)
        timelineNodes.length children = .ok children' ∧
      children'.length = children.length ∧
      ∀ i id : Nat, timelineNodes[i]? = some (some id) →
        ∃ node, children[id]? = some node ∧
          ((key.GetReference (i : Int) = none ∧
              children'[id]? = some { node with enabled_ := false }) ∨
            (∃ ref info, key.GetReference (i : Int) = some ref ∧ infos[i]? = some info ∧
              children'[id]? = some
                { node with
                  enabled_ := true
                  scale_ := info.worldTransform_.scale_
                  rotation_ := info.worldTransform_.angle_
                  position_ := info.worldTransform_.position_
                  staticSprite :=
                    { node.staticSprite with
                      orderInLayer_ := wrapInt32 (orderInLayer + ref.zIndex_) } })) := by
  obtain ⟨children', h, hlen, hdesc, -⟩ :=
    forLoop_total (updateNode orderInLayer key timelineNodes infos)
      (fun k cur => cur.length = children.length ∧
        (∀ i id : Nat, i < k → timelineNodes[i]? = some (some id) →
          ∃ node, children[id]? = some node ∧
            ((key.GetReference (i : Int) = none ∧
                cur[id]? = some { node with enabled_ := false }) ∨
              (∃ ref info, key.GetReference (i : Int) = some ref ∧ infos[i]? = some info ∧
                cur[id]? = some
                  { node with
                    enabled_ := true
                    scale_ := info.worldTransform_.scale_
                    rotation_ := info.worldTransform_.angle_
                    position_ := info.worldTransform_.position_
                    staticSprite :=
                      { node.staticSprite with
                        orderInLayer_ := wrapInt32 (orderInLayer + ref.zIndex_) } }))) ∧
        (∀ id : Nat, (∀ i : Nat, i < k → timelineNodes[i]? ≠ some (some id)) →
          cur[id]? = children[id]?))
      timelineNodes.length children
      ⟨rfl, fun i id hi => absurd hi (Nat.not_lt_zero i), fun _ _ => rfl⟩
      (by
        intro k t hk ⟨hl, hd, hu⟩
        have hslot : timelineNodes[k]? = some timelineNodes[k] := List.getElem?_eq_getElem hk
        cases hs : timelineNodes[k] with
        | none =>
          rw [hs] at hslot
          refine ⟨t, by simp [updateNode, hslot], hl, ?_, ?_⟩
          · intro i id hi hid
            rcases Nat.lt_succ_iff_lt_or_eq.mp hi with hi' | rfl
            · exact hd i id hi' hid
            · rw [hslot] at hid
              cases hid
          · intro id hid
            exact hu id (fun i hi => hid i (Nat.lt_succ_of_lt hi))
        | some id =>
          rw [hs] at hslot
          have hidlt : id < children.length := hlive k id hslot
          have hfresh : t[id]? = children[id]? :=
            hu id (fun i hi hid => absurd (hdist i k id hid hslot) (Nat.ne_of_lt hi))
          have hnode : children[id]? = some children[id] := List.getElem?_eq_getElem hidlt
          have hrest : ∀ (x : Node),
              (∀ i id' : Nat, i < k → timelineNodes[i]? = some (some id') →
                (t.set id x)[id']? = t[id']?) ∧
              (∀ id' : Nat, (∀ i : Nat, i < k + 1 → timelineNodes[i]? ≠ some (some id')) →
                (t.set id x)[id']? = children[id']?) := by
            intro x
            constructor
            · intro i id' hi hid'
              have hne : id ≠ id' := by
                rintro rfl
                exact absurd (hdist i k id hid' hslot) (Nat.ne_of_lt hi)
              exact List.getElem?_set_ne hne
            · intro id' hid'
              have hne : id ≠ id' := by
                rintro rfl
                exact hid' k (Nat.lt_succ_self k) hslot
              rw [List.getElem?_set_ne hne]
              exact hu id' (fun i hi => hid' i (Nat.lt_succ_of_lt hi))
          have hself : ∀ x : Node, (t.set id x)[id]? = some x := by
            intro x
            rw [List.getElem?_set]
            simp [hl, hidlt]
          have hstep : ∀ (x : Node),
              (key.GetReference (k : Int) = none ∧ x = { children[id] with enabled_ := false } ∨
                ∃ ref info, key.GetReference (k : Int) = some ref ∧ infos[k]? = some info ∧
                  x = { children[id] with
                        enabled_ := true
                        scale_ := info.worldTransform_.scale_
                        rotation_ := info.worldTransform_.angle_
                        position_ := info.worldTransform_.position_
                        staticSprite :=
                          { children[id].staticSprite with
                            orderInLayer_ := wrapInt32 (orderInLayer + ref.zIndex_) } }) →
              updateNode orderInLayer key timelineNodes infos k t = .ok (t.set id x) →
              ∃ t', updateNode orderInLayer key timelineNodes infos k t = .ok t' ∧
                t'.length = children.length ∧
                (∀ i id : Nat, i < k + 1 → timelineNodes[i]? = some (some id) →
                  ∃ node, children[id]? = some node ∧
                    ((key.GetReference (i : Int) = none ∧
                        t'[id]? = some { node with enabled_ := false }) ∨
                      (∃ ref info, key.GetReference (i : Int) = some ref ∧
                        infos[i]? = some info ∧
                        t'[id]? = some
                          { node with
                            enabled_ := true
                            scale_ := info.worldTransform_.scale_
                            rotation_ := info.worldTransform_.angle_
                            position_ := info.worldTransform_.position_
                            staticSprite :=
                              { node.staticSprite with
                                orderInLayer_ := wrapInt32 (orderInLayer + ref.zIndex_) } }))) ∧
                (∀ id : Nat, (∀ i : Nat, i < k + 1 → timelineNodes[i]? ≠ some (some id)) →
                  t'[id]? = children[id]?) := by
            intro x hx hrun
            refine ⟨_, hrun, by simp [hl], ?_, (hrest x).2⟩
            intro i id' hi hid'
            rcases Nat.lt_succ_iff_lt_or_eq.mp hi with hi' | rfl
            · obtain ⟨node, hn, hb⟩ := hd i id' hi' hid'
              refine ⟨node, hn, ?_⟩
              rw [(hrest x).1 i id' hi' hid']
              exact hb
            · rw [hslot] at hid'
              cases hid'
              refine ⟨children[id], hnode, ?_⟩
              rw [hself x]
              rcases hx with ⟨h1, h2⟩ | ⟨ref, info, h1, h2, h3⟩
              · exact Or.inl ⟨h1, by rw [h2]⟩
              · exact Or.inr ⟨ref, info, h1, h2, by rw [h3]⟩
          have htid : t[id]? = some children[id] := hfresh.trans hnode
          cases hr : key.GetReference (k : Int) with
          | none =>
            apply hstep _ (Or.inl ⟨hr, rfl⟩)
            simp [updateNode, hslot, hr, modifyNode, htid]
          | some ref =>
            have hinfo : infos[k]? = some infos[k] :=
              List.getElem?_eq_getElem (lt_of_lt_of_le hk hinfos)
            apply hstep _ (Or.inr ⟨ref, infos[k], hr, hinfo, rfl⟩)
            simp [updateNode, hslot, hr, modifyNode, htid, hinfo])
  exact ⟨children', h, hlen, fun i id hid =>
    hdesc i id ((List.getElem?_eq_some.mp hid).1) hid⟩

/-! ## `UpdateAnimation` -/

theorem evaluate_ok {E : Engine} {a : Animation2D} {time : ℚ} {orderInLayer : Int}
    {timelineNodes : List (Option Nat)} {st st' : List TransformInfo × List Node}
    (h : evaluate E a time orderInLayer timelineNodes st = .ok st') :
    ∃ st1 infos key children,
      forLoop (updateLocalTransform E a time timelineNodes) st.1.length st = .ok st1 ∧
      updateWorldTransforms E st1.1 = .ok infos ∧
      getMainlineKey time a.mainlineKeys_ = .ok key ∧
      forLoop (updateNode orderInLayer key timelineNodes infos) timelineNodes.length st1.2
        = .ok children ∧
      st' = (infos, children) := by
  unfold evaluate at h
  obtain ⟨st1, h1, h⟩ := bind_eq_ok h
  obtain ⟨infos, h2, h⟩ := bind_eq_ok h
  obtain ⟨key, h3, h⟩ := bind_eq_ok h
  obtain ⟨children, h4, h⟩ := bind_eq_ok h
  exact ⟨st1, infos, key, children, h1, h2, h3, h4, (Except.ok.inj h).symm⟩

/-- What the last loop leaves alone. -/
theorem nodeLoop_frame {β : Type} (φ : Node → β)
    (hφ : ∀ (node : Node) en sc rot pos ord,
      φ { node with
          enabled_ := en, scale_ := sc, rotation_ := rot, position_ := pos
          staticSprite := { node.staticSprite with orderInLayer_ := ord } } = φ node)
    (orderInLayer : Int) (key : MainlineKey2D) (timelineNodes : List (Option Nat))
    (infos : List TransformInfo) (n : Nat) (children children' : List Node)
    (h : forLoop (updateNode orderInLayer key timelineNodes infos) n children = .ok children') :
    children'.length = children.length ∧
      ∀ j : Nat, (children'[j]?).map φ = (children[j]?).map φ := by
  refine forLoop_inv (updateNode orderInLayer key timelineNodes infos)
    (fun _ t => t.length = children.length ∧
      ∀ j : Nat, (t[j]?).map φ = (children[j]?).map φ)
    n children ⟨rfl, fun _ => rfl⟩ ?_ children' h
  intro i t t' _ hP hb
  obtain ⟨h1, h2⟩ := updateNode_frame φ hφ hb
  exact ⟨h1.trans hP.1, fun j => (h2 j).trans (hP.2 j)⟩

/-- What `UpdateAnimation` leaves alone: the parent indices, the number of entities, and
every part `φ` of an entity that none of the fields written at lines 293-297 and 336-352
enters. -/
theorem evaluate_frame {β : Type} (φ : Node → β)
    (hφ1 : ∀ (node : Node) sp hs col,
      φ { node with
          staticSprite := { node.staticSprite with sprite_ := sp, hotSpot_ := hs, color_ := col } }
        = φ node)
    (hφ2 : ∀ (node : Node) en sc rot pos ord,
      φ { node with
          enabled_ := en, scale_ := sc, rotation_ := rot, position_ := pos
          staticSprite := { node.staticSprite with orderInLayer_ := ord } } = φ node)
    {E : Engine} {a : Animation2D} {time : ℚ} {orderInLayer : Int}
    {timelineNodes : List (Option Nat)} {st st' : List TransformInfo × List Node}
    (h : evaluate E a time orderInLayer timelineNodes st = .ok st') :
    st'.1.map (fun info => info.parent_) = st.1.map (fun info => info.parent_) ∧
      st'.2.length = st.2.length ∧
      ∀ j : Nat, (st'.2[j]?).map φ = (st.2[j]?).map φ := by
  obtain ⟨st1, infos, key, children, h1, h2, -, h4, rfl⟩ := evaluate_ok h
  obtain ⟨a1, a2, a3⟩ := localLoop_frame φ hφ1 E a time timelineNodes _ st st1 h1
  obtain ⟨b2, b3⟩ := nodeLoop_frame φ hφ2 orderInLayer key timelineNodes infos _ _ _ h4
  exact ⟨(updateWorldTransforms_parents E _ _ h2).trans a1, b2.trans a2,
    fun j => (b3 j).trans (a3 j)⟩

theorem UpdateAnimation_ok {E : Engine} {timeStep : ℚ} {s s' : AnimatedSprite2D}
    {a : Animation2DPtr} (hbound : s.animation_ = some a)
    (h : UpdateAnimation E timeStep s = .ok s') :
    ∃ time st, sampleTime a.obj (s.currentTime_ + timeStep * s.speed_) = .ok time ∧
      evaluate E a.obj time s.orderInLayer_ s.timelineNodes_
        (s.timelineTransformInfos_, s.children_) = .ok st ∧
      s' = { s with
              currentTime_ := s.currentTime_ + timeStep * s.speed_
              timelineTransformInfos_ := st.1
              children_ := st.2 } := by
  unfold UpdateAnimation at h
  split at h
  · rename_i hnone
    rw [hbound] at hnone
    cases hnone
  · rename_i a' ha'
    rw [hbound] at ha'
    cases ha'
    obtain ⟨time, h1, h⟩ := bind_eq_ok h
    obtain ⟨st, h2, h⟩ := bind_eq_ok h
    exact ⟨time, st, h1, h2, (Except.ok.inj h).symm⟩

theorem UpdateAnimation_unbound {E : Engine} {timeStep : ℚ} {s : AnimatedSprite2D}
    (h : s.animation_ = none) : UpdateAnimation E timeStep s = .ok s := by
  simp [UpdateAnimation, h]

/-- `UpdateAnimation` keeps the invariant. -/
theorem UpdateAnimation_inv {E : Engine} {timeStep : ℚ} {s s' : AnimatedSprite2D}
    (hinv : Inv s) (h : UpdateAnimation E timeStep s = .ok s') : Inv s' := by
  cases hb : s.animation_ with
  | none =>
    rw [UpdateAnimation_unbound hb] at h
    cases h
    exact hinv
  | some a =>
    obtain ⟨time, st, -, h2, rfl⟩ := UpdateAnimation_ok hb h
    obtain ⟨f1, f2, -⟩ := evaluate_frame (fun _ => ()) (fun _ _ _ _ => rfl)
      (fun _ _ _ _ _ _ => rfl) h2
    exact
      { unbound := hinv.unbound
        nodesLen := hinv.nodesLen
        parents := fun a' ha' => f1.trans (hinv.parents a' ha')
        live := fun i id hid => by
          show id < st.2.length
          rw [f2]
          exact hinv.live i id hid
        distinct := hinv.distinct }

/-- The loop of lines 210-214 marks the entity of every slot it visits as removed. -/
theorem removeLoop_spec (timelineNodes : List (Option Nat)) (n : Nat)
    (children children' : List Node)
    (h : forLoop (removeNode timelineNodes) n children = .ok children') :
    children'.length = children.length ∧
      ∀ i id : Nat, i < n → timelineNodes[i]? = some (some id) →
        ∃ node, children'[id]? = some node ∧ node.removed_ = true := by
  refine forLoop_inv (removeNode timelineNodes)
    (fun k cur => cur.length = children.length ∧
      ∀ i id : Nat, i < k → timelineNodes[i]? = some (some id) →
        ∃ node, cur[id]? = some node ∧ node.removed_ = true)
    n children ⟨rfl, fun i id hi => absurd hi (Nat.not_lt_zero i)⟩ ?_ children' h
  intro k t t' _ ⟨hl, hr⟩ hb
  unfold removeNode at hb
  split at hb
  · simp at hb
  · rename_i hslot
    cases hb
    refine ⟨hl, fun i id hi hid => ?_⟩
    rcases Nat.lt_succ_iff_lt_or_eq.mp hi with hi' | rfl
    · exact hr i id hi' hid
    · rw [hslot] at hid
      cases hid
  · rename_i id0 hslot
    obtain ⟨node0, hn0, rfl⟩ := modifyNode_ok hb
    refine ⟨by simp [hl], fun i id hi hid => ?_⟩
    rw [getElem?_set_some hn0]
    by_cases hid0 : id = id0
    · simp [hid0]
    · simp only [hid0, if_false]
      rcases Nat.lt_succ_iff_lt_or_eq.mp hi with hi' | rfl
      · exact hr i id hi' hid
      · rw [hslot] at hid
        cases hid
        exact absurd rfl hid0

/-- The loop of lines 210-214 returns when the entity pointers are live. -/
theorem removeLoop_total (timelineNodes : List (Option Nat)) (children : List Node)
    (hlive : ∀ i id : Nat, timelineNodes[i]? = some (some id) → id < children.length) :
    ∃ children', forLoop (removeNode timelineNodes) timelineNodes.length children
      = .ok children' := by
  obtain ⟨children', h, -⟩ := forLoop_total (removeNode timelineNodes)
    (fun _ cur => cur.length = children.length) timelineNodes.length children rfl (by
      intro k t hk hl
      have hslot : timelineNodes[k]? = some timelineNodes[k] := List.getElem?_eq_getElem hk
      cases hs : timelineNodes[k] with
      | none =>
        rw [hs] at hslot
        exact ⟨t, by simp [removeNode, hslot], hl⟩
      | some id =>
        rw [hs] at hslot
        obtain ⟨node, -, hm⟩ := modifyNode_total (fun node => { node with removed_ := true })
          (by rw [hl]; exact hlive k id hslot : id < t.length)
        exact ⟨_, by simp only [removeNode, hslot]; exact hm, by simp [hl]⟩)
  exact ⟨children', h⟩

/-! ## `SetAnimation`: creating the entities of the new animation -/

theorem createNode_ok {E : Engine} {layer : Int} {blendMode : BlendMode} {a : Animation2D}
    {i : Nat} {st st' : List (Option Nat) × List TransformInfo × List Node}
    (h : createNode E layer blendMode a i st = .ok st') :
    ∃ timeline info, a.timelines_[i]? = some timeline ∧ st.2.1[i]? = some info ∧
      st'.2.1 = st.2.1.set i { info with parent_ := timeline.parent_ } ∧
      ((timeline.type_ = .OT_SPRITE ∧ i < st.1.length ∧
          st'.1 = st.1.set i (some st.2.2.length) ∧
          st'.2.2 = st.2.2 ++ [createSprite E layer blendMode timeline.name_]) ∨
        (timeline.type_ ≠ .OT_SPRITE ∧ st'.1 = st.1 ∧ st'.2.2 = st.2.2)) := by
  unfold createNode at h
  split at h
  · simp at h
  · rename_i timeline htl
    obtain ⟨created, hc, h⟩ := bind_eq_ok h
    split at h
    · simp at h
    · rename_i info hinfo
      cases h
      refine ⟨timeline, info, htl, hinfo, rfl, ?_⟩
      split at hc
      · rename_i hty
        split at hc
        · rename_i hlt
          cases hc
          exact Or.inl ⟨hty, hlt, rfl, rfl⟩
        · simp at hc
      · rename_i hty
        cases hc
        exact Or.inr ⟨hty, rfl, rfl⟩

theorem createNode_total (E : Engine) (layer : Int) (blendMode : BlendMode) (a : Animation2D)
    (i : Nat) (st : List (Option Nat) × List TransformInfo × List Node)
    (h1 : i < a.timelines_.length) (h2 : i < st.1.length) (h3 : i < st.2.1.length) :
    ∃ st', createNode E layer blendMode a i st = .ok st' := by
  unfold createNode
  simp only [List.getElem?_eq_getElem h1, h2, if_true, List.getElem?_eq_getElem h3]
  by_cases hty : a.timelines_[i].type_ = .OT_SPRITE
  · simp only [hty, if_true]
    exact ⟨_, rfl⟩
  · simp only [hty, if_false]
    exact ⟨_, rfl⟩

/-- One iteration of the loop of lines 229-246 keeps its invariant. -/
theorem createNode_inv {E : Engine} {layer : Int} {blendMode : BlendMode} {a : Animation2D}
    {children0 : List Node} {k : Nat}
    {st st' : List (Option Nat) × List TransformInfo × List Node}
    (hP : CreateInv a children0 k st)
    (h : createNode E layer blendMode a k st = .ok st') :
    CreateInv a children0 (k + 1) st' := by
  obtain ⟨timeline, info, htl, hinfo, hinfos, hcase⟩ := createNode_ok h
  have hpar : ∀ i : Nat, i < k + 1 →
      (st'.2.1[i]?).map (fun info => info.parent_) =
        (a.timelines_[i]?).map (fun t => t.parent_) := by
    intro i hi
    rw [hinfos, List.getElem?_set]
    by_cases hik : k = i
    · subst hik
      have hlt : k < st.2.1.length := (List.getElem?_eq_some.mp hinfo).1
      simp [hlt, htl]
    · simp only [hik, if_false]
      exact hP.parents i (by omega)
  have hilen : st'.2.1.length = a.timelines_.length := by
    rw [hinfos, List.length_set]
    exact hP.infosLen
  rcases hcase with ⟨-, hlt, hnodes, hch⟩ | ⟨-, hnodes, hch⟩
  · have hget : ∀ i : Nat, st'.1[i]? = if i = k then some (some st.2.2.length) else st.1[i]? := by
      intro i
      rw [hnodes, List.getElem?_set]
      by_cases hik : k = i
      · subst hik
        simp [hlt]
      · have : ¬ i = k := fun e => hik e.symm
        simp [hik, this]
    refine
      { nodesLen := by rw [hnodes, List.length_set]; exact hP.nodesLen
        infosLen := hilen
        grow := by rw [hch, List.length_append]; exact Nat.le_add_right_of_le hP.grow
        old := fun j hj => by
          rw [hch, List.getElem?_append_left (lt_of_lt_of_le hj hP.grow)]
          exact hP.old j hj
        rest := fun i hi hin => by
          rw [hget]
          have : ¬ i = k := by omega
          simp only [this, if_false]
          exact hP.rest i (by omega) hin
        live := fun i id hid => by
          rw [hget] at hid
          rw [hch, List.length_append, List.length_singleton]
          by_cases hik : i = k
          · simp only [hik, if_true, Option.some.injEq] at hid
            subst hid
            exact ⟨hP.grow, Nat.lt_succ_self _⟩
          · simp only [hik, if_false] at hid
            exact ⟨(hP.live i id hid).1, Nat.lt_succ_of_lt (hP.live i id hid).2⟩
        distinct := fun i j id hi hj => by
          rw [hget] at hi hj
          by_cases hik : i = k
          · by_cases hjk : j = k
            · rw [hik, hjk]
            · simp only [hik, if_true, Option.some.injEq] at hi
              simp only [hjk, if_false] at hj
              have := (hP.live j id hj).2
              omega
          · by_cases hjk : j = k
            · simp only [hjk, if_true, Option.some.injEq] at hj
              simp only [hik, if_false] at hi
              have := (hP.live i id hi).2
              omega
            · simp only [hik, if_false] at hi
              simp only [hjk, if_false] at hj
              exact hP.distinct i j id hi hj
        parents := hpar }
  · refine
      { nodesLen := by rw [hnodes]; exact hP.nodesLen
        infosLen := hilen
        grow := by rw [hch]; exact hP.grow
        old := fun j hj => by rw [hch]; exact hP.old j hj
        rest := fun i hi hin => by rw [hnodes]; exact hP.rest i (by omega) hin
        live := fun i id hid => by
          rw [hnodes] at hid
          rw [hch]
          exact hP.live i id hid
        distinct := fun i j id hi hj => by
          rw [hnodes] at hi hj
          exact hP.distinct i j id hi hj
        parents := hpar }

theorem length_resize {α : Type} (v : List α) (n : Nat) (dflt : α) :
    (resize v n dflt).length = n := by
  simp only [resize, List.length_append, List.length_take, List.length_replicate]
  omega

/-- The invariant of the loop of lines 229-246 holds when the loop is entered with an empty
entity table. -/
theorem createInv_start (E : Engine) (a : Animation2D) (infos : List TransformInfo)
    (children0 : List Node) :
    CreateInv a children0 0
      (resize [] a.timelines_.length none, resize infos a.timelines_.length E.newInfo,
        children0) where
  nodesLen := length_resize _ _ _
  infosLen := length_resize _ _ _
  grow := le_rfl
  old := fun _ _ => rfl
  rest := fun i _ hi => by
    show (resize [] a.timelines_.length none)[i]? = some none
    simp [resize, List.getElem?_replicate, hi]
  live := fun i id hid => by
    exfalso
    have hid' : (resize ([] : List (Option Nat)) a.timelines_.length none)[i]?
        = some (some id) := hid
    simp [resize, List.getElem?_replicate] at hid'
  distinct := fun i j id hid => by
    exfalso
    have hid' : (resize ([] : List (Option Nat)) a.timelines_.length none)[i]?
        = some (some id) := hid
    simp [resize, List.getElem?_replicate] at hid'
  parents := fun i hi => absurd hi (Nat.not_lt_zero i)

/-- The loop of lines 229-246 establishes its invariant for all timelines. -/
theorem createLoop_inv (E : Engine) (layer : Int) (blendMode : BlendMode) (a : Animation2D)
    (infos : List TransformInfo) (children0 : List Node)
    (st' : List (Option Nat) × List TransformInfo × List Node)
    (h : forLoop (createNode E layer blendMode a) a.timelines_.length
      (resize [] a.timelines_.length none, resize infos a.timelines_.length E.newInfo,
        children0) = .ok st') :
    CreateInv a children0 a.timelines_.length st' :=
  forLoop_inv (createNode E layer blendMode a) (CreateInv a children0) a.timelines_.length _
    (createInv_start E a infos children0)
    (fun _ _ _ _ hP hb => createNode_inv hP hb) st' h

/-- The loop of lines 229-246 returns. -/
theorem createLoop_total (E : Engine) (layer : Int) (blendMode : BlendMode) (a : Animation2D)
    (infos : List TransformInfo) (children0 : List Node) :
    ∃ st', forLoop (createNode E layer blendMode a) a.timelines_.length
      (resize [] a.timelines_.length none, resize infos a.timelines_.length E.newInfo,
        children0) = .ok st' := by
  obtain ⟨st', h, -⟩ := forLoop_total (createNode E layer blendMode a)
    (CreateInv a children0) a.timelines_.length _ (createInv_start E a infos children0) (by
      intro i t hi hP
      obtain ⟨t', ht'⟩ := createNode_total E layer blendMode a i t hi
        (by rw [hP.nodesLen]; exact hi) (by rw [hP.infosLen]; exact hi)
      exact ⟨t', ht', createNode_inv hP ht'⟩)
  exact ⟨st', h⟩

/-! ## `SetAnimation` -/

/-- Lines 208-217 under the invariant: the entity table is emptied, the entities it held
are removed, nothing else changes. -/
theorem removeTimelineNodes_ok {s s1 : AnimatedSprite2D} (hinv : Inv s)
    (h : removeTimelineNodes s = .ok s1) :
    ∃ children1, s1 = { s with timelineNodes_ := [], children_ := children1 } ∧
      children1.length = s.children_.length ∧
      ∀ i id : Nat, s.timelineNodes_[i]? = some (some id) →
        ∃ node, children1[id]? = some node ∧ node.removed_ = true := by
  unfold removeTimelineNodes at h
  split at h
  · obtain ⟨children1, hc, h⟩ := bind_eq_ok h
    cases h
    obtain ⟨hl, hr⟩ := removeLoop_spec _ _ _ _ hc
    exact ⟨children1, rfl, hl, fun i id hid => hr i id (List.getElem?_eq_some.mp hid).1 hid⟩
  · rename_i hnone
    cases h
    have hb : s.animation_ = none := by
      cases hs : s.animation_ with
      | none => rfl
      | some a => simp [hs] at hnone
    have hnil : s.timelineNodes_ = [] := hinv.unbound hb
    refine ⟨s.children_, ?_, rfl, fun i id hid => ?_⟩
    · cases s
      simp only at hnil
      subst hnil
      rfl
    · rw [hnil] at hid
      simp at hid

theorem removeTimelineNodes_total (s : AnimatedSprite2D) (hinv : Inv s) :
    ∃ s1, removeTimelineNodes s = .ok s1 := by
  unfold removeTimelineNodes
  split
  · obtain ⟨children1, hc⟩ := removeLoop_total s.timelineNodes_ s.children_ hinv.live
    rw [hc]
    exact ⟨_, rfl⟩
  · exact ⟨s, rfl⟩

/-- What `SetAnimation` does with a pointer different from the bound one. -/
theorem SetAnimation_ok {E : Engine} {x : Option Animation2DPtr} {s s' : AnimatedSprite2D}
    (hinv : Inv s) (hne : samePtr x s.animation_ = false)
    (h : SetAnimation E x s = .ok s') :
    ∃ children1, children1.length = s.children_.length ∧
      (∀ i id : Nat, s.timelineNodes_[i]? = some (some id) →
        ∃ node, children1[id]? = some node ∧ node.removed_ = true) ∧
      (x = none →
        s' = { s with timelineNodes_ := [], children_ := children1, animation_ := none }) ∧
      (∀ a, x = some a →
        ∃ st, CreateInv a.obj children1 a.obj.timelines_.length st ∧
          UpdateAnimation E 0
            { s with
              animation_ := some a
              currentTime_ := 0
              timelineNodes_ := st.1
              timelineTransformInfos_ := st.2.1
              children_ := st.2.2 } = .ok s') := by
  unfold SetAnimation at h
  simp only [hne, Bool.false_eq_true, if_false] at h
  obtain ⟨s1, h1, h⟩ := bind_eq_ok h
  obtain ⟨children1, rfl, hl, hr⟩ := removeTimelineNodes_ok hinv h1
  refine ⟨children1, hl, hr, ?_, ?_⟩
  · rintro rfl
    exact (Except.ok.inj h).symm
  · rintro a rfl
    obtain ⟨st, hst, h⟩ := bind_eq_ok h
    exact ⟨st, createLoop_inv E _ _ a.obj _ _ st hst, h⟩

/-- The state `SetAnimation` hands to `UpdateAnimation (0.0f)` satisfies the invariant. -/
theorem inv_of_createInv {s : AnimatedSprite2D} {a : Animation2DPtr} {children1 : List Node}
    {st : List (Option Nat) × List TransformInfo × List Node}
    (hP : CreateInv a.obj children1 a.obj.timelines_.length st) :
    Inv { s with
          animation_ := some a
          currentTime_ := 0
          timelineNodes_ := st.1
          timelineTransformInfos_ := st.2.1
          children_ := st.2.2 } where
  unbound := fun h => by cases h
  nodesLen := fun a' ha' => by
    cases ha'
    exact hP.nodesLen
  parents := fun a' ha' => by
    cases ha'
    show st.2.1.map (fun info => info.parent_) = a.obj.parents
    apply List.ext_getElem?
    intro i
    rw [List.getElem?_map, Animation2D.parents, List.getElem?_map]
    by_cases hi : i < a.obj.timelines_.length
    · exact hP.parents i hi
    · rw [List.getElem?_eq_none (by rw [hP.infosLen]; omega),
        List.getElem?_eq_none (by omega)]
      rfl
  live := fun i id hid => (hP.live i id hid).2
  distinct := hP.distinct

/-- `SetAnimation` keeps the invariant. -/
theorem SetAnimation_inv {E : Engine} {x : Option Animation2DPtr} {s s' : AnimatedSprite2D}
    (hinv : Inv s) (h : SetAnimation E x s = .ok s') : Inv s' := by
  cases hne : samePtr x s.animation_ with
  | true =>
    simp only [SetAnimation, hne, if_true] at h
    cases h
    exact ⟨hinv.unbound, hinv.nodesLen, hinv.parents, hinv.live, hinv.distinct⟩
  | false =>
    obtain ⟨children1, hl, -, hnone, hsome⟩ := SetAnimation_ok hinv hne h
    cases x with
    | none =>
      rw [hnone rfl]
      exact
        { unbound := fun _ => rfl
          nodesLen := fun a ha => by cases ha
          parents := fun a ha => by cases ha
          live := fun i id hid => by simp at hid
          distinct := fun i j id hid => by simp at hid }
    | some a =>
      obtain ⟨st, hP, hu⟩ := hsome a rfl
      exact UpdateAnimation_inv (inv_of_createInv hP) hu

theorem SetLayer_inv {layer : Int} {s s' : AnimatedSprite2D} (hinv : Inv s)
    (h : SetLayer layer s = .ok s') : Inv s' := by
  unfold SetLayer at h
  split at h
  · cases h
    exact hinv
  · obtain ⟨children, hc, h⟩ := bind_eq_ok h
    cases h
    have hl : children.length = s.children_.length :=
      forLoop_inv (setLayerBody layer s.timelineNodes_)
        (fun _ cur => cur.length = s.children_.length) _ _ rfl
        (by
          intro i t t' _ hP hb
          unfold setLayerBody at hb
          split at hb
          · simp at hb
          · simp at hb
          · exact (modifyNode_frame (fun _ => ()) (fun _ => rfl) hb).1.trans hP)
        children hc
    exact
      { unbound := hinv.unbound
        nodesLen := hinv.nodesLen
        parents := hinv.parents
        live := fun i id hid => by
          show id < children.length
          rw [hl]
          exact hinv.live i id hid
        distinct := hinv.distinct }

theorem SetBlendMode_inv {blendMode : BlendMode} {s s' : AnimatedSprite2D} (hinv : Inv s)
    (h : SetBlendMode blendMode s = .ok s') : Inv s' := by
  unfold SetBlendMode at h
  split at h
  · cases h
    exact hinv
  · obtain ⟨children, hc, h⟩ := bind_eq_ok h
    cases h
    have hl : children.length = s.children_.length :=
      forLoop_inv (setBlendModeBody blendMode s.timelineNodes_)
        (fun _ cur => cur.length = s.children_.length) _ _ rfl
        (by
          intro i t t' _ hP hb
          unfold setBlendModeBody at hb
          split at hb
          · simp at hb
          · simp at hb
          · exact (modifyNode_frame (fun _ => ()) (fun _ => rfl) hb).1.trans hP)
        children hc
    exact
      { unbound := hinv.unbound
        nodesLen := hinv.nodesLen
        parents := hinv.parents
        live := fun i id hid => by
          show id < children.length
          rw [hl]
          exact hinv.live i id hid
        distinct := hinv.distinct }

/-- The invariant speaks about the bound animation, the two tables and the entities only. -/
theorem Inv.of_eq {s t : AnimatedSprite2D} (hinv : Inv s) (h1 : t.animation_ = s.animation_)
    (h2 : t.timelineNodes_ = s.timelineNodes_)
    (h3 : t.timelineTransformInfos_ = s.timelineTransformInfos_)
    (h4 : t.children_ = s.children_) : Inv t where
  unbound := by rw [h1, h2]; exact hinv.unbound
  nodesLen := by rw [h1, h2]; exact hinv.nodesLen
  parents := by rw [h1, h3]; exact hinv.parents
  live := by rw [h2, h4]; exact hinv.live
  distinct := by rw [h2]; exact hinv.distinct

theorem inv_init : Inv AnimatedSprite2D.init where
  unbound := fun _ => rfl
  nodesLen := fun a ha => by cases ha
  parents := fun a ha => by cases ha
  live := fun i id hid => by simp [AnimatedSprite2D.init] at hid
  distinct := fun i j id hid => by simp [AnimatedSprite2D.init] at hid

/-- Every reachable state satisfies the invariant. -/
theorem Reachable.inv {E : Engine} {s : AnimatedSprite2D} (h : Reachable E s) : Inv s := by
  induction h with
  | init => exact inv_init
  | setLayer layer _ hs ih => exact SetLayer_inv ih hs
  | setOrderInLayer orderInLayer _ ih => exact ih.of_eq rfl rfl rfl rfl
  | setBlendMode blendMode _ hs ih => exact SetBlendMode_inv ih hs
  | setSpeed speed _ ih => exact ih.of_eq rfl rfl rfl rfl
  | setAnimation animation _ hs ih => exact SetAnimation_inv ih hs
  | setAnimationInSet animationSet name _ hs ih =>
    cases animationSet with
    | none =>
      simp only [SetAnimationInSet] at hs
      exact SetAnimation_inv (by exact ih.of_eq rfl rfl rfl rfl) hs
    | some set =>
      simp only [SetAnimationInSet] at hs
      exact SetAnimation_inv (by exact ih.of_eq rfl rfl rfl rfl) hs
  | setAnimationSet animationSet _ hs ih =>
    unfold SetAnimationSet at hs
    split at hs
    · cases hs
      exact ih
    · cases animationSet with
      | none =>
        simp only at hs
        exact SetAnimation_inv (by exact ih.of_eq rfl rfl rfl rfl) hs
      | some set =>
        simp only at hs
        exact SetAnimation_inv (by exact ih.of_eq rfl rfl rfl rfl) hs
  | @setAnimationName s s' name _ hs ih =>
    cases hset : s.animationSet_ with
    | none =>
      simp only [SetAnimationName, hset] at hs
      cases hs
      exact ih.of_eq rfl rfl rfl rfl
    | some set =>
      simp only [SetAnimationName, hset] at hs
      exact SetAnimation_inv (by exact ih.of_eq rfl rfl rfl rfl) hs
  | updateAnimation timeStep _ hs ih => exact UpdateAnimation_inv ih hs

/-! ## The sampling time -/

theorem truncQ_bounds (q : ℚ) :
    (0 ≤ q → (truncQ q : ℚ) ≤ q ∧ q < truncQ q + 1) ∧
    (q < 0 → q ≤ (truncQ q : ℚ) ∧ (truncQ q : ℚ) < q + 1) := by
  constructor
  · intro h
    simp only [truncQ, h, if_true]
    exact ⟨Int.floor_le q, Int.lt_floor_add_one q⟩
  · intro h
    have : ¬ (0 ≤ q) := not_le.mpr h
    simp only [truncQ, this, if_false]
    exact ⟨Int.le_ceil q, Int.ceil_lt_add_one q⟩

/-- The sampling time of a looping animation of positive length is the elapsed time
minus the length times the floor of their quotient. -/
theorem sampleTime_looped (a : Animation2D) (c : ℚ) (hl : a.looped_ = true) (hL : 0 < a.length_) :
    sampleTime a c = .ok (c - (⌊c / a.length_⌋ : ℚ) * a.length_) := by
  have hL0 : a.length_ ≠ 0 := ne_of_gt hL
  unfold sampleTime fmodf
  simp only [hl, if_true, hL0, if_false, bind_ok]
  rcases le_or_lt 0 (c / a.length_) with hq | hq
  · have htr : truncQ (c / a.length_) = ⌊c / a.length_⌋ := by simp [truncQ, hq]
    rw [htr]
    have h1 : (⌊c / a.length_⌋ : ℚ) * a.length_ ≤ c := by
      have := Int.floor_le (c / a.length_)
      calc (⌊c / a.length_⌋ : ℚ) * a.length_ ≤ (c / a.length_) * a.length_ := by
            exact mul_le_mul_of_nonneg_right this (le_of_lt hL)
        _ = c := by field_simp
    have : ¬ (c - (⌊c / a.length_⌋ : ℚ) * a.length_ < 0) := by linarith
    simp [this, pure, Except.pure]
  · have htr : truncQ (c / a.length_) = ⌈c / a.length_⌉ := by simp [truncQ, not_le.mpr hq]
    rw [htr]
    by_cases hint : (⌈c / a.length_⌉ : ℚ) = c / a.length_
    · have hfl : (⌊c / a.length_⌋ : ℚ) = c / a.length_ := by
        rw [← hint]; simp
      rw [hint, hfl]
      have : c / a.length_ * a.length_ = c := by field_simp
      simp [this, pure, Except.pure]
    · have hlt : c / a.length_ < (⌈c / a.length_⌉ : ℚ) := lt_of_le_of_ne (Int.le_ceil _) (Ne.symm hint)
      have hfl : ⌊c / a.length_⌋ = ⌈c / a.length_⌉ - 1 := by
        rw [Int.floor_eq_iff]
        constructor
        · push_cast
          have := Int.ceil_lt_add_one (c / a.length_)
          linarith
        · push_cast; linarith
      have hneg : c - (⌈c / a.length_⌉ : ℚ) * a.length_ < 0 := by
        have : c = (c / a.length_) * a.length_ := by field_simp
        have h2 : (c / a.length_) * a.length_ < (⌈c / a.length_⌉ : ℚ) * a.length_ :=
          mul_lt_mul_of_pos_right hlt hL
        linarith
      simp only [hneg, if_true, pure, Except.pure, hfl]
      congr 1
      push_cast
      ring

theorem sampleTime_looped_bounds (a : Animation2D) (c : ℚ) (hl : a.looped_ = true)
    (hL : 0 < a.length_) :
    ∃ time, sampleTime a c = .ok time ∧ 0 ≤ time ∧ time < a.length_ ∧
      ∃ k : ℤ, c - time = k * a.length_ := by
  refine ⟨_, sampleTime_looped a c hl hL, ?_, ?_, ⌊c / a.length_⌋, by ring⟩
  · have h1 := Int.floor_le (c / a.length_)
    have h2 : (⌊c / a.length_⌋ : ℚ) * a.length_ ≤ c / a.length_ * a.length_ :=
      mul_le_mul_of_nonneg_right h1 (le_of_lt hL)
    have h3 : c / a.length_ * a.length_ = c := by field_simp
    linarith
  · have h1 := Int.lt_floor_add_one (c / a.length_)
    have h2 : c / a.length_ * a.length_ < ((⌊c / a.length_⌋ : ℚ) + 1) * a.length_ :=
      mul_lt_mul_of_pos_right h1 hL
    have h3 : c / a.length_ * a.length_ = c := by field_simp
    linarith

/-- `Clamp (c, 0, L)` for `0 ≤ L`. -/
theorem Clamp_bounds (c L : ℚ) (hL : 0 ≤ L) :
    0 ≤ Clamp c 0 L ∧ Clamp c 0 L ≤ L ∧ (0 ≤ c → c ≤ L → Clamp c 0 L = c) ∧
      (L < c → Clamp c 0 L = L) ∧ (c < 0 → Clamp c 0 L = 0) := by
  unfold Clamp
  refine ⟨?_, ?_, ?_, ?_, ?_⟩
  · split_ifs <;> linarith
  · split_ifs <;> linarith
  · intro h0 h1
    have h2 : ¬ c < 0 := not_lt.mpr h0
    have h3 : ¬ c > L := not_lt.mpr h1
    simp [h2, h3]
  · intro h
    have h2 : ¬ c < 0 := not_lt.mpr (le_trans hL (le_of_lt h))
    simp [h2, h]
  · intro h
    simp [h]

/-- Two calls of `UpdateAnimation` that sample at the same time from states that differ in
the elapsed time only end in states that differ in the elapsed time only. -/
theorem UpdateAnimation_congr_time (E : Engine) (s : AnimatedSprite2D) (a : Animation2DPtr)
    (c₁ c₂ dt₁ dt₂ : ℚ) (hbound : s.animation_ = some a)
    (h : sampleTime a.obj (c₁ + dt₁ * s.speed_) = sampleTime a.obj (c₂ + dt₂ * s.speed_)) :
    (UpdateAnimation E dt₁ { s with currentTime_ := c₁ }).map forgetTime =
      (UpdateAnimation E dt₂ { s with currentTime_ := c₂ }).map forgetTime := by
  unfold UpdateAnimation
  simp only [hbound, h]
  cases sampleTime a.obj (c₂ + dt₂ * s.speed_) with
  | error e => rfl
  | ok time =>
    simp only [bind_ok]
    cases evaluate E a.obj time s.orderInLayer_ s.timelineNodes_
        (s.timelineTransformInfos_, s.children_) with
    | error e => rfl
    | ok st => rfl

/-! ## The entities after `UpdateAnimation`, the selected mainline key -/

theorem Inv.infosLen {s : AnimatedSprite2D} {a : Animation2DPtr} (hinv : Inv s)
    (hbound : s.animation_ = some a) :
    s.timelineTransformInfos_.length = a.obj.timelines_.length := by
  have := congrArg List.length (hinv.parents a hbound)
  simpa [Animation2D.parents] using this

theorem pairwise_getElem? {keys : List MainlineKey2D}
    (hasc : keys.Pairwise (fun a b => a.time_ < b.time_)) {i j : Nat} {a b : MainlineKey2D}
    (hi : keys[i]? = some a) (hj : keys[j]? = some b) (hij : i < j) : a.time_ < b.time_ := by
  obtain ⟨hi', rfl⟩ := List.getElem?_eq_some.mp hi
  obtain ⟨hj', rfl⟩ := List.getElem?_eq_some.mp hj
  exact List.pairwise_iff_getElem.mp hasc i j hi' hj' hij

/-! ## `SetAnimation`: the kind of the timelines and the new entities -/

/-- One iteration of the loop of lines 229-246 keeps its second invariant. -/
theorem createNode_kinds {E : Engine} {layer : Int} {blendMode : BlendMode} {a : Animation2D}
    {children0 : List Node} {k : Nat}
    {st st' : List (Option Nat) × List TransformInfo × List Node}
    (hP : CreateInv a children0 k st) (hK : CreateKinds E layer blendMode a children0 k st)
    (h : createNode E layer blendMode a k st = .ok st') :
    CreateKinds E layer blendMode a children0 (k + 1) st' := by
  obtain ⟨timeline, info, htl, -, -, hcase⟩ := createNode_ok h
  have hkn : k < a.timelines_.length := (List.getElem?_eq_some.mp htl).1
  rcases hcase with ⟨hty, hlt, hnodes, hch⟩ | ⟨hty, hnodes, hch⟩
  · have hget : ∀ i : Nat, st'.1[i]? = if i = k then some (some st.2.2.length) else st.1[i]? := by
      intro i
      rw [hnodes, List.getElem?_set]
      by_cases hik : k = i
      · subst hik
        simp [hlt]
      · have : ¬ i = k := fun e => hik e.symm
        simp [hik, this]
    constructor
    · intro id h0 hid
      rw [hch, List.length_append, List.length_singleton] at hid
      by_cases hlast : id = st.2.2.length
      · exact ⟨k, by rw [hget, hlast]; simp⟩
      · obtain ⟨i, hi⟩ := hK.owned id h0 (by omega)
        have hik : i ≠ k := by
          rintro rfl
          rw [hP.rest i le_rfl hkn] at hi
          cases hi
        exact ⟨i, by rw [hget]; simp only [hik, if_false]; exact hi⟩
    · intro i timeline' hi htl'
      rw [hget]
      by_cases hik : i = k
      · subst hik
        rw [htl] at htl'
        cases htl'
        simp [hty]
      · simp only [hik, if_false]
        exact hK.kind i timeline' (by omega) htl'
    · intro i id hid
      rw [hget] at hid
      rw [hch]
      by_cases hik : i = k
      · subst hik
        simp only [if_true, Option.some.injEq] at hid
        subst hid
        exact ⟨timeline, htl, List.getElem?_concat_length _ _⟩
      · simp only [hik, if_false] at hid
        obtain ⟨timeline', htl', hn⟩ := hK.fresh i id hid
        refine ⟨timeline', htl', ?_⟩
        rw [List.getElem?_append_left (hP.live i id hid).2]
        exact hn
  · constructor
    · intro id h0 hid
      rw [hch] at hid
      rw [hnodes]
      exact hK.owned id h0 hid
    · intro i timeline' hi htl'
      rw [hnodes]
      by_cases hik : i = k
      · subst hik
        rw [htl] at htl'
        cases htl'
        rw [hP.rest i le_rfl hkn]
        simp [hty]
      · exact hK.kind i timeline' (by omega) htl'
    · intro i id hid
      rw [hnodes] at hid
      rw [hch]
      exact hK.fresh i id hid

/-- The loop of lines 229-246 establishes both its invariants for all timelines. -/
theorem createLoop_kinds (E : Engine) (layer : Int) (blendMode : BlendMode) (a : Animation2D)
    (infos : List TransformInfo) (children0 : List Node)
    (st' : List (Option Nat) × List TransformInfo × List Node)
    (h : forLoop (createNode E layer blendMode a) a.timelines_.length
      (resize [] a.timelines_.length none, resize infos a.timelines_.length E.newInfo,
        children0) = .ok st') :
    CreateInv a children0 a.timelines_.length st' ∧
      CreateKinds E layer blendMode a children0 a.timelines_.length st' := by
  refine forLoop_inv (createNode E layer blendMode a)
    (fun k t => CreateInv a children0 k t ∧ CreateKinds E layer blendMode a children0 k t)
    a.timelines_.length _ ⟨createInv_start E a infos children0, ?_, ?_, ?_⟩
    (fun _ _ _ _ hP hb => ⟨createNode_inv hP.1 hb, createNode_kinds hP.1 hP.2 hb⟩) st' h
  · intro id h0 hid
    exact absurd hid (not_lt.mpr h0)
  · intro i timeline hi
    exact absurd hi (Nat.not_lt_zero i)
  · intro i id hid
    exfalso
    have hid' : (resize ([] : List (Option Nat)) a.timelines_.length none)[i]?
        = some (some id) := hid
    simp [resize, List.getElem?_replicate] at hid'

theorem Owned.of_frame {s t : AnimatedSprite2D} (h : Owned s)
    (h2 : t.timelineNodes_ = s.timelineNodes_)
    (h4 : ∀ j : Nat, (t.children_[j]?).map (fun node => node.removed_)
      = (s.children_[j]?).map (fun node => node.removed_)) : Owned t := by
  intro id hid
  rw [h2]
  exact h id ((h4 id).symm.trans hid)

theorem SetLayer_owned {layer : Int} {s s' : AnimatedSprite2D} (hown : Owned s)
    (h : SetLayer layer s = .ok s') : Owned s' := by
  unfold SetLayer at h
  split at h
  · cases h
    exact hown
  · obtain ⟨children, hc, h⟩ := bind_eq_ok h
    cases h
    refine hown.of_frame rfl ?_
    exact forLoop_inv (setLayerBody layer s.timelineNodes_)
      (fun _ cur => ∀ j : Nat, (cur[j]?).map (fun node => node.removed_)
        = (s.children_[j]?).map (fun node => node.removed_)) _ _ (fun _ => rfl)
      (by
        intro i t t' _ hP hb
        unfold setLayerBody at hb
        split at hb
        · simp at hb
        · simp at hb
        · have hf := modifyNode_frame (fun node : Node => node.removed_) (by intro _; rfl) hb
          exact fun j => (hf.2 j).trans (hP j))
      children hc

theorem SetBlendMode_owned {blendMode : BlendMode} {s s' : AnimatedSprite2D} (hown : Owned s)
    (h : SetBlendMode blendMode s = .ok s') : Owned s' := by
  unfold SetBlendMode at h
  split at h
  · cases h
    exact hown
  · obtain ⟨children, hc, h⟩ := bind_eq_ok h
    cases h
    refine hown.of_frame rfl ?_
    exact forLoop_inv (setBlendModeBody blendMode s.timelineNodes_)
      (fun _ cur => ∀ j : Nat, (cur[j]?).map (fun node => node.removed_)
        = (s.children_[j]?).map (fun node => node.removed_)) _ _ (fun _ => rfl)
      (by
        intro i t t' _ hP hb
        unfold setBlendModeBody at hb
        split at hb
        · simp at hb
        · simp at hb
        · have hf := modifyNode_frame (fun node : Node => node.removed_) (by intro _; rfl) hb
          exact fun j => (hf.2 j).trans (hP j))
      children hc

theorem UpdateAnimation_owned {E : Engine} {timeStep : ℚ} {s s' : AnimatedSprite2D}
    (hown : Owned s) (h : UpdateAnimation E timeStep s = .ok s') : Owned s' := by
  cases hb : s.animation_ with
  | none =>
    rw [UpdateAnimation_unbound hb] at h
    cases h
    exact hown
  | some a =>
    obtain ⟨time, st, -, h2, rfl⟩ := UpdateAnimation_ok hb h
    obtain ⟨-, -, f3⟩ := evaluate_frame (fun node : Node => node.removed_)
      (fun _ _ _ _ => rfl) (fun _ _ _ _ _ _ => rfl) h2
    exact hown.of_frame rfl f3

/-- The loop of lines 210-214 changes an entity only by removing it. -/
theorem removeLoop_frame (timelineNodes : List (Option Nat)) (n : Nat)
    (children children' : List Node)
    (h : forLoop (removeNode timelineNodes) n children = .ok children') :
    ∀ id : Nat, (children'[id]?).map (fun node => node.removed_) = some true ∨
      children'[id]? = children[id]? := by
  refine forLoop_inv (removeNode timelineNodes)
    (fun _ cur => ∀ id : Nat, (cur[id]?).map (fun node => node.removed_) = some true ∨
      cur[id]? = children[id]?)
    n children (fun _ => Or.inr rfl) ?_ children' h
  intro k t t' _ hP hb
  unfold removeNode at hb
  split at hb
  · simp at hb
  · cases hb
    exact hP
  · rename_i id0 hslot
    obtain ⟨node0, hn0, rfl⟩ := modifyNode_ok hb
    intro id
    rw [getElem?_set_some hn0]
    by_cases hid0 : id = id0
    · simp [hid0]
    · simp only [hid0, if_false]
      exact hP id

/-- After lines 208-216 every entity of the component is removed. -/
theorem removeTimelineNodes_owned {s s1 : AnimatedSprite2D} (hinv : Inv s) (hown : Owned s)
    (h : removeTimelineNodes s = .ok s1) :
    ∀ id : Nat, (s1.children_[id]?).map (fun node => node.removed_) ≠ some false := by
  obtain ⟨children1, rfl, -, hr⟩ := removeTimelineNodes_ok hinv h
  have hfr : ∀ id : Nat, (children1[id]?).map (fun node => node.removed_) = some true ∨
      children1[id]? = s.children_[id]? := by
    unfold removeTimelineNodes at h
    split at h
    · obtain ⟨children2, hc, h⟩ := bind_eq_ok h
      cases h
      exact removeLoop_frame _ _ _ _ hc
    · have hc : s.children_ = children1 :=
        congrArg AnimatedSprite2D.children_ (Except.ok.inj h)
      exact fun _ => Or.inr (by rw [hc])
  intro id hid
  change (children1[id]?).map (fun node => node.removed_) = some false at hid
  rcases hfr id with ht | he
  · rw [ht] at hid
    cases hid
  · obtain ⟨i, hi⟩ := hown id (by rw [← he]; exact hid)
    obtain ⟨node, hn, hrem⟩ := hr i id hi
    rw [hn] at hid
    simp [hrem] at hid

theorem SetAnimation_owned {E : Engine} {x : Option Animation2DPtr} {s s' : AnimatedSprite2D}
    (hinv : Inv s) (hown : Owned s) (h : SetAnimation E x s = .ok s') : Owned s' := by
  cases hne : samePtr x s.animation_ with
  | true =>
    simp only [SetAnimation, hne, if_true] at h
    cases h
    exact hown
  | false =>
    unfold SetAnimation at h
    simp only [hne, Bool.false_eq_true, if_false] at h
    obtain ⟨s1, h1, h⟩ := bind_eq_ok h
    have hrem := removeTimelineNodes_owned hinv hown h1
    obtain ⟨children1, rfl, hl, -⟩ := removeTimelineNodes_ok hinv h1
    cases x with
    | none =>
      cases h
      intro id hid
      exact absurd hid (hrem id)
    | some a =>
      obtain ⟨st, hst, h⟩ := bind_eq_ok h
      obtain ⟨hP, hK⟩ := createLoop_kinds E _ _ a.obj _ _ st hst
      refine UpdateAnimation_owned ?_ h
      intro id hid
      show ∃ i : Nat, st.1[i]? = some (some id)
      have hid' : (st.2.2[id]?).map (fun node => node.removed_) = some false := hid
      by_cases hold : id < children1.length
      · rw [hP.old id hold] at hid'
        exact absurd hid' (hrem id)
      · have hlt : id < st.2.2.length := by
          by_contra hge
          rw [List.getElem?_eq_none (not_lt.mp hge)] at hid'
          cases hid'
        exact hK.owned id (not_lt.mp hold) hlt

theorem Owned.of_same {s t : AnimatedSprite2D} (h : Owned s)
    (h2 : t.timelineNodes_ = s.timelineNodes_) (h4 : t.children_ = s.children_) : Owned t :=
  h.of_frame h2 (fun j => by rw [h4])

/-- In every reachable state the entities that are not removed are in the entity table. -/
theorem Reachable.owned {E : Engine} {s : AnimatedSprite2D} (h : Reachable E s) : Owned s := by
  induction h with
  | init =>
    intro id hid
    simp [AnimatedSprite2D.init] at hid
  | setLayer layer _ hs ih => exact SetLayer_owned ih hs
  | setOrderInLayer orderInLayer _ ih => exact ih.of_same rfl rfl
  | setBlendMode blendMode _ hs ih => exact SetBlendMode_owned ih hs
  | setSpeed speed _ ih => exact ih.of_same rfl rfl
  | setAnimation animation hr hs ih => exact SetAnimation_owned hr.inv ih hs
  | setAnimationInSet animationSet name hr hs ih =>
    cases animationSet with
    | none =>
      simp only [SetAnimationInSet] at hs
      exact SetAnimation_owned (by exact hr.inv.of_eq rfl rfl rfl rfl)
        (by exact ih.of_same rfl rfl) hs
    | some set =>
      simp only [SetAnimationInSet] at hs
      exact SetAnimation_owned (by exact hr.inv.of_eq rfl rfl rfl rfl)
        (by exact ih.of_same rfl rfl) hs
  | setAnimationSet animationSet hr hs ih =>
    unfold SetAnimationSet at hs
    split at hs
    · cases hs
      exact ih
    · cases animationSet with
      | none =>
        simp only at hs
        exact SetAnimation_owned (by exact hr.inv.of_eq rfl rfl rfl rfl)
          (by exact ih.of_same rfl rfl) hs
      | some set =>
        simp only at hs
        exact SetAnimation_owned (by exact hr.inv.of_eq rfl rfl rfl rfl)
          (by exact ih.of_same rfl rfl) hs
  | @setAnimationName s s' name hr hs ih =>
    cases hset : s.animationSet_ with
    | none =>
      simp only [SetAnimationName, hset] at hs
      cases hs
      exact ih.of_same rfl rfl
    | some set =>
      simp only [SetAnimationName, hset] at hs
      exact SetAnimation_owned (by exact hr.inv.of_eq rfl rfl rfl rfl)
        (by exact ih.of_same rfl rfl) hs
  | updateAnimation timeStep _ hs ih => exact UpdateAnimation_owned ih hs

theorem Sample.skeleton_valid : Sample.skeleton.Valid :=
  ⟨by decide, by decide, by decide, fun i hi => by
    have hi2 : i < 2 := hi
    exact ⟨2, by interval_cases i <;> decide⟩⟩

theorem Sample.skeleton_regular : Sample.skeleton.Regular := ⟨by decide, by decide!⟩

theorem Sample.posed_run :
    SetAnimation Sample.engine (some Sample.skeletonPtr) init = .ok Sample.posed := by
  with_unfolding_all rfl

theorem Sample.posed_reachable : Reachable Sample.engine Sample.posed :=
  Reachable.setAnimation _ Reachable.init Sample.posed_run

/-! ## Timelines whose scan finds no key pair -/

/-- The scan of lines 277-302 finds no pair when the sampling time is above the time of
every key from the second on, and so when there is one key only. -/
theorem scanTimelineKeys_none (time : ℚ) :
    ∀ (keys : List TimelineKey2D) (j : Nat),
      (∀ key ∈ keys.tail, key.time_ < time) → scanTimelineKeys time j keys = none
  | [], _, _ => rfl
  | [_], _, _ => rfl
  | currKey :: nextKey :: rest, j, h => by
    have h1 : ¬ time ≤ nextKey.time_ := not_le.mpr (h nextKey (by simp))
    rw [scanTimelineKeys]
    simp only [h1, if_false]
    exact scanTimelineKeys_none time (nextKey :: rest) (j + 1)
      (fun key hk => h key (by
        simp only [List.tail_cons] at hk ⊢
        exact List.mem_cons_of_mem _ hk))

/-- An iteration of the first loop whose scan finds no key pair changes nothing. -/
theorem updateLocalTransform_no_pair (E : Engine) (a : Animation2D) (time : ℚ)
    (timelineNodes : List (Option Nat)) (i : Nat) (st : List TransformInfo × List Node)
    (timeline : Timeline2D) (htl : a.timelines_[i]? = some timeline)
    (hkeys : timeline.timelineKeys_ ≠ [])
    (hpast : ∀ key ∈ timeline.timelineKeys_.tail, key.time_ < time) :
    updateLocalTransform E a time timelineNodes i st = .ok st := by
  have hne : ¬ timeline.timelineKeys_.length = 0 := fun h0 => hkeys (List.length_eq_zero.mp h0)
  unfold updateLocalTransform
  simp only [htl, hne, if_false, scanTimelineKeys_none time _ 0 hpast]

theorem Sample.still_valid : Sample.still.Valid :=
  ⟨by decide, by decide, by decide, fun i hi => by
    have hi1 : i < 1 := hi
    exact ⟨1, by interval_cases i; decide⟩⟩

theorem Sample.still_regular : Sample.still.Regular := ⟨by decide, by decide!⟩

theorem Sample.rested_run :
    SetAnimation Sample.engine (some Sample.stillPtr) init = .ok Sample.rested := by
  with_unfolding_all rfl

theorem Sample.paced_run :
    UpdateAnimation Sample.engine (1 / 2) Sample.started = .ok Sample.paced := by
  with_unfolding_all rfl

theorem Sample.lagged_run :
    UpdateAnimation Sample.engine 1 Sample.paced = .ok Sample.lagged := by
  with_unfolding_all rfl

/-! ## The key pair the scan selects -/

/-- The pair the scan of lines 277-302 returns: the first `k` with
`time <= objectKeys[k + 1].time_`. -/
theorem scanTimelineKeys_some (time : ℚ) :
    ∀ (keys : List TimelineKey2D) (j0 j : Nat) (currKey nextKey : TimelineKey2D),
      scanTimelineKeys time j0 keys = some (j, currKey, nextKey) →
      ∃ k : Nat, j = j0 + k ∧ keys[k]? = some currKey ∧ keys[k + 1]? = some nextKey ∧
        time ≤ nextKey.time_ ∧
        ∀ (k' : Nat) (key : TimelineKey2D), k' < k → keys[k' + 1]? = some key →
          key.time_ < time
  | [], _, _, _, _, h => by simp [scanTimelineKeys] at h
  | [_], _, _, _, _, h => by simp [scanTimelineKeys] at h
  | cur :: nxt :: rest, j0, j, currKey, nextKey, h => by
    rw [scanTimelineKeys] at h
    split at h
    · rename_i hle
      simp only [Option.some.injEq, Prod.mk.injEq] at h
      obtain ⟨rfl, rfl, rfl⟩ := h
      exact ⟨0, rfl, by simp, by simp, hle, fun k' _ hk' => absurd hk' (Nat.not_lt_zero k')⟩
    · rename_i hgt
      obtain ⟨k, hj, hc, hn, hle, hmin⟩ :=
        scanTimelineKeys_some time (nxt :: rest) (j0 + 1) j currKey nextKey h
      refine ⟨k + 1, by omega, by rw [List.getElem?_cons_succ]; exact hc,
        by rw [List.getElem?_cons_succ]; exact hn, hle, fun k' key hk' hkey => ?_⟩
      cases k' with
      | zero =>
        simp only [List.getElem?_cons_succ, List.getElem?_cons_zero, Option.some.injEq] at hkey
        subst hkey
        exact not_le.mp hgt
      | succ k'' =>
        rw [List.getElem?_cons_succ] at hkey
        exact hmin k'' key (by omega) hkey

/-- The scan finds a pair when some key from the second on is not before the sampling
time. -/
theorem scanTimelineKeys_exists (time : ℚ) :
    ∀ (keys : List TimelineKey2D) (j0 : Nat) (key : TimelineKey2D),
      key ∈ keys.tail → time ≤ key.time_ →
      ∃ r, scanTimelineKeys time j0 keys = some r
  | [], _, _, hk, _ => by simp at hk
  | [_], _, _, hk, _ => by simp at hk
  | cur :: nxt :: rest, j0, key, hk, hle => by
    rw [scanTimelineKeys]
    split
    · exact ⟨_, rfl⟩
    · rename_i hgt
      simp only [List.tail_cons, List.mem_cons] at hk
      rcases hk with rfl | hk
      · exact absurd hle hgt
      · exact scanTimelineKeys_exists time (nxt :: rest) (j0 + 1) key hk hle

/-- What an iteration of the first loop whose scan selects a pair stores in the
`TransformInfo` of the timeline. -/
theorem updateLocalTransform_pair {E : Engine} {a : Animation2D} {time : ℚ}
    {timelineNodes : List (Option Nat)} {i j : Nat} {st st' : List TransformInfo × List Node}
    {timeline : Timeline2D} {currKey nextKey : TimelineKey2D} {info : TransformInfo}
    (htl : a.timelines_[i]? = some timeline)
    (hscan : scanTimelineKeys time 0 timeline.timelineKeys_ = some (j, currKey, nextKey))
    (hinfo : st.1[i]? = some info)
    (h : updateLocalTransform E a time timelineNodes i st = .ok st') :
    st'.1 = st.1.set i
      { info with
        localTransform_ := E.lerp currKey.transform_ nextKey.transform_
          ((time - currKey.time_) / (nextKey.time_ - currKey.time_)) currKey.spin_
        worldTransformUpdated_ := false } := by
  unfold updateLocalTransform at h
  simp only [htl, hscan, hinfo] at h
  split at h
  · cases h
  · split at h
    · cases h
    · split at h
      · cases h
      · cases h
        rfl
      · obtain ⟨children, -, h⟩ := bind_eq_ok h
        cases h
        rfl

/-! ## Key pairs of zero length -/

/-- An iteration of the first loop whose scan selects a pair of keys with equal times
divides by zero at line 284. -/
theorem updateLocalTransform_zero_length (E : Engine) (a : Animation2D) (time : ℚ)
    (timelineNodes : List (Option Nat)) (i j : Nat) (st : List TransformInfo × List Node)
    (timeline : Timeline2D) (currKey nextKey : TimelineKey2D)
    (htl : a.timelines_[i]? = some timeline)
    (hscan : scanTimelineKeys time 0 timeline.timelineKeys_ = some (j, currKey, nextKey))
    (hzero : nextKey.time_ = currKey.time_) :
    updateLocalTransform E a time timelineNodes i st = .error .nonFinite := by
  have hne : ¬ timeline.timelineKeys_.length = 0 := by
    intro h0
    rw [List.length_eq_zero.mp h0] at hscan
    simp [scanTimelineKeys] at hscan
  have hd : nextKey.time_ - currKey.time_ = 0 := by rw [hzero]; exact sub_self _
  unfold updateLocalTransform
  simp only [htl, hne, if_false, hscan, hd, if_true]

/-! ## The resolver: what it changes -/

theorem getElem?_set_ite {α : Type} (l : List α) (i j : Nat) (x : α) (h : i < l.length) :
    (l.set i x)[j]? = if j = i then some x else l[j]? := by
  rw [List.getElem?_set]
  by_cases hj : i = j
  · subst hj; simp [h]
  · have : ¬ j = i := fun e => hj e.symm
    simp [hj, this]

/-- What a call of the resolver that returns does to the table: the slot of the call is
fresh afterwards, and so is every slot the call enters; no local transform changes; the
slots the call does not enter and the slots that were fresh are as before. -/
theorem UpateTimelineWorldTransform_frame (E : Engine) :
    ∀ (fuel index : Nat) (infos infos' : List TransformInfo),
      UpateTimelineWorldTransform E fuel index infos = .ok infos' →
      infos'.length = infos.length ∧
      (∃ info', infos'[index]? = some info' ∧ info'.worldTransformUpdated_ = true) ∧
      (∀ k : Nat, (infos'[k]?).map (fun info => info.localTransform_)
        = (infos[k]?).map (fun info => info.localTransform_)) ∧
      (∀ k : Nat, k ∉ visited infos fuel index → infos'[k]? = infos[k]?) ∧
      (∀ k : Nat, k ∈ visited infos fuel index →
        ∃ info', infos'[k]? = some info' ∧ info'.worldTransformUpdated_ = true) ∧
      (∀ (k : Nat) (info : TransformInfo), infos[k]? = some info →
        info.worldTransformUpdated_ = true → infos'[k]? = some info)
  | 0, _, _, _, h => by simp [UpateTimelineWorldTransform] at h
  | fuel + 1, index, infos, infos', h => by
    unfold UpateTimelineWorldTransform at h
    split at h
    · simp at h
    · rename_i info hinfo
      have hlt : index < infos.length := (List.getElem?_eq_some.mp hinfo).1
      split at h
      · rename_i hfresh
        cases h
        have hv : visited infos (fuel + 1) index = [index] := by
          simp [visited, hinfo, hfresh]
        refine ⟨rfl, ⟨info, hinfo, hfresh⟩, fun _ => rfl, fun _ _ => rfl, ?_,
          fun k info hk _ => hk⟩
        intro k hk
        rw [hv, List.mem_singleton] at hk
        subst hk
        exact ⟨info, hinfo, hfresh⟩
      · rename_i hstale
        split at h
        · rename_i hroot
          cases h
          have hv : visited infos (fuel + 1) index = [index] := by
            simp [visited, hinfo, hroot]
          refine ⟨by simp, ⟨_, by rw [getElem?_set_ite _ _ _ _ hlt, if_pos rfl], rfl⟩, ?_, ?_, ?_, ?_⟩
          · intro k
            rw [getElem?_set_ite _ _ _ _ hlt]
            by_cases hk : k = index
            · subst hk; simp [hinfo]
            · simp [hk]
          · intro k hk
            rw [hv, List.mem_singleton] at hk
            rw [getElem?_set_ite _ _ _ _ hlt]
            simp [hk]
          · intro k hk
            rw [hv, List.mem_singleton] at hk
            subst hk
            exact ⟨_, by rw [getElem?_set_ite _ _ _ _ hlt, if_pos rfl], rfl⟩
          · intro k info' hk hf
            rw [getElem?_set_ite _ _ _ _ hlt]
            have hne : k ≠ index := by
              rintro rfl
              rw [hinfo] at hk
              cases hk
              exact hstale hf
            simp [hne, hk]
        · rename_i hnroot
          obtain ⟨infos1, h1, h2⟩ := bind_eq_ok h
          obtain ⟨il, -, iloc, iout, iin, ifresh⟩ :=
            UpateTimelineWorldTransform_frame E fuel _ infos infos1 h1
          have hv : visited infos (fuel + 1) index
              = index :: visited infos fuel (toUnsigned info.parent_) := by
            simp [visited, hinfo, hstale, hnroot]
          split at h2
          · rename_i info1 parentInfo hinfo1 hparent
            cases h2
            have hlt1 : index < infos1.length := (List.getElem?_eq_some.mp hinfo1).1
            refine ⟨by simp [il], ⟨_, by rw [getElem?_set_ite _ _ _ _ hlt1, if_pos rfl], rfl⟩,
              ?_, ?_, ?_, ?_⟩
            · intro k
              rw [getElem?_set_ite _ _ _ _ hlt1, ← iloc k]
              by_cases hk : k = index
              · subst hk; simp [hinfo1]
              · simp [hk]
            · intro k hk
              rw [hv, List.mem_cons, not_or] at hk
              rw [getElem?_set_ite _ _ _ _ hlt1]
              simp only [hk.1, if_false]
              exact iout k hk.2
            · intro k hk
              rw [hv, List.mem_cons] at hk
              rw [getElem?_set_ite _ _ _ _ hlt1]
              by_cases hki : k = index
              · exact ⟨_, by rw [if_pos hki], rfl⟩
              · simp only [hki, if_false]
                rcases hk with hk | hk
                · exact absurd hk hki
                · exact iin k hk
            · intro k info' hk hf
              rw [getElem?_set_ite _ _ _ _ hlt1]
              have hne : k ≠ index := by
                rintro rfl
                rw [hinfo] at hk
                cases hk
                exact hstale hf
              simp only [hne, if_false]
              exact ifresh k info' hk hf
          · simp at h2

/-! ## The resolver: the world transforms it stores -/

/-- The world transform composed along the parent chain does not depend on the bound on
the length of the chain. -/
theorem worldTransformOf_unique (E : Engine) (infos : List TransformInfo) :
    ∀ (d d' k : Nat) (w w' : Transform2D),
      worldTransformOf E infos d k = some w → worldTransformOf E infos d' k = some w' → w = w'
  | 0, _, _, _, _, h, _ => by simp [worldTransformOf] at h
  | _ + 1, 0, _, _, _, _, h => by simp [worldTransformOf] at h
  | d + 1, d' + 1, k, w, w', h, h' => by
    unfold worldTransformOf at h h'
    cases hk : infos[k]? with
    | none => simp [hk] at h
    | some info =>
      simp only [hk] at h h'
      by_cases hroot : info.parent_ = -1
      · rw [if_pos hroot] at h h'
        exact Option.some.inj (h.symm.trans h')
      · rw [if_neg hroot] at h h'
        obtain ⟨x, hx, rfl⟩ := Option.map_eq_some'.mp h
        obtain ⟨x', hx', rfl⟩ := Option.map_eq_some'.mp h'
        rw [worldTransformOf_unique E infos d d' _ x x' hx hx']

/-- A call of the resolver that returns keeps the agreement with the table resolved
from. -/
theorem UpateTimelineWorldTransform_resolves (E : Engine) (infos0 : List TransformInfo) :
    ∀ (fuel index : Nat) (infos infos' : List TransformInfo),
      Resolves E infos0 infos →
      UpateTimelineWorldTransform E fuel index infos = .ok infos' →
      Resolves E infos0 infos'
  | 0, _, _, _, _, h => by simp [UpateTimelineWorldTransform] at h
  | fuel + 1, index, infos, infos', hres, h => by
    unfold UpateTimelineWorldTransform at h
    split at h
    · simp at h
    · rename_i info hinfo
      have hlt : index < infos.length := (List.getElem?_eq_some.mp hinfo).1
      obtain ⟨info0, hinfo0, hpar0, hloc0, -⟩ := hres.2 index info hinfo
      split at h
      · cases h
        exact hres
      · rename_i hstale
        split at h
        · rename_i hroot
          cases h
          refine ⟨by simp [hres.1], fun k info' hk => ?_⟩
          rw [getElem?_set_ite _ _ _ _ hlt] at hk
          by_cases hki : k = index
          · rw [if_pos hki] at hk
            cases hk
            subst hki
            refine ⟨info0, hinfo0, hpar0, hloc0, fun _ => ⟨1, ?_⟩⟩
            have hroot0 : info0.parent_ = -1 := hpar0 ▸ hroot
            simp only [worldTransformOf, hinfo0, hroot0, if_true, hloc0]
          · rw [if_neg hki] at hk
            exact hres.2 k info' hk
        · rename_i hnroot
          obtain ⟨infos1, h1, h2⟩ := bind_eq_ok h
          have hres1 := UpateTimelineWorldTransform_resolves E infos0 fuel _ infos infos1 hres h1
          obtain ⟨-, ⟨pinfo, hpinfo, hpfresh⟩, -, -, -, -⟩ :=
            UpateTimelineWorldTransform_frame E fuel _ infos infos1 h1
          split at h2
          · rename_i info1 parentInfo hinfo1 hparent
            cases h2
            have hlt1 : index < infos1.length := (List.getElem?_eq_some.mp hinfo1).1
            rw [hparent] at hpinfo
            cases hpinfo
            obtain ⟨pinfo0, -, -, -, hpw⟩ := hres1.2 _ pinfo hparent
            obtain ⟨d, hd⟩ := hpw hpfresh
            obtain ⟨info0', hinfo0', hpar1, hloc1, -⟩ := hres1.2 index info1 hinfo1
            rw [hinfo0] at hinfo0'
            cases hinfo0'
            refine ⟨by simp [hres1.1], fun k info' hk => ?_⟩
            rw [getElem?_set_ite _ _ _ _ hlt1] at hk
            by_cases hki : k = index
            · rw [if_pos hki] at hk
              cases hk
              subst hki
              refine ⟨info0, hinfo0, hpar1, hloc1, fun _ => ⟨d + 1, ?_⟩⟩
              have hnroot0 : ¬ info0.parent_ = -1 := hpar0 ▸ hnroot
              rw [worldTransformOf]
              simp only [hinfo0]
              rw [if_neg hnroot0, ← hpar0, hd]
              simp only [Option.map_some', hloc1]
            · rw [if_neg hki] at hk
              exact hres1.2 k info' hk
          · simp at h2

/-- Two tables that agree with the same table and have every slot fresh are equal. -/
theorem Resolves.unique {E : Engine} {infos0 v1 v2 : List TransformInfo}
    (h1 : Resolves E infos0 v1) (h2 : Resolves E infos0 v2)
    (f1 : ∀ (k : Nat) (info : TransformInfo), v1[k]? = some info →
      info.worldTransformUpdated_ = true)
    (f2 : ∀ (k : Nat) (info : TransformInfo), v2[k]? = some info →
      info.worldTransformUpdated_ = true) : v1 = v2 := by
  apply List.ext_getElem?
  intro k
  by_cases hk : k < infos0.length
  · have hk1 : k < v1.length := by rw [h1.1]; exact hk
    have hk2 : k < v2.length := by rw [h2.1]; exact hk
    obtain ⟨a, ha⟩ : ∃ a, v1[k]? = some a := ⟨_, List.getElem?_eq_getElem hk1⟩
    obtain ⟨b, hb⟩ : ∃ b, v2[k]? = some b := ⟨_, List.getElem?_eq_getElem hk2⟩
    obtain ⟨a0, ha0, ap, al, aw⟩ := h1.2 k a ha
    obtain ⟨b0, hb0, bp, bl, bw⟩ := h2.2 k b hb
    rw [ha0] at hb0
    cases hb0
    obtain ⟨d, hd⟩ := aw (f1 k a ha)
    obtain ⟨d', hd'⟩ := bw (f2 k b hb)
    have hw := worldTransformOf_unique E infos0 d d' k _ _ hd hd'
    have hf : a.worldTransformUpdated_ = b.worldTransformUpdated_ :=
      (f1 k a ha).trans (f2 k b hb).symm
    rw [ha, hb]
    cases a
    cases b
    simp only at ap al bp bl hw hf
    simp only [Option.some.injEq, TransformInfo.mk.injEq]
    exact ⟨ap.trans bp.symm, hf, al.trans bl.symm, hw⟩
  · rw [List.getElem?_eq_none (by rw [h1.1]; omega), List.getElem?_eq_none (by rw [h2.1]; omega)]

/-- In a table with every slot fresh that agrees with `infos0`, the world transform of a
slot without parent is its local transform, and the world transform of any other slot is
the world transform of its parent times its local transform. -/
theorem Resolves.world {E : Engine} {infos0 final : List TransformInfo}
    (hres : Resolves E infos0 final)
    (hfresh : ∀ (k : Nat) (info : TransformInfo), final[k]? = some info →
      info.worldTransformUpdated_ = true)
    {i : Nat} {info : TransformInfo} (hinfo : final[i]? = some info) :
    (info.parent_ = -1 → info.worldTransform_ = info.localTransform_) ∧
    (info.parent_ ≠ -1 → ∃ parentInfo, final[toUnsigned info.parent_]? = some parentInfo ∧
      info.worldTransform_ = E.mul parentInfo.worldTransform_ info.localTransform_) := by
  obtain ⟨info0, hinfo0, hpar, hloc, hw⟩ := hres.2 i info hinfo
  obtain ⟨d, hd⟩ := hw (hfresh i info hinfo)
  cases d with
  | zero => simp [worldTransformOf] at hd
  | succ d =>
    unfold worldTransformOf at hd
    simp only [hinfo0] at hd
    constructor
    · intro hroot
      rw [if_pos (hpar ▸ hroot)] at hd
      rw [hloc]
      exact (Option.some.inj hd).symm
    · intro hnroot
      rw [if_neg (hpar ▸ hnroot)] at hd
      obtain ⟨x, hx, hmul⟩ := Option.map_eq_some'.mp hd
      have hp : toUnsigned info0.parent_ < infos0.length := by
        cases d with
        | zero => simp [worldTransformOf] at hx
        | succ d =>
          unfold worldTransformOf at hx
          cases hq : infos0[toUnsigned info0.parent_]? with
          | none => simp [hq] at hx
          | some q => exact (List.getElem?_eq_some.mp hq).1
      rw [hpar]
      obtain ⟨parentInfo, hparent⟩ : ∃ parentInfo,
          final[toUnsigned info0.parent_]? = some parentInfo :=
        ⟨_, List.getElem?_eq_getElem (by rw [hres.1]; exact hp)⟩
      obtain ⟨-, -, -, -, hpw⟩ := hres.2 _ parentInfo hparent
      obtain ⟨d', hd'⟩ := hpw (hfresh _ parentInfo hparent)
      have := worldTransformOf_unique E infos0 d d' _ _ _ hx hd'
      exact ⟨parentInfo, hparent, by rw [← hmul, this, hloc]⟩

/-! ## The resolver called for every slot -/

theorem resolveInOrder_append (E : Engine) :
    ∀ (xs ys : List Nat) (infos : List TransformInfo),
      resolveInOrder E (xs ++ ys) infos = (resolveInOrder E xs infos >>= resolveInOrder E ys)
  | [], _, _ => rfl
  | x :: xs, ys, infos => by
    simp only [List.cons_append, resolveInOrder]
    cases UpateTimelineWorldTransform E infos.length x infos with
    | error e => rfl
    | ok infos1 =>
      simp only [bind_ok]
      exact resolveInOrder_append E xs ys infos1

/-- The loop of lines 305-307 calls the resolver in the order `0, 1, ..., n - 1`. -/
theorem forLoop_eq_resolveInOrder (E : Engine) (infos : List TransformInfo) :
    ∀ n : Nat, forLoop (fun i v => UpateTimelineWorldTransform E v.length i v) n infos
      = resolveInOrder E (List.range n) infos
  | 0 => rfl
  | n + 1 => by
    rw [forLoop_succ, List.range_succ, resolveInOrder_append, forLoop_eq_resolveInOrder E infos n]
    cases resolveInOrder E (List.range n) infos with
    | error e => rfl
    | ok infos1 =>
      simp only [bind_ok, resolveInOrder]
      cases UpateTimelineWorldTransform E infos1.length n infos1 with
      | error e => rfl
      | ok infos2 => rfl

/-- Calls of the resolver for slots in range, in any order, return; the result agrees
with the table resolved from, the slots called for are fresh, and the slots that were
fresh are as before. -/
theorem resolveInOrder_spec (E : Engine) (infos0 : List TransformInfo) :
    ∀ (order : List Nat) (infos : List TransformInfo),
      infos.length < 2 ^ 32 →
      (∀ i, i < infos.length →
        chainEnds (infos.map (fun info => info.parent_)) infos.length (i : Int) = true) →
      (∀ i ∈ order, i < infos.length) →
      Resolves E infos0 infos →
      ∃ final, resolveInOrder E order infos = .ok final ∧ Resolves E infos0 final ∧
        (∀ (k : Nat) (info : TransformInfo), infos[k]? = some info →
          info.worldTransformUpdated_ = true → final[k]? = some info) ∧
        ∀ k ∈ order, ∃ info, final[k]? = some info ∧ info.worldTransformUpdated_ = true
  | [], infos, _, _, _, hres =>
    ⟨infos, rfl, hres, fun _ _ h _ => h, fun k hk => absurd hk (List.not_mem_nil k)⟩
  | index :: rest, infos, hlen, hc, hin, hres => by
    have hi : index < infos.length := hin index (List.mem_cons_self _ _)
    have hne : (index : Int) ≠ -1 := by omega
    obtain ⟨infos1, h1⟩ := UpateTimelineWorldTransform_total E infos.length (index : Int) infos
      hlen hne (hc index hi)
    rw [Int.toNat_ofNat] at h1
    have hpar := UpateTimelineWorldTransform_parents E _ _ _ _ h1
    obtain ⟨hl1, hfr1, -, -, -, hkeep1⟩ := UpateTimelineWorldTransform_frame E _ _ _ _ h1
    have hres1 := UpateTimelineWorldTransform_resolves E infos0 _ _ _ _ hres h1
    obtain ⟨final, hfinal, hresf, hkeep, hfresh⟩ := resolveInOrder_spec E infos0 rest infos1
      (by rw [hl1]; exact hlen)
      (by
        intro i hi'
        rw [hpar, hl1]
        exact hc i (by rw [← hl1]; exact hi'))
      (fun i hi' => by rw [hl1]; exact hin i (List.mem_cons_of_mem _ hi'))
      hres1
    refine ⟨final, ?_, hresf, ?_, ?_⟩
    · simp only [resolveInOrder, h1, bind_ok]
      exact hfinal
    · intro k info hk hf
      exact hkeep k info (hkeep1 k info hk hf) hf
    · intro k hk
      rcases List.mem_cons.mp hk with rfl | hk'
      · obtain ⟨info', hinfo', hf'⟩ := hfr1
        exact ⟨info', hkeep k info' hinfo' hf', hf'⟩
      · exact hfresh k hk'

theorem resolves_start (E : Engine) (infos : List TransformInfo)
    (hstale : ∀ info ∈ infos, info.worldTransformUpdated_ = false) :
    Resolves E infos infos := by
  refine ⟨rfl, fun k info hk => ⟨info, hk, rfl, rfl, fun hf => ?_⟩⟩
  have := hstale info (List.getElem?_mem hk)
  rw [this] at hf
  cases hf

/-! ## The resolver: recursion depth and the slots it enters -/

/-- A call of the resolver that returns within a recursion depth returns the same table
within any larger one. -/
theorem UpateTimelineWorldTransform_fuel_succ (E : Engine) :
    ∀ (fuel index : Nat) (infos infos' : List TransformInfo),
      UpateTimelineWorldTransform E fuel index infos = .ok infos' →
      UpateTimelineWorldTransform E (fuel + 1) index infos = .ok infos'
  | 0, _, _, _, h => by simp [UpateTimelineWorldTransform] at h
  | fuel + 1, index, infos, infos', h => by
    rw [UpateTimelineWorldTransform] at h ⊢
    cases hinfo : infos[index]? with
    | none => simp [hinfo] at h
    | some info =>
      simp only [hinfo] at h ⊢
      by_cases hfresh : info.worldTransformUpdated_ = true
      · rw [if_pos hfresh] at h ⊢
        exact h
      · rw [if_neg hfresh] at h ⊢
        by_cases hroot : info.parent_ = -1
        · rw [if_pos hroot] at h ⊢
          exact h
        · rw [if_neg hroot] at h ⊢
          obtain ⟨infos1, h1, h2⟩ := bind_eq_ok h
          rw [UpateTimelineWorldTransform_fuel_succ E fuel _ infos infos1 h1]
          exact h2

theorem UpateTimelineWorldTransform_fuel_le (E : Engine) (index : Nat)
    (infos infos' : List TransformInfo) (fuel : Nat)
    (h : UpateTimelineWorldTransform E fuel index infos = .ok infos') :
    ∀ fuel', fuel ≤ fuel' → UpateTimelineWorldTransform E fuel' index infos = .ok infos' := by
  intro fuel' hle
  induction hle with
  | refl => exact h
  | step _ ih => exact UpateTimelineWorldTransform_fuel_succ E _ _ _ _ ih

/-- The slots a call enters are on the ancestor chain of its slot. -/
theorem visited_subset_ancestors (infos : List TransformInfo) :
    ∀ (fuel index k : Nat), k ∈ visited infos fuel index → k ∈ ancestors infos fuel index
  | 0, _, _, h => by simp [visited] at h
  | fuel + 1, index, k, h => by
    rw [visited] at h
    rw [ancestors]
    cases hinfo : infos[index]? with
    | none => simp [hinfo] at h
    | some info =>
      simp only [hinfo] at h ⊢
      by_cases hroot : info.parent_ = -1
      · rw [if_pos hroot]
        rw [if_pos hroot] at h
        split at h <;> exact h
      · rw [if_neg hroot]
        rw [if_neg hroot] at h
        split at h
        · rw [List.mem_singleton] at h
          rw [h]
          exact List.mem_cons_self _ _
        · rcases List.mem_cons.mp h with rfl | h'
          · exact List.mem_cons_self _ _
          · exact List.mem_cons_of_mem _ (visited_subset_ancestors infos fuel _ k h')

/-- A call enters its own slot. -/
theorem mem_visited_self (infos : List TransformInfo) (fuel index : Nat)
    (h : index < infos.length) : index ∈ visited infos (fuel + 1) index := by
  rw [visited, List.getElem?_eq_getElem h]
  simp only
  split
  · exact List.mem_singleton_self _
  · split
    · exact List.mem_singleton_self _
    · exact List.mem_cons_self _ _

/-! ## `SetLayer` and `SetBlendMode` on a table with a null slot -/

/-- A loop over the entity table whose body dereferences the slot without a null check stops
at the first null slot. -/
theorem forLoop_nullDeref (body : Nat → List Node → Except Fault (List Node))
    (timelineNodes : List (Option Nat))
    (hnull : ∀ (i : Nat) (children : List Node), timelineNodes[i]? = some none →
      body i children = .error .nullDeref)
    (hsome : ∀ (i id : Nat) (children : List Node), timelineNodes[i]? = some (some id) →
      id < children.length →
      ∃ children', body i children = .ok children' ∧ children'.length = children.length)
    (children : List Node)
    (hlive : ∀ i id : Nat, timelineNodes[i]? = some (some id) → id < children.length) :
    ∀ n : Nat, n ≤ timelineNodes.length →
      (∃ i : Nat, i < n ∧ timelineNodes[i]? = some none) →
      forLoop body n children = .error .nullDeref
  | 0, _, ⟨i, hi, _⟩ => absurd hi (Nat.not_lt_zero i)
  | n + 1, hn, ⟨i, hi, hslot⟩ => by
    rw [forLoop_succ]
    by_cases hex : ∃ j : Nat, j < n ∧ timelineNodes[j]? = some none
    · rw [forLoop_nullDeref body timelineNodes hnull hsome children hlive n (by omega) hex]
      rfl
    · have hin : i = n := by
        by_contra hne
        exact hex ⟨i, by omega, hslot⟩
      subst hin
      obtain ⟨t, ht, -⟩ := forLoop_total body (fun _ t => t.length = children.length) i
        children rfl (by
          intro j t hj hP
          have hjl : j < timelineNodes.length := by omega
          cases hs : timelineNodes[j]? with
          | none =>
            rw [List.getElem?_eq_getElem hjl] at hs
            cases hs
          | some slot =>
            cases slot with
            | none => exact absurd ⟨j, hj, hs⟩ hex
            | some id =>
              obtain ⟨t', ht', hl'⟩ := hsome j id t hs (by rw [hP]; exact hlive j id hs)
              exact ⟨t', ht', hl'.trans hP⟩)
      rw [ht]
      exact hnull i t hslot

/-- `SetLayer` with a new value on a table with a null slot dereferences the null
pointer. -/
theorem SetLayer_nullDeref {layer : Int} {s : AnimatedSprite2D} {i : Nat} (hinv : Inv s)
    (hslot : s.timelineNodes_[i]? = some none) (hne : layer ≠ s.layer_) :
    SetLayer layer s = .error .nullDeref := by
  unfold SetLayer
  rw [if_neg hne]
  rw [forLoop_nullDeref (setLayerBody layer s.timelineNodes_) s.timelineNodes_
    (fun j children hj => by simp only [setLayerBody, hj])
    (fun j id children hj hid => by
      have hbody : setLayerBody layer s.timelineNodes_ j children = .ok
          (children.set id
            { children[id] with
              staticSprite := { children[id].staticSprite with layer_ := layer } }) := by
        simp only [setLayerBody, hj, modifyNode, List.getElem?_eq_getElem hid]
      exact ⟨_, hbody, List.length_set _ _ _⟩)
    s.children_ hinv.live s.timelineNodes_.length le_rfl
    ⟨i, (List.getElem?_eq_some.mp hslot).1, hslot⟩]
  rfl

/-- `SetBlendMode` with a new value on a table with a null slot dereferences the null
pointer. -/
theorem SetBlendMode_nullDeref {blendMode : BlendMode} {s : AnimatedSprite2D} {i : Nat}
    (hinv : Inv s) (hslot : s.timelineNodes_[i]? = some none)
    (hne : blendMode ≠ s.blendMode_) :
    SetBlendMode blendMode s = .error .nullDeref := by
  unfold SetBlendMode
  rw [if_neg hne]
  rw [forLoop_nullDeref (setBlendModeBody blendMode s.timelineNodes_) s.timelineNodes_
    (fun j children hj => by simp only [setBlendModeBody, hj])
    (fun j id children hj hid => by
      have hbody : setBlendModeBody blendMode s.timelineNodes_ j children = .ok
          (children.set id
            { children[id] with
              staticSprite := { children[id].staticSprite with blendMode_ := blendMode } }) := by
        simp only [setBlendModeBody, hj, modifyNode, List.getElem?_eq_getElem hid]
      exact ⟨_, hbody, List.length_set _ _ _⟩)
    s.children_ hinv.live s.timelineNodes_.length le_rfl
    ⟨i, (List.getElem?_eq_some.mp hslot).1, hslot⟩]
  rfl

/-! ## `UpdateAnimation` with non-finite floats -/

theorem scanTimelineKeysIEEE_finite (t : ℚ) :
    ∀ (keys : List TimelineKey2D) (j : Nat),
      scanTimelineKeysIEEE (some t) j keys = scanTimelineKeys t j keys
  | [], _ => rfl
  | [_], _ => rfl
  | currKey :: nextKey :: rest, j => by
    rw [scanTimelineKeysIEEE, scanTimelineKeys, scanTimelineKeysIEEE_finite t (nextKey :: rest)]
    simp only [leIEEE, decide_eq_true_eq]

theorem scanMainlineKeysIEEE_finite (t : ℚ) :
    ∀ (keys : List MainlineKey2D) (i : Nat),
      scanMainlineKeysIEEE (some t) i keys = scanMainlineKeys t i keys
  | [], _ => rfl
  | [_], _ => rfl
  | a :: b :: rest, i => by
    rw [scanMainlineKeysIEEE, scanMainlineKeys, scanMainlineKeysIEEE_finite t (b :: rest)]
    simp only [ltIEEE, decide_eq_true_eq]

theorem scanMainlineKeysIEEE_nan :
    ∀ (keys : List MainlineKey2D) (i : Nat), scanMainlineKeysIEEE none i keys = none
  | [], _ => rfl
  | [_], _ => rfl
  | a :: b :: rest, i => by
    rw [scanMainlineKeysIEEE]
    simp only [ltIEEE, Bool.false_eq_true, if_false]
    exact scanMainlineKeysIEEE_nan (b :: rest) (i + 1)

theorem getMainlineKeyIEEE_finite (t : ℚ) (keys : List MainlineKey2D) :
    getMainlineKeyIEEE (some t) keys = getMainlineKey t keys := by
  unfold getMainlineKeyIEEE getMainlineKey mainlineKeyIndexIEEE mainlineKeyIndex
  rw [scanMainlineKeysIEEE_finite]
  rfl

/-- Lines 310-322 select a key whenever the mainline has one, whatever the sampling time. -/
theorem getMainlineKeyIEEE_total (time : Option ℚ) (keys : List MainlineKey2D)
    (hne : keys ≠ []) : ∃ key, getMainlineKeyIEEE time keys = .ok key := by
  cases time with
  | some t =>
    obtain ⟨-, key, -, -, h⟩ := getMainlineKey_total t keys hne
    exact ⟨key, by rw [getMainlineKeyIEEE_finite]; exact h⟩
  | none =>
    have hpos : 0 < keys.length := List.length_pos.mpr hne
    have h0 : ¬ keys.length = 0 := by omega
    have hlt : keys.length - 1 < keys.length := by omega
    refine ⟨keys[keys.length - 1], ?_⟩
    simp only [getMainlineKeyIEEE, mainlineKeyIndexIEEE, scanMainlineKeysIEEE_nan, h0, if_false,
      bind_ok, List.getElem?_eq_getElem hlt]

/-- What one iteration of the first loop leaves alone: the parent indices and the number
of entities. -/
theorem updateLocalTransformIEEE_frame {E : Engine} {N : NonFinite} {a : Animation2D}
    {time : Option ℚ} {timelineNodes : List (Option Nat)} {i : Nat}
    {st st' : List TransformInfo × List Node}
    (h : updateLocalTransformIEEE E N a time timelineNodes i st = .ok st') :
    st'.1.map (fun info => info.parent_) = st.1.map (fun info => info.parent_) ∧
      st'.2.length = st.2.length := by
  unfold updateLocalTransformIEEE at h
  split at h
  · simp at h
  · split at h
    · simp at h
    · split at h
      · cases h
        exact ⟨rfl, rfl⟩
      · split at h
        · simp at h
        · rename_i info hinfo
          split at h
          · simp at h
          · cases h
            exact ⟨map_parent_set _ hinfo rfl, rfl⟩
          · obtain ⟨children, hc, hr⟩ := bind_eq_ok h
            cases hr
            obtain ⟨hlen, -⟩ := modifyNode_frame (fun _ => ()) (fun _ => rfl) hc
            exact ⟨map_parent_set _ hinfo rfl, hlen⟩

/-- One iteration of the first loop returns when the timeline has a key, the slots exist
and the entity pointer is live; the key times do not matter. -/
theorem updateLocalTransformIEEE_total (E : Engine) (N : NonFinite) (a : Animation2D)
    (time : Option ℚ) (timelineNodes : List (Option Nat)) (i : Nat)
    (st : List TransformInfo × List Node)
    (hkeys : ∀ timeline ∈ a.timelines_, timeline.timelineKeys_ ≠ [])
    (hi : i < a.timelines_.length) (hinfos : i < st.1.length)
    (hnodes : i < timelineNodes.length)
    (hlive : ∀ id : Nat, timelineNodes[i]? = some (some id) → id < st.2.length) :
    ∃ st', updateLocalTransformIEEE E N a time timelineNodes i st = .ok st' := by
  have hmem : a.timelines_[i] ∈ a.timelines_ := List.getElem_mem hi
  have hne : ¬ a.timelines_[i].timelineKeys_.length = 0 := by
    intro h0
    exact hkeys _ hmem (List.length_eq_zero.mp h0)
  unfold updateLocalTransformIEEE
  simp only [List.getElem?_eq_getElem hi, hne, if_false]
  cases hscan : scanTimelineKeysIEEE time 0 a.timelines_[i].timelineKeys_ with
  | none => exact ⟨st, rfl⟩
  | some r =>
    obtain ⟨j, currKey, nextKey⟩ := r
    simp only [List.getElem?_eq_getElem hinfos]
    cases hn : timelineNodes[i]? with
    | none =>
      rw [List.getElem?_eq_getElem hnodes] at hn
      cases hn
    | some slot =>
      cases slot with
      | none => exact ⟨_, rfl⟩
      | some id =>
        have hid : id < st.2.length := hlive id hn
        simp only [modifyNode, List.getElem?_eq_getElem hid, bind_ok]
        exact ⟨_, rfl⟩

theorem localLoopIEEE_frame (E : Engine) (N : NonFinite) (a : Animation2D) (time : Option ℚ)
    (timelineNodes : List (Option Nat)) (n : Nat) (st st' : List TransformInfo × List Node)
    (h : forLoop (updateLocalTransformIEEE E N a time timelineNodes) n st = .ok st') :
    st'.1.map (fun info => info.parent_) = st.1.map (fun info => info.parent_) ∧
      st'.2.length = st.2.length := by
  refine forLoop_inv (updateLocalTransformIEEE E N a time timelineNodes)
    (fun _ t => t.1.map (fun info => info.parent_) = st.1.map (fun info => info.parent_) ∧
      t.2.length = st.2.length)
    n st ⟨rfl, rfl⟩ ?_ st' h
  intro i t t' _ hP hb
  obtain ⟨h1, h2⟩ := updateLocalTransformIEEE_frame hb
  exact ⟨h1.trans hP.1, h2.trans hP.2⟩

theorem localLoopIEEE_total (E : Engine) (N : NonFinite) (a : Animation2D) (time : Option ℚ)
    (timelineNodes : List (Option Nat)) (st : List TransformInfo × List Node)
    (hkeys : ∀ timeline ∈ a.timelines_, timeline.timelineKeys_ ≠ [])
    (hinfos : st.1.length = a.timelines_.length)
    (hnodes : timelineNodes.length = a.timelines_.length)
    (hlive : ∀ i id : Nat, timelineNodes[i]? = some (some id) → id < st.2.length) :
    ∃ st', forLoop (updateLocalTransformIEEE E N a time timelineNodes) st.1.length st
      = .ok st' := by
  obtain ⟨st', h, -⟩ := forLoop_total (updateLocalTransformIEEE E N a time timelineNodes)
    (fun _ t => t.1.length = st.1.length ∧ t.2.length = st.2.length)
    st.1.length st ⟨rfl, rfl⟩ (by
      intro i t hi hP
      obtain ⟨t', ht'⟩ := updateLocalTransformIEEE_total E N a time timelineNodes i t hkeys
        (by omega) (by omega) (by omega)
        (fun id hid => by rw [hP.2]; exact hlive i id hid)
      obtain ⟨h1, h2⟩ := updateLocalTransformIEEE_frame ht'
      exact ⟨t', ht', (length_eq_of_map_parent h1).trans hP.1, h2.trans hP.2⟩)
  exact ⟨st', h⟩

theorem evaluateIEEE_ok {E : Engine} {N : NonFinite} {a : Animation2D} {time : Option ℚ}
    {orderInLayer : Int} {timelineNodes : List (Option Nat)}
    {st st' : List TransformInfo × List Node}
    (h : evaluateIEEE E N a time orderInLayer timelineNodes st = .ok st') :
    ∃ st1 infos key children,
      forLoop (updateLocalTransformIEEE E N a time timelineNodes) st.1.length st = .ok st1 ∧
      updateWorldTransforms E st1.1 = .ok infos ∧
      getMainlineKeyIEEE time a.mainlineKeys_ = .ok key ∧
      forLoop (updateNode orderInLayer key timelineNodes infos) timelineNodes.length st1.2
        = .ok children ∧
      st' = (infos, children) := by
  unfold evaluateIEEE at h
  obtain ⟨st1, h1, h⟩ := bind_eq_ok h
  obtain ⟨infos, h2, h⟩ := bind_eq_ok h
  obtain ⟨key, h3, h⟩ := bind_eq_ok h
  obtain ⟨children, h4, h⟩ := bind_eq_ok h
  exact ⟨st1, infos, key, children, h1, h2, h3, h4, (Except.ok.inj h).symm⟩

/-- What the pose evaluation leaves alone: the parent indices and the number of
entities. -/
theorem evaluateIEEE_frame {E : Engine} {N : NonFinite} {a : Animation2D} {time : Option ℚ}
    {orderInLayer : Int} {timelineNodes : List (Option Nat)}
    {st st' : List TransformInfo × List Node}
    (h : evaluateIEEE E N a time orderInLayer timelineNodes st = .ok st') :
    st'.1.map (fun info => info.parent_) = st.1.map (fun info => info.parent_) ∧
      st'.2.length = st.2.length := by
  obtain ⟨st1, infos, key, children, h1, h2, -, h4, rfl⟩ := evaluateIEEE_ok h
  obtain ⟨a1, a2⟩ := localLoopIEEE_frame E N a time timelineNodes _ st st1 h1
  obtain ⟨b2, -⟩ := nodeLoop_frame (fun _ => ()) (fun _ _ _ _ _ _ => rfl) orderInLayer key
    timelineNodes infos _ _ _ h4
  exact ⟨(updateWorldTransforms_parents E _ _ h2).trans a1, b2.trans a2⟩

/-- The pose evaluation returns on a table that fits an animation with a key in every
timeline, a mainline key and parent chains that end, whatever the sampling time and the
key times are. -/
theorem evaluateIEEE_total (E : Engine) (N : NonFinite) (a : Animation2D) (time : Option ℚ)
    (orderInLayer : Int) (timelineNodes : List (Option Nat))
    (st : List TransformInfo × List Node) (hvalid : a.Valid)
    (hparents : st.1.map (fun info => info.parent_) = a.parents)
    (hnodes : timelineNodes.length = a.timelines_.length)
    (hlive : ∀ i id : Nat, timelineNodes[i]? = some (some id) → id < st.2.length)
    (hdist : ∀ i j id : Nat, timelineNodes[i]? = some (some id) →
      timelineNodes[j]? = some (some id) → i = j) :
    ∃ st', evaluateIEEE E N a time orderInLayer timelineNodes st = .ok st' := by
  have hlen : st.1.length = a.timelines_.length := by
    have := congrArg List.length hparents
    simpa [Animation2D.parents] using this
  obtain ⟨st1, h1⟩ := localLoopIEEE_total E N a time timelineNodes st hvalid.keys hlen hnodes
    hlive
  obtain ⟨a1, a2⟩ := localLoopIEEE_frame E N a time timelineNodes _ st st1 h1
  have hl1 : st1.1.length = a.timelines_.length := (length_eq_of_map_parent a1).trans hlen
  obtain ⟨infos, h2⟩ := updateWorldTransforms_total E st1.1
    (by rw [hl1]; exact hvalid.count)
    (by
      intro i hi
      obtain ⟨d, hd⟩ := hvalid.chains i (by omega)
      have hn : a.parents.length = st1.1.length := by
        rw [hl1]
        simp [Animation2D.parents]
      rw [a1, hparents, ← hn]
      exact chainEnds_length hd)
  have hl2 : infos.length = a.timelines_.length :=
    (length_eq_of_map_parent (updateWorldTransforms_parents E _ _ h2)).trans hl1
  obtain ⟨key, h3⟩ := getMainlineKeyIEEE_total time a.mainlineKeys_ hvalid.mainline
  obtain ⟨children, h4, -⟩ := nodeLoop_spec orderInLayer key timelineNodes infos st1.2
    (fun i id hid => by rw [a2]; exact hlive i id hid) hdist (by omega)
  refine ⟨(infos, children), ?_⟩
  unfold evaluateIEEE
  rw [h1]
  simp only [bind_ok]
  rw [h2]
  simp only [bind_ok]
  rw [h3]
  simp only [bind_ok]
  rw [h4]
  rfl

theorem UpdateAnimationIEEE_ok {E : Engine} {N : NonFinite} {timeStep : ℚ}
    {s s' : AnimatedSprite2D} {a : Animation2DPtr} (hbound : s.animation_ = some a)
    (h : UpdateAnimationIEEE E N timeStep s = .ok s') :
    ∃ st, evaluateIEEE E N a.obj (sampleTimeIEEE a.obj (s.currentTime_ + timeStep * s.speed_))
        s.orderInLayer_ s.timelineNodes_ (s.timelineTransformInfos_, s.children_) = .ok st ∧
      s' = { s with
              currentTime_ := s.currentTime_ + timeStep * s.speed_
              timelineTransformInfos_ := st.1
              children_ := st.2 } := by
  unfold UpdateAnimationIEEE at h
  split at h
  · rename_i hnone
    rw [hbound] at hnone
    cases hnone
  · rename_i a' ha'
    rw [hbound] at ha'
    cases ha'
    obtain ⟨st, h2, h⟩ := bind_eq_ok h
    exact ⟨st, h2, (Except.ok.inj h).symm⟩

theorem UpdateAnimationIEEE_unbound {E : Engine} {N : NonFinite} {timeStep : ℚ}
    {s : AnimatedSprite2D} (h : s.animation_ = none) :
    UpdateAnimationIEEE E N timeStep s = .ok s := by
  simp [UpdateAnimationIEEE, h]

/-- `UpdateAnimation` keeps the invariant, also past float results that are not finite. -/
theorem UpdateAnimationIEEE_inv {E : Engine} {N : NonFinite} {timeStep : ℚ}
    {s s' : AnimatedSprite2D} (hinv : Inv s)
    (h : UpdateAnimationIEEE E N timeStep s = .ok s') : Inv s' := by
  cases hb : s.animation_ with
  | none =>
    rw [UpdateAnimationIEEE_unbound hb] at h
    cases h
    exact hinv
  | some a =>
    obtain ⟨st, h2, rfl⟩ := UpdateAnimationIEEE_ok hb h
    obtain ⟨f1, f2⟩ := evaluateIEEE_frame h2
    exact
      { unbound := hinv.unbound
        nodesLen := hinv.nodesLen
        parents := fun a' ha' => f1.trans (hinv.parents a' ha')
        live := fun i id hid => by
          show id < st.2.length
          rw [f2]
          exact hinv.live i id hid
        distinct := hinv.distinct }

/-- `UpdateAnimation` returns in every state that satisfies the invariant and whose bound
animation has a key in every timeline, a mainline key and parent chains that end. -/
theorem UpdateAnimationIEEE_total (E : Engine) (N : NonFinite) (timeStep : ℚ)
    (s : AnimatedSprite2D) (hinv : Inv s)
    (hwf : ∀ a, s.animation_ = some a → a.obj.Valid) :
    ∃ s', UpdateAnimationIEEE E N timeStep s = .ok s' := by
  cases hb : s.animation_ with
  | none => exact ⟨s, UpdateAnimationIEEE_unbound hb⟩
  | some a =>
    obtain ⟨st, hst⟩ := evaluateIEEE_total E N a.obj
      (sampleTimeIEEE a.obj (s.currentTime_ + timeStep * s.speed_)) s.orderInLayer_
      s.timelineNodes_ (s.timelineTransformInfos_, s.children_) (hwf a hb)
      (hinv.parents a hb) (hinv.nodesLen a hb) hinv.live hinv.distinct
    unfold UpdateAnimationIEEE
    simp only [hb]
    rw [hst]
    exact ⟨_, rfl⟩

/-- `SetAnimation` keeps the invariant, also past float results that are not finite. -/
theorem SetAnimationIEEE_inv {E : Engine} {N : NonFinite} {x : Option Animation2DPtr}
    {s s' : AnimatedSprite2D} (hinv : Inv s) (h : SetAnimationIEEE E N x s = .ok s') :
    Inv s' := by
  cases hne : samePtr x s.animation_ with
  | true =>
    simp only [SetAnimationIEEE, hne, if_true] at h
    cases h
    exact ⟨hinv.unbound, hinv.nodesLen, hinv.parents, hinv.live, hinv.distinct⟩
  | false =>
    unfold SetAnimationIEEE at h
    simp only [hne, Bool.false_eq_true, if_false] at h
    obtain ⟨s1, h1, h⟩ := bind_eq_ok h
    obtain ⟨children1, rfl, -, -⟩ := removeTimelineNodes_ok hinv h1
    cases x with
    | none =>
      cases h
      exact
        { unbound := fun _ => rfl
          nodesLen := fun a ha => by cases ha
          parents := fun a ha => by cases ha
          live := fun i id hid => by simp at hid
          distinct := fun i j id hid => by simp at hid }
    | some a =>
      obtain ⟨st, hst, h⟩ := bind_eq_ok h
      exact UpdateAnimationIEEE_inv (inv_of_createInv (createLoop_inv E _ _ a.obj _ _ st hst)) h

/-- Every state reached through `SetAnimation`, `UpdateAnimation` and the setters
satisfies the invariant. -/
theorem ReachableIEEE.inv_of_reachable {E : Engine} {N : NonFinite} {s : AnimatedSprite2D}
    (h : ReachableIEEE E N s) : Inv s := by
  induction h with
  | init => exact inv_init
  | setLayer layer _ hs ih => exact SetLayer_inv ih hs
  | setOrderInLayer orderInLayer _ ih => exact ih.of_eq rfl rfl rfl rfl
  | setBlendMode blendMode _ hs ih => exact SetBlendMode_inv ih hs
  | setSpeed speed _ ih => exact ih.of_eq rfl rfl rfl rfl
  | setAnimation animation _ hs ih => exact SetAnimationIEEE_inv ih hs
  | updateAnimation timeStep _ hs ih => exact UpdateAnimationIEEE_inv ih hs

/-- `SetAnimation` returns in every state that satisfies the invariant when the animation
has a key in every timeline, a mainline key and parent chains that end. -/
theorem SetAnimationIEEE_total (E : Engine) (N : NonFinite) (x : Option Animation2DPtr)
    (s : AnimatedSprite2D) (hinv : Inv s) (hwf : ∀ a, x = some a → a.obj.Valid) :
    ∃ s', SetAnimationIEEE E N x s = .ok s' := by
  cases hne : samePtr x s.animation_ with
  | true =>
    unfold SetAnimationIEEE
    simp only [hne, if_true]
    exact ⟨_, rfl⟩
  | false =>
    unfold SetAnimationIEEE
    simp only [hne, Bool.false_eq_true, if_false]
    obtain ⟨s1, h1⟩ := removeTimelineNodes_total s hinv
    obtain ⟨children1, rfl, -, -⟩ := removeTimelineNodes_ok hinv h1
    rw [h1]
    simp only [bind_ok]
    cases x with
    | none => exact ⟨_, rfl⟩
    | some a =>
      obtain ⟨st, hst⟩ := createLoop_total E s.layer_ s.blendMode_ a.obj
        s.timelineTransformInfos_ children1
      have hP := createLoop_inv E _ _ a.obj _ _ st hst
      simp only
      rw [hst]
      simp only [bind_ok]
      exact UpdateAnimationIEEE_total E N 0 _ (inv_of_createInv hP) (fun a' ha' => by
        cases ha'
        exact hwf a rfl)

/-! ## Agreement of the two embeddings of `UpdateAnimation` -/

theorem forLoop_mono {σ : Type} (body body' : Nat → σ → Except Fault σ)
    (hb : ∀ i t t', body i t = .ok t' → body' i t = .ok t') :
    ∀ (n : Nat) (s s' : σ), forLoop body n s = .ok s' → forLoop body' n s = .ok s'
  | 0, _, _, h => h
  | n + 1, s, s', h => by
    rw [forLoop_succ] at h ⊢
    obtain ⟨t, ht, h2⟩ := bind_eq_ok h
    rw [forLoop_mono body body' hb n s t ht]
    exact hb n t s' h2

theorem sampleTimeIEEE_finite {a : Animation2D} {c time : ℚ}
    (h : sampleTime a c = .ok time) : sampleTimeIEEE a c = some time := by
  unfold sampleTime at h
  unfold sampleTimeIEEE
  split at h
  · rename_i hl
    simp only [hl, if_true]
    obtain ⟨r, hr, h⟩ := bind_eq_ok h
    unfold fmodf at hr
    unfold fmodfIEEE
    split at hr
    · cases hr
    · rename_i hy
      cases hr
      simp only [hy, if_false, ltIEEE, decide_eq_true_eq]
      split at h
      · rename_i hneg
        cases h
        simp [hneg]
      · rename_i hneg
        cases h
        simp [hneg]
  · rename_i hl
    cases h
    simp [hl]

/-- Where an iteration of the first loop returns in exact arithmetic, it returns the same
with non-finite floats. -/
theorem updateLocalTransformIEEE_finite {E : Engine} {N : NonFinite} {a : Animation2D}
    {t : ℚ} {timelineNodes : List (Option Nat)} {i : Nat}
    {st st' : List TransformInfo × List Node}
    (h : updateLocalTransform E a t timelineNodes i st = .ok st') :
    updateLocalTransformIEEE E N a (some t) timelineNodes i st = .ok st' := by
  unfold updateLocalTransform at h
  unfold updateLocalTransformIEEE
  cases htl : a.timelines_[i]? with
  | none => simp [htl] at h
  | some timeline =>
    simp only [htl] at h ⊢
    by_cases hne : timeline.timelineKeys_.length = 0
    · simp [hne] at h
    · simp only [hne, if_false, scanTimelineKeysIEEE_finite] at h ⊢
      cases hscan : scanTimelineKeys t 0 timeline.timelineKeys_ with
      | none =>
        simp only [hscan] at h ⊢
        exact h
      | some r =>
        obtain ⟨j, currKey, nextKey⟩ := r
        simp only [hscan] at h ⊢
        by_cases hd : nextKey.time_ - currKey.time_ = 0
        · simp [hd] at h
        · simp only [hd, if_false] at h
          simp only [interpolateIEEE, hd, if_false]
          cases hinfo : st.1[i]? with
          | none => simp [hinfo] at h
          | some info =>
            simp only [hinfo] at h ⊢
            cases hslot : timelineNodes[i]? with
            | none => simp [hslot] at h
            | some slot =>
              cases slot with
              | none =>
                simp only [hslot] at h ⊢
                exact h
              | some id =>
                simp only [hslot] at h ⊢
                exact h

theorem evaluateIEEE_finite {E : Engine} {N : NonFinite} {a : Animation2D} {t : ℚ}
    {orderInLayer : Int} {timelineNodes : List (Option Nat)}
    {st st' : List TransformInfo × List Node}
    (h : evaluate E a t orderInLayer timelineNodes st = .ok st') :
    evaluateIEEE E N a (some t) orderInLayer timelineNodes st = .ok st' := by
  obtain ⟨st1, infos, key, children, h1, h2, h3, h4, rfl⟩ := evaluate_ok h
  have h1' := forLoop_mono (updateLocalTransform E a t timelineNodes)
    (updateLocalTransformIEEE E N a (some t) timelineNodes)
    (fun _ _ _ hb => updateLocalTransformIEEE_finite hb) _ _ _ h1
  unfold evaluateIEEE
  rw [h1']
  simp only [bind_ok]
  rw [h2]
  simp only [bind_ok]
  rw [getMainlineKeyIEEE_finite, h3]
  simp only [bind_ok]
  rw [h4]
  rfl

/-- Where `UpdateAnimation` returns in exact arithmetic, it returns the same state with
non-finite floats. -/
theorem UpdateAnimationIEEE_finite {E : Engine} {N : NonFinite} {timeStep : ℚ}
    {s s' : AnimatedSprite2D} (h : UpdateAnimation E timeStep s = .ok s') :
    UpdateAnimationIEEE E N timeStep s = .ok s' := by
  cases hb : s.animation_ with
  | none =>
    rw [UpdateAnimation_unbound hb] at h
    rw [UpdateAnimationIEEE_unbound hb]
    exact h
  | some a =>
    obtain ⟨time, st, h1, h2, rfl⟩ := UpdateAnimation_ok hb h
    unfold UpdateAnimationIEEE
    simp only [hb]
    rw [sampleTimeIEEE_finite h1, evaluateIEEE_finite h2]
    rfl

/-- Where `SetAnimation` returns in exact arithmetic, it returns the same state with
non-finite floats. -/
theorem SetAnimationIEEE_finite {E : Engine} {N : NonFinite} {x : Option Animation2DPtr}
    {s s' : AnimatedSprite2D} (h : SetAnimation E x s = .ok s') :
    SetAnimationIEEE E N x s = .ok s' := by
  unfold SetAnimation at h
  unfold SetAnimationIEEE
  split at h
  · rename_i hsame
    rw [if_pos hsame]
    exact h
  · rename_i hsame
    rw [if_neg hsame]
    obtain ⟨s1, h1, h⟩ := bind_eq_ok h
    rw [h1]
    simp only [bind_ok]
    cases x with
    | none => exact h
    | some a =>
      simp only at h ⊢
      obtain ⟨st, hst, h⟩ := bind_eq_ok h
      rw [hst]
      simp only [bind_ok]
      exact UpdateAnimationIEEE_finite h

theorem Sample.flat_valid : Sample.flat.Valid :=
  ⟨by decide, by decide, by decide, fun i hi => by
    have hi1 : i < 1 := hi
    exact ⟨1, by interval_cases i; decide⟩⟩

theorem Sample.frozen_valid : Sample.frozen.Valid :=
  ⟨by decide, by decide, by decide, fun i hi => by
    have hi2 : i < 2 := hi
    exact ⟨2, by interval_cases i <;> decide⟩⟩

theorem Sample.flattened_run :
    SetAnimationIEEE Sample.engine Sample.nonFinite (some Sample.flatPtr) init
      = .ok Sample.flattened := by
  with_unfolding_all rfl

theorem Sample.halted_run :
    SetAnimationIEEE Sample.engine Sample.nonFinite (some Sample.frozenPtr) init
      = .ok Sample.halted := by
  with_unfolding_all rfl

theorem Sample.flattened_reachable :
    ReachableIEEE Sample.engine Sample.nonFinite Sample.flattened :=
  ReachableIEEE.setAnimation _ ReachableIEEE.init Sample.flattened_run

theorem Sample.halted_reachable :
    ReachableIEEE Sample.engine Sample.nonFinite Sample.halted :=
  ReachableIEEE.setAnimation _ ReachableIEEE.init Sample.halted_run

/-! ## Sample runs -/

theorem Sample.walk_valid : Sample.walk.Valid :=
  ⟨by decide, by decide, by decide, fun i hi => by
    have hi2 : i < 2 := hi
    exact ⟨2, by interval_cases i <;> decide⟩⟩

theorem Sample.walk_regular : Sample.walk.Regular := ⟨by decide, by decide!⟩

theorem Sample.advanced_run :
    UpdateAnimation Sample.engine (3 / 2) Sample.bound = .ok Sample.advanced := by
  with_unfolding_all rfl

theorem Sample.stepped_run :
    UpdateAnimation Sample.engine (3 / 2) Sample.started = .ok Sample.stepped := by
  with_unfolding_all rfl

theorem Sample.started_run :
    SetAnimation Sample.engine (some Sample.walkPtr) init = .ok Sample.started := by
  with_unfolding_all rfl

theorem Sample.mainline_ascending :
    Sample.mainline.Pairwise (fun a b => a.time_ < b.time_) := by
  simp [Sample.mainline]

/-! ## The claims -/

/-- C1 (the code at the failing input): the sample animation, whose child timeline has its
last key at time 1, is bound and then advanced to time 3/2.  The scan of the child finds no
key pair, its `TransformInfo` keeps the flag `worldTransformUpdated_` of the previous
evaluation, and its stored world transform stays at `(10, 0)`, composed from the previous
world transform of the root, while the root is now at `(3, 0)`: the stored world transform
of the child is not the world transform of its parent times its local transform, which is
`(13, 0)`. -/
theorem world_transform_stale :
    Sample.walk.Valid ∧ Sample.walk.Regular ∧
    SetAnimation Sample.engine (some Sample.walkPtr) init = .ok Sample.started ∧
    UpdateAnimation Sample.engine (3 / 2) Sample.started = .ok Sample.stepped ∧
    Sample.stepped.timelineTransformInfos_ =
      [⟨-1, true, Sample.at_ 3, Sample.at_ 3⟩, ⟨0, true, Sample.at_ 10, Sample.at_ 10⟩] ∧
    Sample.engine.mul (Sample.at_ 3) (Sample.at_ 10) = Sample.at_ 13 ∧
    ∃ child parent, Sample.stepped.timelineTransformInfos_[1]? = some child ∧
      child.parent_ = 0 ∧ Sample.stepped.timelineTransformInfos_[0]? = some parent ∧
      child.worldTransform_ ≠ Sample.engine.mul parent.worldTransform_ child.localTransform_ :=
  ⟨Sample.walk_valid, Sample.walk_regular, Sample.started_run, Sample.stepped_run,
    by with_unfolding_all rfl, by with_unfolding_all rfl,
    ⟨⟨0, true, Sample.at_ 10, Sample.at_ 10⟩, ⟨-1, true, Sample.at_ 3, Sample.at_ 3⟩,
      by with_unfolding_all rfl, rfl, by with_unfolding_all rfl, by decide!⟩⟩

/-- C2: for a non-empty mainline key sequence with strictly ascending times and every
sampling time, lines 310-322 select a key, at an index `c`: `c = i - 1` for the first index
`i ≥ 1` whose key has a time above the sampling time; `c` is the last index when no key
from the second on has a time above the sampling time; and when the time of the first key
is not above the sampling time, the selected key is the last key whose time is not above
the sampling time. -/
theorem mainlineKey_selection (keys : List MainlineKey2D) (time : ℚ) (hne : keys ≠ [])
    (hasc : keys.Pairwise (fun a b => a.time_ < b.time_)) :
    ∃ c key, mainlineKeyIndex time keys = .ok c ∧ keys[c]? = some key ∧
      getMainlineKey time keys = .ok key ∧
      (∀ (i : Nat) (k : MainlineKey2D), 1 ≤ i → keys[i]? = some k → time < k.time_ →
        (∀ (j : Nat) (k' : MainlineKey2D), 1 ≤ j → j < i → keys[j]? = some k' →
          ¬ time < k'.time_) →
        c = i - 1) ∧
      ((∀ (i : Nat) (k : MainlineKey2D), 1 ≤ i → keys[i]? = some k → ¬ time < k.time_) →
        c = keys.length - 1) ∧
      ((∀ k0, keys[0]? = some k0 → k0.time_ ≤ time) →
        key.time_ ≤ time ∧
        ∀ (j : Nat) (k : MainlineKey2D), c < j → keys[j]? = some k → time < k.time_) := by
  obtain ⟨c, key, hc, hkey, hget⟩ := getMainlineKey_total time keys hne
  refine ⟨c, key, hc, hkey, hget, ?_⟩
  have hclt : c < keys.length := (List.getElem?_eq_some.mp hkey).1
  cases hs : scanMainlineKeys time 1 keys with
  | some c' =>
    have hcc : c = c' := by
      simp only [mainlineKeyIndex, hs] at hc
      exact (Except.ok.inj hc).symm
    subst hcc
    obtain ⟨m, hm, hlt, ⟨k1, hk1, hk1t⟩, hall⟩ := scanMainlineKeys_some time keys 0 c hs
    have hmc : m = c := by omega
    subst hmc
    refine ⟨?_, ?_, ?_⟩
    · intro i k hi hk hkt hfirst
      by_contra hne'
      rcases Nat.lt_or_gt_of_ne hne' with hlt' | hgt'
      · -- m + 1 < i : key m + 1 contradicts minimality of i
        exact hfirst (m + 1) k1 (by omega) (by omega) hk1 hk1t
      · exact hall i k hi (by omega) hk hkt
    · intro hnone
      exact absurd hk1t (hnone (m + 1) k1 (by omega) hk1)
    · intro h0
      constructor
      · cases m with
        | zero => exact h0 key hkey
        | succ m' => exact not_lt.mp (hall (m' + 1) key (by omega) le_rfl hkey)
      · intro j k hj hk
        rcases Nat.eq_or_lt_of_le (Nat.succ_le_of_lt hj) with heq | hlt'
        · have : keys[j]? = some k1 := by rw [← heq]; exact hk1
          rw [hk] at this
          cases this
          exact hk1t
        · exact lt_trans hk1t (pairwise_getElem? hasc hk1 hk hlt')
  | none =>
    have h0 : ¬ keys.length = 0 := by omega
    have hcc : c = keys.length - 1 := by
      simp only [mainlineKeyIndex, hs, h0, if_false] at hc
      exact (Except.ok.inj hc).symm
    have hall := scanMainlineKeys_none time keys 1 hs
    refine ⟨?_, ?_, ?_⟩
    · intro i k hi hk hkt _
      exact absurd hkt (hall i k hi hk)
    · intro _
      exact hcc
    · intro h0'
      constructor
      · by_cases hz : c = 0
        · subst hz
          exact h0' key hkey
        · exact not_lt.mp (hall c key (by omega) hkey)
      · intro j k hj hk
        have := (List.getElem?_eq_some.mp hk).1
        omega

/-- C2 (witness): the mainline keys at times 0, 1 and 2 sampled at time 1/2; and the keys
selected at times 1/2, 3/2 and 5/2 are those at 0, 1 and 2. -/
theorem mainlineKey_selection_witness :
    Sample.mainline ≠ [] ∧ Sample.mainline.Pairwise (fun a b => a.time_ < b.time_) ∧
    (∃ c key, mainlineKeyIndex (1 / 2) Sample.mainline = .ok c ∧
      Sample.mainline[c]? = some key ∧
      getMainlineKey (1 / 2) Sample.mainline = .ok key ∧
      (∀ (i : Nat) (k : MainlineKey2D), 1 ≤ i → Sample.mainline[i]? = some k →
        (1 / 2 : ℚ) < k.time_ →
        (∀ (j : Nat) (k' : MainlineKey2D), 1 ≤ j → j < i → Sample.mainline[j]? = some k' →
          ¬ (1 / 2 : ℚ) < k'.time_) →
        c = i - 1) ∧
      ((∀ (i : Nat) (k : MainlineKey2D), 1 ≤ i → Sample.mainline[i]? = some k →
          ¬ (1 / 2 : ℚ) < k.time_) →
        c = Sample.mainline.length - 1) ∧
      ((∀ k0, Sample.mainline[0]? = some k0 → k0.time_ ≤ 1 / 2) →
        key.time_ ≤ 1 / 2 ∧
        ∀ (j : Nat) (k : MainlineKey2D), c < j → Sample.mainline[j]? = some k →
          (1 / 2 : ℚ) < k.time_)) ∧
    mainlineKeyIndex (1 / 2) Sample.mainline = .ok 0 ∧
    mainlineKeyIndex (3 / 2) Sample.mainline = .ok 1 ∧
    mainlineKeyIndex (5 / 2) Sample.mainline = .ok 2 :=
  ⟨by decide, Sample.mainline_ascending,
    mainlineKey_selection Sample.mainline (1 / 2) (by decide) Sample.mainline_ascending,
    by with_unfolding_all rfl, by with_unfolding_all rfl, by with_unfolding_all rfl⟩

/-- C5: for a looping animation of positive length `L`, every elapsed time `c` and every
integer `k`, `UpdateAnimation` derives the same sampling time from `c` and from
`c + k * L`; so two calls from states that differ only in the elapsed time, `c` in one and
`c + k * L` in the other, end in states that again differ only in the elapsed time: the
same `TransformInfo` table and the same entities. -/
theorem sampleTime_periodic (E : Engine) (s : AnimatedSprite2D) (a : Animation2DPtr)
    (c dt : ℚ) (k : ℤ) (hbound : s.animation_ = some a) (hloop : a.obj.looped_ = true)
    (hL : 0 < a.obj.length_) :
    (∃ time, sampleTime a.obj c = .ok time ∧
      sampleTime a.obj (c + k * a.obj.length_) = .ok time) ∧
    (UpdateAnimation E dt { s with currentTime_ := c + k * a.obj.length_ }).map forgetTime =
      (UpdateAnimation E dt { s with currentTime_ := c }).map forgetTime := by
  have key : ∀ x : ℚ, sampleTime a.obj (x + k * a.obj.length_) = sampleTime a.obj x := by
    intro x
    rw [sampleTime_looped a.obj _ hloop hL, sampleTime_looped a.obj _ hloop hL]
    have hL0 : a.obj.length_ ≠ 0 := ne_of_gt hL
    have h1 : (x + k * a.obj.length_) / a.obj.length_ = x / a.obj.length_ + k := by
      field_simp
    rw [h1, Int.floor_add_int]
    congr 1
    push_cast
    ring
  refine ⟨⟨_, sampleTime_looped a.obj c hloop hL, ?_⟩, ?_⟩
  · rw [key c, sampleTime_looped a.obj c hloop hL]
  · apply UpdateAnimation_congr_time E s a _ _ _ _ hbound
    have := key (c + dt * s.speed_)
    rw [← this]
    congr 1
    ring

/-- C5 (witness): the looping sample animation of length 3 at elapsed times 1/2 and
1/2 + 2 * 3. -/
theorem sampleTime_periodic_witness :
    Sample.cycling.animation_ = some Sample.cyclePtr ∧ Sample.cyclePtr.obj.looped_ = true ∧
    0 < Sample.cyclePtr.obj.length_ ∧
    ((∃ time, sampleTime Sample.cyclePtr.obj (1 / 2) = .ok time ∧
        sampleTime Sample.cyclePtr.obj (1 / 2 + (2 : ℤ) * Sample.cyclePtr.obj.length_)
          = .ok time) ∧
      (UpdateAnimation Sample.engine 1
          { Sample.cycling with
            currentTime_ := 1 / 2 + (2 : ℤ) * Sample.cyclePtr.obj.length_ }).map forgetTime =
        (UpdateAnimation Sample.engine 1
          { Sample.cycling with currentTime_ := 1 / 2 }).map forgetTime) :=
  ⟨by with_unfolding_all rfl, by with_unfolding_all rfl, by decide!,
    sampleTime_periodic Sample.engine Sample.cycling Sample.cyclePtr (1 / 2) 1 2
      (by with_unfolding_all rfl) (by with_unfolding_all rfl) (by decide!)⟩

/-- C6: for a non-looping animation of length `L ≥ 0` the time `UpdateAnimation` samples at
is the elapsed time clamped to `[0, L]`: it lies in `[0, L]`, it is the elapsed time when
that lies in `[0, L]`, an elapsed time above `L` samples as `L` does and an elapsed time
below 0 samples as 0 does (the same sampling time, and calls that end in the same
`TransformInfo` table and entities). -/
theorem sampleTime_clamped (E : Engine) (s : AnimatedSprite2D) (a : Animation2DPtr) (c : ℚ)
    (hbound : s.animation_ = some a) (hloop : a.obj.looped_ = false)
    (hL : 0 ≤ a.obj.length_) :
    ∃ time, sampleTime a.obj c = .ok time ∧ 0 ≤ time ∧ time ≤ a.obj.length_ ∧
      (0 ≤ c → c ≤ a.obj.length_ → time = c) ∧
      (a.obj.length_ < c →
        time = a.obj.length_ ∧ sampleTime a.obj a.obj.length_ = .ok time ∧
        (UpdateAnimation E 0 { s with currentTime_ := c }).map forgetTime =
          (UpdateAnimation E 0 { s with currentTime_ := a.obj.length_ }).map forgetTime) ∧
      (c < 0 →
        time = 0 ∧ sampleTime a.obj 0 = .ok time ∧
        (UpdateAnimation E 0 { s with currentTime_ := c }).map forgetTime =
          (UpdateAnimation E 0 { s with currentTime_ := 0 }).map forgetTime) := by
  have hst : ∀ x, sampleTime a.obj x = .ok (Clamp x 0 a.obj.length_) := by
    intro x
    simp [sampleTime, hloop, pure, Except.pure]
  obtain ⟨h0, h1, h2, h3, h4⟩ := Clamp_bounds c a.obj.length_ hL
  refine ⟨_, hst c, h0, h1, h2, ?_, ?_⟩
  · intro h
    have hLL : Clamp a.obj.length_ 0 a.obj.length_ = a.obj.length_ :=
      (Clamp_bounds a.obj.length_ a.obj.length_ hL).2.2.1 hL le_rfl
    refine ⟨h3 h, ?_, ?_⟩
    · rw [hst, hLL, h3 h]
    · apply UpdateAnimation_congr_time E s a _ _ _ _ hbound
      simp only [zero_mul, add_zero]
      rw [hst, hst, hLL, h3 h]
  · intro h
    have h00 : Clamp 0 0 a.obj.length_ = 0 :=
      (Clamp_bounds 0 a.obj.length_ hL).2.2.1 le_rfl hL
    refine ⟨h4 h, ?_, ?_⟩
    · rw [hst, h00, h4 h]
    · apply UpdateAnimation_congr_time E s a _ _ _ _ hbound
      simp only [zero_mul, add_zero]
      rw [hst, hst, h00, h4 h]

/-- C6 (witness): the non-looping sample animation of length 3 at elapsed time 5. -/
theorem sampleTime_clamped_witness :
    Sample.started.animation_ = some Sample.walkPtr ∧ Sample.walkPtr.obj.looped_ = false ∧
    0 ≤ Sample.walkPtr.obj.length_ ∧
    (∃ time, sampleTime Sample.walkPtr.obj 5 = .ok time ∧ 0 ≤ time ∧
      time ≤ Sample.walkPtr.obj.length_ ∧
      ((0 : ℚ) ≤ 5 → 5 ≤ Sample.walkPtr.obj.length_ → time = 5) ∧
      (Sample.walkPtr.obj.length_ < 5 →
        time = Sample.walkPtr.obj.length_ ∧
        sampleTime Sample.walkPtr.obj Sample.walkPtr.obj.length_ = .ok time ∧
        (UpdateAnimation Sample.engine 0 { Sample.started with currentTime_ := 5 }).map
            forgetTime =
          (UpdateAnimation Sample.engine 0
            { Sample.started with currentTime_ := Sample.walkPtr.obj.length_ }).map
            forgetTime) ∧
      ((5 : ℚ) < 0 →
        time = 0 ∧ sampleTime Sample.walkPtr.obj 0 = .ok time ∧
        (UpdateAnimation Sample.engine 0 { Sample.started with currentTime_ := 5 }).map
            forgetTime =
          (UpdateAnimation Sample.engine 0 { Sample.started with currentTime_ := 0 }).map
            forgetTime)) ∧
    sampleTime Sample.walkPtr.obj 5 = .ok 3 :=
  ⟨by with_unfolding_all rfl, by with_unfolding_all rfl, by decide!,
    sampleTime_clamped Sample.engine Sample.started Sample.walkPtr 5
      (by with_unfolding_all rfl) (by with_unfolding_all rfl) (by decide!),
    by with_unfolding_all rfl⟩

/-- C8: `SetAnimation` with the pointer that is bound already (or with null while nothing
is bound) returns the state it was called in with the elapsed time set to 0: the entity
table, the `TransformInfo` table with every parent index, transform and flag, the bound
animation and the entities, removed ones included, are as before; no entity is removed and
none is created. -/
theorem SetAnimation_same (E : Engine) (s : AnimatedSprite2D) (x : Option Animation2DPtr)
    (h : samePtr x s.animation_ = true) :
    SetAnimation E x s = .ok { s with currentTime_ := 0 } ∧
    ∀ s', SetAnimation E x s = .ok s' →
      s'.currentTime_ = 0 ∧ s'.timelineNodes_ = s.timelineNodes_ ∧
      s'.timelineTransformInfos_ = s.timelineTransformInfos_ ∧
      s'.animation_ = s.animation_ ∧ s'.children_ = s.children_ ∧
      forgetTime s' = forgetTime s := by
  have hrun : SetAnimation E x s = .ok { s with currentTime_ := 0 } := by
    unfold SetAnimation
    rw [if_pos h]
  refine ⟨hrun, fun s' hs' => ?_⟩
  rw [hrun] at hs'
  cases hs'
  exact ⟨rfl, rfl, rfl, rfl, rfl, rfl⟩

/-- C8 (witness): `SetAnimation` of the bound sample animation after an update. -/
theorem SetAnimation_same_witness :
    samePtr (some Sample.walkPtr) Sample.stepped.animation_ = true ∧
    (SetAnimation Sample.engine (some Sample.walkPtr) Sample.stepped
        = .ok { Sample.stepped with currentTime_ := 0 } ∧
      ∀ s', SetAnimation Sample.engine (some Sample.walkPtr) Sample.stepped = .ok s' →
        s'.currentTime_ = 0 ∧ s'.timelineNodes_ = Sample.stepped.timelineNodes_ ∧
        s'.timelineTransformInfos_ = Sample.stepped.timelineTransformInfos_ ∧
        s'.animation_ = Sample.stepped.animation_ ∧
        s'.children_ = Sample.stepped.children_ ∧
        forgetTime s' = forgetTime Sample.stepped) ∧
    Sample.stepped.currentTime_ = 3 / 2 :=
  ⟨by with_unfolding_all rfl,
    SetAnimation_same Sample.engine Sample.stepped (some Sample.walkPtr)
      (by with_unfolding_all rfl),
    by with_unfolding_all rfl⟩

/-- C13: in every state reached through `SetAnimation`, `UpdateAnimation` and the setters,
followed through float results that are not finite, whose bound animation has a key in
every timeline, a mainline key, and parent chains that end at `-1` through indices in
range, `UpdateAnimation` returns: it indexes no array out of range, reaches no entity
through a null or dangling pointer and does not exhaust the recursion of the resolver,
whatever the key times and the length of the animation are, a looping animation of length
zero and keys of equal times included.  The state it returns is reachable again, and
`SetAnimation` with an animation of that kind returns as well, so such states exist for
every animation of that kind.  Where `UpdateAnimation` returns in exact arithmetic, it
returns the same state here. -/
theorem UpdateAnimation_no_index_fault (E : Engine) (N : NonFinite) (timeStep : ℚ)
    (s : AnimatedSprite2D) (hreach : ReachableIEEE E N s)
    (hvalid : ∀ a, s.animation_ = some a → a.obj.Valid) :
    (∃ s', UpdateAnimationIEEE E N timeStep s = .ok s' ∧ ReachableIEEE E N s') ∧
    (∀ a : Animation2DPtr, a.obj.Valid →
      ∃ s', SetAnimationIEEE E N (some a) s = .ok s' ∧ ReachableIEEE E N s') ∧
    (∀ s', UpdateAnimation E timeStep s = .ok s' →
      UpdateAnimationIEEE E N timeStep s = .ok s') ∧
    (∀ (x : Option Animation2DPtr) (s' : AnimatedSprite2D), SetAnimation E x s = .ok s' →
      SetAnimationIEEE E N x s = .ok s') := by
  have hinv := hreach.inv_of_reachable
  refine ⟨?_, ?_, fun s' h => UpdateAnimationIEEE_finite h,
    fun x s' h => SetAnimationIEEE_finite h⟩
  · obtain ⟨s', hs'⟩ := UpdateAnimationIEEE_total E N timeStep s hinv hvalid
    exact ⟨s', hs', ReachableIEEE.updateAnimation timeStep hreach hs'⟩
  · intro a ha
    obtain ⟨s', hs'⟩ := SetAnimationIEEE_total E N (some a) s hinv (fun a' ha' => by
      cases ha'
      exact ha)
    exact ⟨s', hs', ReachableIEEE.setAnimation (some a) hreach hs'⟩

/-- C13 (witness): the component bound to the sample animation `flat`, whose first two
keys are both at time 0, evaluated again at time 0, where line 284 divides by zero; and
the component bound to the looping sample animation `frozen` of length 0, where `fmodf`
gives NaN and no comparison with the sampling time holds.  Both calls return; in exact
arithmetic the first stops at the division.  On a table with one `TransformInfo` more
than the animation has timelines, which is not reachable, the call indexes the timelines
out of range, which the exact embedding, stopping at `fmodf`, does not show. -/
theorem UpdateAnimation_no_index_fault_witness :
    ReachableIEEE Sample.engine Sample.nonFinite Sample.flattened ∧
    (∀ a, Sample.flattened.animation_ = some a → a.obj.Valid) ∧
    ((∃ s', UpdateAnimationIEEE Sample.engine Sample.nonFinite 0 Sample.flattened = .ok s' ∧
        ReachableIEEE Sample.engine Sample.nonFinite s') ∧
      (∀ a : Animation2DPtr, a.obj.Valid →
        ∃ s', SetAnimationIEEE Sample.engine Sample.nonFinite (some a) Sample.flattened
            = .ok s' ∧
          ReachableIEEE Sample.engine Sample.nonFinite s') ∧
      (∀ s', UpdateAnimation Sample.engine 0 Sample.flattened = .ok s' →
        UpdateAnimationIEEE Sample.engine Sample.nonFinite 0 Sample.flattened = .ok s') ∧
      (∀ (x : Option Animation2DPtr) (s' : AnimatedSprite2D),
        SetAnimation Sample.engine x Sample.flattened = .ok s' →
        SetAnimationIEEE Sample.engine Sample.nonFinite x Sample.flattened = .ok s')) ∧
    Sample.flattened.timelineTransformInfos_
      = [⟨-1, true, Sample.at_ (-1), Sample.at_ (-1)⟩] ∧
    UpdateAnimationIEEE Sample.engine Sample.nonFinite 0 Sample.flattened
      = .ok Sample.flattened ∧
    UpdateAnimation Sample.engine 0 Sample.flattened = .error .nonFinite ∧
    ReachableIEEE Sample.engine Sample.nonFinite Sample.halted ∧
    Sample.halted.animation_ = some Sample.frozenPtr ∧
    sampleTimeIEEE Sample.frozen (Sample.halted.currentTime_ + 1 * Sample.halted.speed_)
      = none ∧
    Sample.halted.timelineNodes_ = [none, some 0] ∧
    (∃ s', UpdateAnimationIEEE Sample.engine Sample.nonFinite 1 Sample.halted = .ok s' ∧
      s'.currentTime_ = 1 ∧
      s'.timelineTransformInfos_ = Sample.halted.timelineTransformInfos_) ∧
    UpdateAnimationIEEE Sample.engine Sample.nonFinite 1
      { Sample.halted with
        timelineTransformInfos_ :=
          Sample.halted.timelineTransformInfos_ ++ [Sample.engine.newInfo] }
      = .error .outOfRange ∧
    UpdateAnimation Sample.engine 1
      { Sample.halted with
        timelineTransformInfos_ :=
          Sample.halted.timelineTransformInfos_ ++ [Sample.engine.newInfo] }
      = .error .nonFinite :=
  ⟨Sample.flattened_reachable,
    fun a ha =>
      Option.some.inj ((by with_unfolding_all rfl :
        some Sample.flatPtr = Sample.flattened.animation_).trans ha) ▸ Sample.flat_valid,
    UpdateAnimation_no_index_fault Sample.engine Sample.nonFinite 0 Sample.flattened
      Sample.flattened_reachable
      (fun a ha =>
        Option.some.inj ((by with_unfolding_all rfl :
          some Sample.flatPtr = Sample.flattened.animation_).trans ha) ▸ Sample.flat_valid),
    by with_unfolding_all rfl, by with_unfolding_all rfl, by with_unfolding_all rfl,
    Sample.halted_reachable, by with_unfolding_all rfl, by with_unfolding_all rfl,
    by with_unfolding_all rfl,
    ⟨_, by with_unfolding_all rfl, by with_unfolding_all rfl, by with_unfolding_all rfl⟩,
    by with_unfolding_all rfl, by with_unfolding_all rfl⟩

/-- C14 (the code at the failing inputs): an iteration of the first loop of
`UpdateAnimation` for a timeline with a key whose scan finds no pair, the sampling time
being above every key time from the second on or there being one key only, changes
neither the local transform nor the flag `worldTransformUpdated_`.  Binding the sample
animation `still`, whose timeline has the single key `x = 5`, leaves the local transform
at the default `x = 0` and the entity at `x = 0`.  The sample animation `walk`, whose child
timeline has its last key at time 1, evaluated at time 1/2 and then at time 3/2: the first
loop at 3/2 leaves the child with the flag set and its local transform at `x = 15`, the
value interpolated at time 1/2, and so does the whole call. -/
theorem local_transform_kept :
    (∀ (E : Engine) (a : Animation2D) (time : ℚ) (timelineNodes : List (Option Nat))
      (i : Nat) (st : List TransformInfo × List Node) (timeline : Timeline2D),
      a.timelines_[i]? = some timeline → timeline.timelineKeys_ ≠ [] →
      (∀ key ∈ timeline.timelineKeys_.tail, key.time_ < time) →
      updateLocalTransform E a time timelineNodes i st = .ok st) ∧
    Sample.still.Valid ∧ Sample.still.Regular ∧
    SetAnimation Sample.engine (some Sample.stillPtr) init = .ok Sample.rested ∧
    Sample.still.timelines_.map (fun timeline => timeline.timelineKeys_)
      = [[Sample.key 0 5]] ∧
    (Sample.key 0 5).transform_ = Sample.at_ 5 ∧
    Sample.rested.timelineTransformInfos_ = [⟨-1, true, Sample.at_ 0, Sample.at_ 0⟩] ∧
    Sample.rested.children_.map (fun node => node.position_) = [⟨0, 0⟩] ∧
    Sample.walk.Valid ∧ Sample.walk.Regular ∧
    UpdateAnimation Sample.engine (1 / 2) Sample.started = .ok Sample.paced ∧
    UpdateAnimation Sample.engine 1 Sample.paced = .ok Sample.lagged ∧
    sampleTime Sample.walk (Sample.paced.currentTime_ + 1 * Sample.paced.speed_)
      = .ok (3 / 2) ∧
    Sample.paced.timelineTransformInfos_ =
      [⟨-1, true, Sample.at_ 1, Sample.at_ 1⟩, ⟨0, true, Sample.at_ 15, Sample.at_ 16⟩] ∧
    (forLoop (updateLocalTransform Sample.engine Sample.walk (3 / 2)
        Sample.paced.timelineNodes_) 2
        (Sample.paced.timelineTransformInfos_, Sample.paced.children_)).map Prod.fst =
      .ok [⟨-1, false, Sample.at_ 3, Sample.at_ 1⟩,
        ⟨0, true, Sample.at_ 15, Sample.at_ 16⟩] ∧
    Sample.lagged.timelineTransformInfos_ =
      [⟨-1, true, Sample.at_ 3, Sample.at_ 3⟩, ⟨0, true, Sample.at_ 15, Sample.at_ 16⟩] ∧
    Sample.engine.lerp (Sample.key 0 10).transform_ (Sample.key 1 20).transform_ (3 / 2) 1
      = Sample.at_ 25 :=
  ⟨updateLocalTransform_no_pair, Sample.still_valid, Sample.still_regular, Sample.rested_run,
    rfl, rfl, by with_unfolding_all rfl, by with_unfolding_all rfl,
    Sample.walk_valid, Sample.walk_regular, Sample.paced_run, Sample.lagged_run,
    by with_unfolding_all rfl, by with_unfolding_all rfl, by with_unfolding_all rfl,
    by with_unfolding_all rfl, by with_unfolding_all rfl⟩

/-- C15: for a timeline with at least two keys of strictly ascending times and a sampling
time from the time of the first key to the time of the last, the scan of lines 277-302
selects a pair `j`, the first with `time <= objectKeys[j + 1].time_`; it brackets the
time, `objectKeys[j].time_ <= time <= objectKeys[j + 1].time_`; the fraction `t` of line
284 is the quotient of two numbers with a positive divisor and lies in `[0, 1]`; and an
iteration of the first loop that returns stores the interpolation of that pair at `t`. -/
theorem scanTimelineKeys_brackets (keys : List TimelineKey2D) (time : ℚ)
    (first last : TimelineKey2D) (hlen : 2 ≤ keys.length)
    (hasc : keys.Pairwise (fun a b => a.time_ < b.time_))
    (hfirst : keys[0]? = some first) (hlast : keys[keys.length - 1]? = some last)
    (hlo : first.time_ ≤ time) (hhi : time ≤ last.time_) :
    ∃ j currKey nextKey, scanTimelineKeys time 0 keys = some (j, currKey, nextKey) ∧
      keys[j]? = some currKey ∧ keys[j + 1]? = some nextKey ∧
      (∀ (j' : Nat) (key : TimelineKey2D), j' < j → keys[j' + 1]? = some key →
        ¬ time ≤ key.time_) ∧
      currKey.time_ ≤ time ∧ time ≤ nextKey.time_ ∧
      0 < nextKey.time_ - currKey.time_ ∧
      0 ≤ (time - currKey.time_) / (nextKey.time_ - currKey.time_) ∧
      (time - currKey.time_) / (nextKey.time_ - currKey.time_) ≤ 1 ∧
      ∀ (E : Engine) (a : Animation2D) (timelineNodes : List (Option Nat)) (i : Nat)
        (st st' : List TransformInfo × List Node) (timeline : Timeline2D)
        (info : TransformInfo),
        a.timelines_[i]? = some timeline → timeline.timelineKeys_ = keys →
        st.1[i]? = some info →
        updateLocalTransform E a time timelineNodes i st = .ok st' →
        st'.1[i]? = some
          { info with
            localTransform_ := E.lerp currKey.transform_ nextKey.transform_
              ((time - currKey.time_) / (nextKey.time_ - currKey.time_)) currKey.spin_
            worldTransformUpdated_ := false } := by
  have hmem : last ∈ keys.tail := by
    have h1 : keys.tail[keys.length - 2]? = some last := by
      rw [List.getElem?_tail]
      have : keys.length - 2 + 1 = keys.length - 1 := by omega
      rw [this]
      exact hlast
    obtain ⟨hlt, rfl⟩ := List.getElem?_eq_some.mp h1
    exact List.getElem_mem hlt
  obtain ⟨⟨j, currKey, nextKey⟩, hscan⟩ := scanTimelineKeys_exists time keys 0 last hmem hhi
  obtain ⟨k, hj, hc, hn, hle, hmin⟩ := scanTimelineKeys_some time keys 0 j currKey nextKey hscan
  have hjk : j = k := by omega
  subst hjk
  have hcur : currKey.time_ ≤ time := by
    cases j with
    | zero =>
      rw [hfirst] at hc
      cases hc
      exact hlo
    | succ j' => exact le_of_lt (hmin j' currKey (Nat.lt_succ_self j') hc)
  have hpos : 0 < nextKey.time_ - currKey.time_ := by
    obtain ⟨hj1, rfl⟩ := List.getElem?_eq_some.mp hc
    obtain ⟨hj2, rfl⟩ := List.getElem?_eq_some.mp hn
    have := List.pairwise_iff_getElem.mp hasc j (j + 1) hj1 hj2 (Nat.lt_succ_self j)
    linarith
  refine ⟨j, currKey, nextKey, hscan, hc, hn,
    fun j' key hj' hkey => not_le.mpr (hmin j' key hj' hkey), hcur, hle, hpos,
    div_nonneg (by linarith) (le_of_lt hpos), (div_le_one hpos).mpr (by linarith), ?_⟩
  intro E a timelineNodes i st st' timeline info htl hkeys hinfo h
  subst hkeys
  rw [updateLocalTransform_pair htl hscan hinfo h]
  exact List.getElem?_set_eq_of_lt _ (List.getElem?_eq_some.mp hinfo).1

/-- C15 (witness): keys at times 0, 1 and 3 sampled at time 2; the scan selects the pair
1, with fraction 1/2. -/
theorem scanTimelineKeys_brackets_witness :
    (2 ≤ [Sample.key 0 0, Sample.key 1 10, Sample.key 3 20].length ∧
      [Sample.key 0 0, Sample.key 1 10, Sample.key 3 20].Pairwise
        (fun a b => a.time_ < b.time_) ∧
      (Sample.key 0 0).time_ ≤ 2 ∧ (2 : ℚ) ≤ (Sample.key 3 20).time_) ∧
    (∃ j currKey nextKey,
      scanTimelineKeys 2 0 [Sample.key 0 0, Sample.key 1 10, Sample.key 3 20]
        = some (j, currKey, nextKey) ∧
      [Sample.key 0 0, Sample.key 1 10, Sample.key 3 20][j]? = some currKey ∧
      [Sample.key 0 0, Sample.key 1 10, Sample.key 3 20][j + 1]? = some nextKey ∧
      (∀ (j' : Nat) (key : TimelineKey2D), j' < j →
        [Sample.key 0 0, Sample.key 1 10, Sample.key 3 20][j' + 1]? = some key →
        ¬ (2 : ℚ) ≤ key.time_) ∧
      currKey.time_ ≤ 2 ∧ 2 ≤ nextKey.time_ ∧
      0 < nextKey.time_ - currKey.time_ ∧
      0 ≤ (2 - currKey.time_) / (nextKey.time_ - currKey.time_) ∧
      (2 - currKey.time_) / (nextKey.time_ - currKey.time_) ≤ 1 ∧
      ∀ (E : Engine) (a : Animation2D) (timelineNodes : List (Option Nat)) (i : Nat)
        (st st' : List TransformInfo × List Node) (timeline : Timeline2D)
        (info : TransformInfo),
        a.timelines_[i]? = some timeline →
        timeline.timelineKeys_ = [Sample.key 0 0, Sample.key 1 10, Sample.key 3 20] →
        st.1[i]? = some info →
        updateLocalTransform E a 2 timelineNodes i st = .ok st' →
        st'.1[i]? = some
          { info with
            localTransform_ := E.lerp currKey.transform_ nextKey.transform_
              ((2 - currKey.time_) / (nextKey.time_ - currKey.time_)) currKey.spin_
            worldTransformUpdated_ := false }) ∧
    scanTimelineKeys 2 0 [Sample.key 0 0, Sample.key 1 10, Sample.key 3 20]
      = some (1, Sample.key 1 10, Sample.key 3 20) ∧
    (2 - (Sample.key 1 10).time_) / ((Sample.key 3 20).time_ - (Sample.key 1 10).time_)
      = 1 / 2 :=
  ⟨⟨by decide, by simp [Sample.key], by decide!, by decide!⟩,
    scanTimelineKeys_brackets [Sample.key 0 0, Sample.key 1 10, Sample.key 3 20] 2
      (Sample.key 0 0) (Sample.key 3 20) (by decide) (by simp [Sample.key]) rfl rfl
      (by decide!) (by decide!),
    by with_unfolding_all rfl, by with_unfolding_all rfl⟩

/-- C16 (the code at the failing input): an iteration of the first loop of
`UpdateAnimation` whose scan selects a pair of keys with equal times evaluates the
quotient of line 284 with divisor zero; nothing sets the fraction to 0.  The sample
animation `flat` has its first two keys at time 0: at sampling time 0 the scan selects
them, and `SetAnimation`, which evaluates the pose at time 0, stops at that division. -/
theorem zero_length_interval_divides :
    (∀ (E : Engine) (a : Animation2D) (time : ℚ) (timelineNodes : List (Option Nat))
      (i j : Nat) (st : List TransformInfo × List Node) (timeline : Timeline2D)
      (currKey nextKey : TimelineKey2D),
      a.timelines_[i]? = some timeline →
      scanTimelineKeys time 0 timeline.timelineKeys_ = some (j, currKey, nextKey) →
      nextKey.time_ = currKey.time_ →
      updateLocalTransform E a time timelineNodes i st = .error .nonFinite) ∧
    Sample.flat.Valid ∧
    sampleTime Sample.flat 0 = .ok 0 ∧
    scanTimelineKeys 0 0 [Sample.key 0 1, Sample.key 0 2, Sample.key 1 3]
      = some (0, Sample.key 0 1, Sample.key 0 2) ∧
    (Sample.key 0 2).time_ - (Sample.key 0 1).time_ = 0 ∧
    SetAnimation Sample.engine (some Sample.flatPtr) init = .error .nonFinite :=
  ⟨updateLocalTransform_zero_length,
    ⟨by decide, by decide, by decide, fun i hi => by
      have hi1 : i < 1 := hi
      exact ⟨1, by interval_cases i; decide⟩⟩,
    by with_unfolding_all rfl, by with_unfolding_all rfl, by with_unfolding_all rfl,
    by with_unfolding_all rfl⟩

/-- C17: from a table in which every slot is stale and every parent chain ends at `-1`
through indices in range, calling `UpateTimelineWorldTransform` once for every index
returns the same table for every two orders of the indices, the order of the loop of
lines 305-307 among them.  In that table every slot is fresh, parent indices and local
transforms are those of the start, the world transform of a slot without parent is its
local transform, and the world transform of any other slot is the world transform of its
parent times its local transform. -/
theorem resolve_order_independent (E : Engine) (infos : List TransformInfo)
    (order1 order2 : List Nat) (hlen : infos.length < 2 ^ 32)
    (hstale : ∀ info ∈ infos, info.worldTransformUpdated_ = false)
    (hchains : ∀ i, i < infos.length →
      ∃ d, chainEnds (infos.map (fun info => info.parent_)) d (i : Int) = true)
    (h1 : order1.Perm (List.range infos.length))
    (h2 : order2.Perm (List.range infos.length)) :
    ∃ final, resolveInOrder E order1 infos = .ok final ∧
      resolveInOrder E order2 infos = .ok final ∧
      updateWorldTransforms E infos = .ok final ∧
      final.length = infos.length ∧
      ∀ (i : Nat) (info0 : TransformInfo), infos[i]? = some info0 →
        ∃ info, final[i]? = some info ∧ info.worldTransformUpdated_ = true ∧
          info.parent_ = info0.parent_ ∧ info.localTransform_ = info0.localTransform_ ∧
          (info.parent_ = -1 → info.worldTransform_ = info.localTransform_) ∧
          (info.parent_ ≠ -1 →
            ∃ parentInfo, final[toUnsigned info.parent_]? = some parentInfo ∧
              info.worldTransform_ = E.mul parentInfo.worldTransform_ info.localTransform_) := by
  have hc : ∀ i, i < infos.length →
      chainEnds (infos.map (fun info => info.parent_)) infos.length (i : Int) = true := by
    intro i hi
    obtain ⟨d, hd⟩ := hchains i hi
    have := chainEnds_length hd
    rwa [List.length_map] at this
  have hstart := resolves_start E infos hstale
  have key : ∀ order : List Nat, order.Perm (List.range infos.length) →
      ∃ final, resolveInOrder E order infos = .ok final ∧ Resolves E infos final ∧
        ∀ (k : Nat) (info : TransformInfo), final[k]? = some info →
          info.worldTransformUpdated_ = true := by
    intro order hperm
    have hmem : ∀ i, i ∈ order ↔ i < infos.length := fun i =>
      (hperm.mem_iff).trans List.mem_range
    obtain ⟨final, hrun, hres, -, hfresh⟩ := resolveInOrder_spec E infos order infos hlen hc
      (fun i hi => (hmem i).mp hi) hstart
    refine ⟨final, hrun, hres, fun k info hk => ?_⟩
    have hk' : k < infos.length := by
      rw [← hres.1]
      exact (List.getElem?_eq_some.mp hk).1
    obtain ⟨info', hinfo', hf⟩ := hfresh k ((hmem k).mpr hk')
    rw [hk] at hinfo'
    cases hinfo'
    exact hf
  obtain ⟨final, hrun1, hres1, hf1⟩ := key order1 h1
  obtain ⟨final2, hrun2, hres2, hf2⟩ := key order2 h2
  obtain ⟨final3, hrun3, hres3, hf3⟩ := key (List.range infos.length) (List.Perm.refl _)
  have e2 : final2 = final := hres2.unique hres1 hf2 hf1
  have e3 : final3 = final := hres3.unique hres1 hf3 hf1
  rw [e2] at hrun2
  rw [e3] at hrun3
  refine ⟨final, hrun1, hrun2, ?_, hres1.1, fun i info0 hinfo0 => ?_⟩
  · unfold updateWorldTransforms
    rw [forLoop_eq_resolveInOrder]
    exact hrun3
  · have hi : i < final.length := by
      rw [hres1.1]
      exact (List.getElem?_eq_some.mp hinfo0).1
    obtain ⟨info, hinfo⟩ : ∃ info, final[i]? = some info := ⟨_, List.getElem?_eq_getElem hi⟩
    obtain ⟨info0', hinfo0', hpar, hloc, -⟩ := hres1.2 i info hinfo
    rw [hinfo0] at hinfo0'
    cases hinfo0'
    exact ⟨info, hinfo, hf1 i info hinfo, hpar, hloc, hres1.world hf1 hinfo⟩

/-- C17 (witness): a table of three slots with the chain 2, 0, 1, resolved in the orders
2, 0, 1 and 1, 2, 0 and in the order of the loop. -/
theorem resolve_order_independent_witness :
    (Sample.table.length < 2 ^ 32 ∧
      (∀ info ∈ Sample.table, info.worldTransformUpdated_ = false) ∧
      [2, 0, 1].Perm (List.range Sample.table.length) ∧
      [1, 2, 0].Perm (List.range Sample.table.length)) ∧
    (∃ final, resolveInOrder Sample.engine [2, 0, 1] Sample.table = .ok final ∧
      resolveInOrder Sample.engine [1, 2, 0] Sample.table = .ok final ∧
      updateWorldTransforms Sample.engine Sample.table = .ok final ∧
      final.length = Sample.table.length ∧
      ∀ (i : Nat) (info0 : TransformInfo), Sample.table[i]? = some info0 →
        ∃ info, final[i]? = some info ∧ info.worldTransformUpdated_ = true ∧
          info.parent_ = info0.parent_ ∧ info.localTransform_ = info0.localTransform_ ∧
          (info.parent_ = -1 → info.worldTransform_ = info.localTransform_) ∧
          (info.parent_ ≠ -1 →
            ∃ parentInfo, final[toUnsigned info.parent_]? = some parentInfo ∧
              info.worldTransform_
                = Sample.engine.mul parentInfo.worldTransform_ info.localTransform_)) ∧
    resolveInOrder Sample.engine [2, 0, 1] Sample.table =
      .ok [⟨1, true, Sample.at_ 1, Sample.at_ 11⟩, ⟨-1, true, Sample.at_ 10, Sample.at_ 10⟩,
        ⟨0, true, Sample.at_ 100, Sample.at_ 111⟩] :=
  ⟨⟨by decide, by decide, by decide, by decide⟩,
    resolve_order_independent Sample.engine Sample.table [2, 0, 1] [1, 2, 0] (by decide)
      (by decide)
      (fun i hi => by
        have hi3 : i < 3 := hi
        exact ⟨3, by interval_cases i <;> decide⟩)
      (by decide) (by decide),
    by with_unfolding_all rfl⟩

/-- C18: for a table of fewer than `2 ^ 32` slots in which every parent chain ends at `-1`
through indices in range, and every index `i` in range, `UpateTimelineWorldTransform (i)`
returns, with recursion depth at most the number of slots, and a larger bound on the
depth gives the same table.  The call enters slot `i`; every slot it enters is on the
ancestor chain of `i` and is fresh afterwards; no parent index and no local transform
changes; and a slot the call does not enter, so every slot outside the ancestor chain of
`i`, is as before. -/
theorem resolver_terminates (E : Engine) (infos : List TransformInfo) (i : Nat)
    (hlen : infos.length < 2 ^ 32)
    (hchains : ∀ k, k < infos.length →
      ∃ d, chainEnds (infos.map (fun info => info.parent_)) d (k : Int) = true)
    (hi : i < infos.length) :
    ∃ infos', UpateTimelineWorldTransform E infos.length i infos = .ok infos' ∧
      (∀ fuel, infos.length ≤ fuel →
        UpateTimelineWorldTransform E fuel i infos = .ok infos') ∧
      infos'.length = infos.length ∧
      i ∈ visited infos infos.length i ∧
      (∀ k, k ∈ visited infos infos.length i →
        k ∈ ancestors infos infos.length i ∧
        ∃ info', infos'[k]? = some info' ∧ info'.worldTransformUpdated_ = true) ∧
      (∀ k : Nat,
        (infos'[k]?).map (fun info => info.parent_)
          = (infos[k]?).map (fun info => info.parent_) ∧
        (infos'[k]?).map (fun info => info.localTransform_)
          = (infos[k]?).map (fun info => info.localTransform_)) ∧
      (∀ k, k ∉ visited infos infos.length i → infos'[k]? = infos[k]?) ∧
      (∀ k, k ∉ ancestors infos infos.length i → infos'[k]? = infos[k]?) := by
  obtain ⟨d, hd⟩ := hchains i hi
  have hc := chainEnds_length hd
  rw [List.length_map] at hc
  have hne : (i : Int) ≠ -1 := by omega
  obtain ⟨infos', h⟩ := UpateTimelineWorldTransform_total E infos.length (i : Int) infos
    hlen hne hc
  rw [Int.toNat_ofNat] at h
  have hpar := UpateTimelineWorldTransform_parents E _ _ _ _ h
  obtain ⟨hl, -, hloc, hout, hin, -⟩ := UpateTimelineWorldTransform_frame E _ _ _ _ h
  have hself : i ∈ visited infos infos.length i := by
    obtain ⟨m, hm⟩ : ∃ m, infos.length = m + 1 := ⟨infos.length - 1, by omega⟩
    rw [hm]
    exact mem_visited_self infos m i hi
  refine ⟨infos', h, UpateTimelineWorldTransform_fuel_le E i infos infos' _ h, hl, hself,
    fun k hk => ⟨visited_subset_ancestors infos _ _ k hk, hin k hk⟩,
    fun k => ⟨?_, hloc k⟩, hout,
    fun k hk => hout k (fun hv => hk (visited_subset_ancestors infos _ _ k hv))⟩
  rw [← List.getElem?_map, ← List.getElem?_map, hpar]

/-- C18 (witness): the resolver called for slot 2 of a table of four slots with the chain
2, 0, 1, whose root is fresh; the call enters the slots 2, 0 and 1 and leaves slot 3
stale. -/
theorem resolver_terminates_witness :
    (Sample.family.length < 2 ^ 32 ∧ 2 < Sample.family.length) ∧
    (∃ infos', UpateTimelineWorldTransform Sample.engine Sample.family.length 2 Sample.family
        = .ok infos' ∧
      (∀ fuel, Sample.family.length ≤ fuel →
        UpateTimelineWorldTransform Sample.engine fuel 2 Sample.family = .ok infos') ∧
      infos'.length = Sample.family.length ∧
      2 ∈ visited Sample.family Sample.family.length 2 ∧
      (∀ k, k ∈ visited Sample.family Sample.family.length 2 →
        k ∈ ancestors Sample.family Sample.family.length 2 ∧
        ∃ info', infos'[k]? = some info' ∧ info'.worldTransformUpdated_ = true) ∧
      (∀ k : Nat,
        (infos'[k]?).map (fun info => info.parent_)
          = (Sample.family[k]?).map (fun info => info.parent_) ∧
        (infos'[k]?).map (fun info => info.localTransform_)
          = (Sample.family[k]?).map (fun info => info.localTransform_)) ∧
      (∀ k, k ∉ visited Sample.family Sample.family.length 2 →
        infos'[k]? = Sample.family[k]?) ∧
      (∀ k, k ∉ ancestors Sample.family Sample.family.length 2 →
        infos'[k]? = Sample.family[k]?)) ∧
    visited Sample.family Sample.family.length 2 = [2, 0, 1] ∧
    ancestors Sample.family Sample.family.length 2 = [2, 0, 1] ∧
    UpateTimelineWorldTransform Sample.engine Sample.family.length 2 Sample.family =
      .ok [⟨1, true, Sample.at_ 1, Sample.at_ 11⟩, ⟨-1, true, Sample.at_ 10, Sample.at_ 10⟩,
        ⟨0, true, Sample.at_ 100, Sample.at_ 111⟩, ⟨-1, false, Sample.at_ 7, Sample.at_ 0⟩] :=
  ⟨⟨by decide, by decide⟩,
    resolver_terminates Sample.engine Sample.family 2 (by decide)
      (fun k hk => by
        have hk4 : k < 4 := hk
        exact ⟨3, by interval_cases k <;> decide⟩)
      (by decide),
    by decide, by decide, by with_unfolding_all rfl⟩

/-- C19: for a looping animation of length `L > 0` and every elapsed time `c`, lines
263-268 compute the remainder `r = c - trunc (c / L) * L` of `fmodf`, which lies strictly
between `-L` and `L`, and sample at `r + L` when `r` is negative and at `r` otherwise; the
sampling time lies in `[0, L)` and differs from `c` by an integer multiple of `L`; and it
is the time a call of `UpdateAnimation` that brings the elapsed time to `c` evaluates the
pose at. -/
theorem sampleTime_looped_range (a : Animation2D) (c : ℚ) (hl : a.looped_ = true)
    (hL : 0 < a.length_) :
    ∃ r time, fmodf c a.length_ = .ok r ∧
      r = c - (truncQ (c / a.length_) : ℚ) * a.length_ ∧
      -a.length_ < r ∧ r < a.length_ ∧
      time = (if r < 0 then r + a.length_ else r) ∧
      sampleTime a c = .ok time ∧
      0 ≤ time ∧ time < a.length_ ∧
      (∃ k : ℤ, time = c + k * a.length_) ∧
      ∀ (E : Engine) (timeStep : ℚ) (s s' : AnimatedSprite2D) (p : Animation2DPtr),
        s.animation_ = some p → p.obj = a → s.currentTime_ + timeStep * s.speed_ = c →
        UpdateAnimation E timeStep s = .ok s' →
        ∃ st, evaluate E a time s.orderInLayer_ s.timelineNodes_
            (s.timelineTransformInfos_, s.children_) = .ok st ∧
          s'.timelineTransformInfos_ = st.1 ∧ s'.children_ = st.2 := by
  have hL0 : a.length_ ≠ 0 := ne_of_gt hL
  obtain ⟨time, htime, h0, h1, k, hk⟩ := sampleTime_looped_bounds a c hl hL
  have hr : fmodf c a.length_ = .ok (c - (truncQ (c / a.length_) : ℚ) * a.length_) := by
    simp only [fmodf, hL0, if_false]
  have hq : c / a.length_ * a.length_ = c := by field_simp
  have hrange : -a.length_ < c - (truncQ (c / a.length_) : ℚ) * a.length_ ∧
      c - (truncQ (c / a.length_) : ℚ) * a.length_ < a.length_ := by
    obtain ⟨hpos, hneg⟩ := truncQ_bounds (c / a.length_)
    rcases le_or_lt 0 (c / a.length_) with hc | hc
    · obtain ⟨b1, b2⟩ := hpos hc
      have m1 := mul_le_mul_of_nonneg_right b1 (le_of_lt hL)
      have m2 := mul_lt_mul_of_pos_right b2 hL
      constructor <;> nlinarith
    · obtain ⟨b1, b2⟩ := hneg hc
      have m1 := mul_le_mul_of_nonneg_right b1 (le_of_lt hL)
      have m2 := mul_lt_mul_of_pos_right b2 hL
      constructor <;> nlinarith
  have hdef : sampleTime a c = .ok
      (if c - (truncQ (c / a.length_) : ℚ) * a.length_ < 0
        then c - (truncQ (c / a.length_) : ℚ) * a.length_ + a.length_
        else c - (truncQ (c / a.length_) : ℚ) * a.length_) := by
    unfold sampleTime
    simp only [hl, if_true, hr, bind_ok]
    split <;> rfl
  have heq : time = (if c - (truncQ (c / a.length_) : ℚ) * a.length_ < 0
        then c - (truncQ (c / a.length_) : ℚ) * a.length_ + a.length_
        else c - (truncQ (c / a.length_) : ℚ) * a.length_) := by
    rw [hdef] at htime
    exact (Except.ok.inj htime).symm
  refine ⟨_, time, hr, rfl, hrange.1, hrange.2, heq, htime, h0, h1,
    ⟨-k, by push_cast; linarith⟩, ?_⟩
  intro E timeStep s s' p hbound hp hc hrun
  obtain ⟨time', st, ht', hst, hs'⟩ := UpdateAnimation_ok hbound hrun
  rw [hp, hc, htime] at ht'
  cases ht'
  rw [hp] at hst
  exact ⟨st, hst, by rw [hs'], by rw [hs']⟩

/-- C19 (witness): the looping sample animation of length 3 at elapsed time -7/2; the
remainder is -1/2 and the sampling time 5/2. -/
theorem sampleTime_looped_range_witness :
    (Sample.cyclePtr.obj.looped_ = true ∧ 0 < Sample.cyclePtr.obj.length_) ∧
    (∃ r time, fmodf (-7 / 2) Sample.cyclePtr.obj.length_ = .ok r ∧
      r = -7 / 2 - (truncQ (-7 / 2 / Sample.cyclePtr.obj.length_) : ℚ)
        * Sample.cyclePtr.obj.length_ ∧
      -Sample.cyclePtr.obj.length_ < r ∧ r < Sample.cyclePtr.obj.length_ ∧
      time = (if r < 0 then r + Sample.cyclePtr.obj.length_ else r) ∧
      sampleTime Sample.cyclePtr.obj (-7 / 2) = .ok time ∧
      0 ≤ time ∧ time < Sample.cyclePtr.obj.length_ ∧
      (∃ k : ℤ, time = -7 / 2 + k * Sample.cyclePtr.obj.length_) ∧
      ∀ (E : Engine) (timeStep : ℚ) (s s' : AnimatedSprite2D) (p : Animation2DPtr),
        s.animation_ = some p → p.obj = Sample.cyclePtr.obj →
        s.currentTime_ + timeStep * s.speed_ = -7 / 2 →
        UpdateAnimation E timeStep s = .ok s' →
        ∃ st, evaluate E Sample.cyclePtr.obj time s.orderInLayer_ s.timelineNodes_
            (s.timelineTransformInfos_, s.children_) = .ok st ∧
          s'.timelineTransformInfos_ = st.1 ∧ s'.children_ = st.2) ∧
    fmodf (-7 / 2) Sample.cyclePtr.obj.length_ = .ok (-1 / 2) ∧
    sampleTime Sample.cyclePtr.obj (-7 / 2) = .ok (5 / 2) :=
  ⟨⟨by with_unfolding_all rfl, by decide!⟩,
    sampleTime_looped_range Sample.cyclePtr.obj (-7 / 2) (by with_unfolding_all rfl)
      (by decide!),
    by with_unfolding_all rfl, by with_unfolding_all rfl⟩

/-- C20 (the code at the failing input): in a reachable state whose entity table has a null
slot, `SetLayer` and `SetBlendMode` with a value different from the current one
dereference the null pointer at lines 91 and 110.  The sample animation `skeleton` has a
bone timeline and a sprite timeline: `SetAnimation` leaves the slot of the bone null, and
`SetLayer (1)` and `SetBlendMode (BLEND_ADD)` then fault, while `UpdateAnimation`, which
checks the slot, returns. -/
theorem setters_dereference_null_slot :
    (∀ (E : Engine) (s : AnimatedSprite2D) (i : Nat) (layer : Int), Reachable E s →
      s.timelineNodes_[i]? = some none → layer ≠ s.layer_ →
      SetLayer layer s = .error .nullDeref) ∧
    (∀ (E : Engine) (s : AnimatedSprite2D) (i : Nat) (blendMode : BlendMode), Reachable E s →
      s.timelineNodes_[i]? = some none → blendMode ≠ s.blendMode_ →
      SetBlendMode blendMode s = .error .nullDeref) ∧
    Sample.skeleton.Valid ∧ Sample.skeleton.Regular ∧
    Sample.skeleton.timelines_.map (fun timeline => timeline.type_)
      = [.OT_BONE, .OT_SPRITE] ∧
    SetAnimation Sample.engine (some Sample.skeletonPtr) init = .ok Sample.posed ∧
    Reachable Sample.engine Sample.posed ∧
    Sample.posed.timelineNodes_ = [none, some 0] ∧
    Sample.posed.layer_ = 0 ∧ Sample.posed.blendMode_ = .BLEND_ALPHA ∧
    SetLayer 1 Sample.posed = .error .nullDeref ∧
    SetBlendMode .BLEND_ADD Sample.posed = .error .nullDeref ∧
    ∃ s', UpdateAnimation Sample.engine (1 / 2) Sample.posed = .ok s' :=
  ⟨fun _ _ _ _ hreach hslot hne => SetLayer_nullDeref hreach.inv hslot hne,
    fun _ _ _ _ hreach hslot hne => SetBlendMode_nullDeref hreach.inv hslot hne,
    Sample.skeleton_valid, Sample.skeleton_regular, rfl, Sample.posed_run,
    Sample.posed_reachable, by with_unfolding_all rfl, by with_unfolding_all rfl,
    by with_unfolding_all rfl, by with_unfolding_all rfl, by with_unfolding_all rfl,
    ⟨_, by with_unfolding_all rfl⟩⟩

end Urho3D
